import Mathlib

/-!
Graph utilities: social network (Exercicio1.c) and city routes (Exercicio2.c).

Shallow embedding of the two C programs.

Modelling conventions
* A C array is a total map from index to value (`Nat → α`); `upd` is the
  assignment `a[i] = x`.  Bounds are proof obligations, not semantics.
* A linked adjacency list (`NoAdj*`, `NoRota*`) is a Lean `List`, head first.
  Node ids stored in a list are `Nat`: `criarNoAdj`/`criarNoRota` are only
  called with ids that passed the `>= 0` guard.
* `int` arguments that come from the caller (`id1`, `inicio_id`, `custo`) are `Int`.
  Arithmetic that can leave the 32-bit range goes through `wrapInt32`.
* `void` functions that print return the new graph together with an outcome.
* `while` loops and the recursion of `dfs_recursivo` take an explicit bound; running
  out of it is the outcome `indefinido`, never a normal result.
* Names are `String`; `strcmp(a, b) == 0` is `a = b`.  The name field is
  `char nome[NOME_MAX]` and the add functions fill it with `strcpy`, which stays inside
  the field only for names of fewer than `NOME_MAX` bytes (`nomeCabe`); `main` reads
  every name with `fgets(nome, NOME_MAX, stdin)`, so it passes only such names.  The
  add functions below are the C functions for names that fit, and the statements about
  stored names carry that condition: `nomeCabe` for the name that is added,
  `ConstruidoNomes` for the graphs built with such names.
-/

/-- Array assignment `a[i] = x`. -/
def upd {α : Type} (a : Nat → α) (i : Nat) (x : α) : Nat → α :=
  fun j => if j = i then x else a j

/-- Failure kinds printed by the operations. -/
inductive Erro where
  | idInvalido
  | duplicado
  | capacidade
  | autoLaco
  | custoNaoPositivo
  deriving DecidableEq, Repr

/-- Outcome of a traversal: the guard rejected the id, the call ran to completion,
or the loop bound was exhausted (the C code would still be running or would have
left its arrays). -/
inductive Saida (α : Type) where
  | idInvalido : Saida α
  | ok : α → Saida α
  | indefinido : Saida α
  deriving DecidableEq, Repr

namespace Exercicio1

def MAX_USUARIOS : Nat := 100

def NOME_MAX : Nat := 50

structure Usuario where
  id : Int
  nome : String
  deriving DecidableEq, Repr

structure Grafo where
  adj : Nat → List Nat
  usuarios : Nat → Usuario
  num_usuarios : Nat

/-- `inicializarGrafo`: count 0, every list empty, every slot marked `-1`.
The name bytes of a slot are not written by the C code; they are never read
below `num_usuarios`. -/
def inicializarGrafo : Grafo :=
  { adj := fun _ => [], usuarios := fun _ => ⟨-1, ""⟩, num_usuarios := 0 }

/-- `obterIdUsuarioPorNome`: first slot below the count whose id is not `-1` and
whose name matches; `-1` when there is none. -/
def obterIdUsuarioPorNome (g : Grafo) (nome : String) : Int :=
  match (List.range g.num_usuarios).find?
      (fun i => decide ((g.usuarios i).id ≠ -1) && decide ((g.usuarios i).nome = nome)) with
  | some i => (g.usuarios i).id
  | none => -1

/-- The name fits the field `char nome[NOME_MAX]` together with its terminating NUL:
it has fewer than `NOME_MAX` bytes.  For such names the `strcpy` of `adicionarUsuario`
stays inside the field; `main` reads every name with `fgets(nome, NOME_MAX, stdin)`. -/
def nomeCabe (nome : String) : Bool := decide (nome.utf8ByteSize < NOME_MAX)

/-- `adicionarUsuario`: capacity guard, then duplicate guard, then the insertion.
The insertion stores the name with `strcpy(g->usuarios[novo_id].nome, nome)`; the
stored name is `nome` when `nomeCabe nome` (a longer name would be written past the
field, which this function does not describe). -/
def adicionarUsuario (g : Grafo) (nome : String) : Grafo × Except Erro Nat :=
  if g.num_usuarios ≥ MAX_USUARIOS then (g, .error .capacidade)
  else if obterIdUsuarioPorNome g nome ≠ -1 then (g, .error .duplicado)
  else
    let novo_id := g.num_usuarios
    ({ adj := upd g.adj novo_id [],
       usuarios := upd g.usuarios novo_id ⟨(novo_id : Int), nome⟩,
       num_usuarios := g.num_usuarios + 1 }, .ok novo_id)

/-- The id guard shared by `criarConexao`, `bfs`, `dfs` and `sugerirAmigos`:
`id < 0 || id >= g->num_usuarios || g->usuarios[id].id == -1`. -/
def idInvalido (g : Grafo) (id : Int) : Bool :=
  decide (id < 0) || decide (id ≥ (g.num_usuarios : Int)) ||
    decide ((g.usuarios id.toNat).id = -1)

/-- `criarConexao`: id guard, self-loop guard, then two head insertions. -/
def criarConexao (g : Grafo) (id1 id2 : Int) : Grafo × Except Erro Unit :=
  if idInvalido g id1 || idInvalido g id2 then (g, .error .idInvalido)
  else if id1 = id2 then (g, .error .autoLaco)
  else
    let adj1 := upd g.adj id1.toNat (id2.toNat :: g.adj id1.toNat)
    let adj2 := upd adj1 id2.toNat (id1.toNat :: adj1 id2.toNat)
    ({ g with adj := adj2 }, .ok ())

/-- Local state of `bfs`: `visitado`, `fila`, `frente`, `tras`, and the ids
printed so far (in print order). -/
structure EstadoBfs where
  visitado : Nat → Bool
  fila : Nat → Nat
  frente : Nat
  tras : Nat
  saida : List Nat

/-- Body of the inner `while (atual != NULL)` of `bfs` for one list node. -/
def bfsVizinho (st : EstadoBfs) (v_id : Nat) : EstadoBfs :=
  if st.visitado v_id then st
  else { st with visitado := upd st.visitado v_id true,
                 fila := upd st.fila st.tras v_id,
                 tras := st.tras + 1 }

/-- One iteration of the outer `while (frente < tras)` of `bfs`. -/
def bfsPasso (g : Grafo) (st : EstadoBfs) : EstadoBfs :=
  let u_id := st.fila st.frente
  (g.adj u_id).foldl bfsVizinho
    { st with frente := st.frente + 1, saida := st.saida ++ [u_id] }

/-- The outer loop of `bfs`, at most `limite` iterations. -/
def bfsLaco (g : Grafo) : Nat → EstadoBfs → Option EstadoBfs
  | 0, st => if st.frente < st.tras then none else some st
  | limite + 1, st =>
    if st.frente < st.tras then bfsLaco g limite (bfsPasso g st) else some st

/-- State of `bfs` when the outer loop is entered. -/
def bfsInicio (inicio : Nat) : EstadoBfs :=
  { visitado := upd (fun _ => false) inicio true,
    fila := upd (fun _ => 0) 0 inicio,
    frente := 0, tras := 1, saida := [] }

/-- `bfs`: the printed visitation sequence.  The queue has `MAX_USUARIOS` slots,
so `frente` can advance at most that many times inside it. -/
def bfs (g : Grafo) (inicio_id : Int) : Saida (List Nat) :=
  if idInvalido g inicio_id then .idInvalido
  else
    match bfsLaco g MAX_USUARIOS (bfsInicio inicio_id.toNat) with
    | some st => .ok st.saida
    | none => .indefinido

/-- Local state of `dfs`: `visitado` and the ids printed so far. -/
structure EstadoDfs where
  visitado : Nat → Bool
  saida : List Nat

/-- `dfs_recursivo` with at most `prof` nested activations. -/
def dfs_recursivo (g : Grafo) : Nat → Nat → EstadoDfs → Option EstadoDfs
  | 0, _, _ => none
  | prof + 1, u_id, st =>
    (g.adj u_id).foldlM
      (fun s v_id => if s.visitado v_id then some s else dfs_recursivo g prof v_id s)
      { visitado := upd st.visitado u_id true, saida := st.saida ++ [u_id] }

/-- `dfs`: the printed visitation sequence, with the recursion bounded by the
number of users. -/
def dfs (g : Grafo) (inicio_id : Int) : Saida (List Nat) :=
  if idInvalido g inicio_id then .idInvalido
  else
    match dfs_recursivo g g.num_usuarios inicio_id.toNat ⟨fun _ => false, []⟩ with
    | some st => .ok st.saida
    | none => .indefinido

/-- Local state of the BFS inside `sugerirAmigos`. -/
structure EstadoSug where
  distancia : Nat → Int
  visitado : Nat → Bool
  fila : Nat → Nat
  frente : Nat
  tras : Nat

/-- Body of the inner loop of `sugerirAmigos` for one list node of `u_id`. -/
def sugVizinho (u_id : Nat) (st : EstadoSug) (v_id : Nat) : EstadoSug :=
  if st.visitado v_id then st
  else { st with visitado := upd st.visitado v_id true,
                 distancia := upd st.distancia v_id (st.distancia u_id + 1),
                 fila := upd st.fila st.tras v_id,
                 tras := st.tras + 1 }

/-- One iteration of the outer loop of `sugerirAmigos`. -/
def sugPasso (g : Grafo) (st : EstadoSug) : EstadoSug :=
  let u_id := st.fila st.frente
  (g.adj u_id).foldl (sugVizinho u_id) { st with frente := st.frente + 1 }

/-- The outer loop of `sugerirAmigos`, at most `limite` iterations. -/
def sugLaco (g : Grafo) : Nat → EstadoSug → Option EstadoSug
  | 0, st => if st.frente < st.tras then none else some st
  | limite + 1, st =>
    if st.frente < st.tras then sugLaco g limite (sugPasso g st) else some st

/-- State of `sugerirAmigos` when its BFS loop is entered. -/
def sugInicio (id_usuario : Nat) : EstadoSug :=
  { distancia := upd (fun _ => -1) id_usuario 0,
    visitado := upd (fun _ => false) id_usuario true,
    fila := upd (fun _ => 0) 0 id_usuario,
    frente := 0, tras := 1 }

/-- `sugerirAmigos`: the ids printed as suggestions, in print order. -/
def sugerirAmigos (g : Grafo) (id_usuario : Int) : Saida (List Nat) :=
  if idInvalido g id_usuario then .idInvalido
  else
    match sugLaco g MAX_USUARIOS (sugInicio id_usuario.toNat) with
    | some st => .ok ((List.range g.num_usuarios).filter (fun i => decide (st.distancia i = 2)))
    | none => .indefinido

end Exercicio1

namespace Exercicio2

def MAX_CIDADES : Nat := 100

def NOME_CIDADE_MAX : Nat := 50

def INFINITO : Int := 99999

/-- Value of a 32-bit `int` after an addition whose exact result is `x`
(two's-complement wrap-around). -/
def wrapInt32 (x : Int) : Int := (x + 2147483648) % 4294967296 - 2147483648

structure Cidade where
  id : Int
  nome : String
  deriving DecidableEq, Repr

structure NoRota where
  id_destino : Nat
  custo : Int
  deriving DecidableEq, Repr

structure Grafo where
  adj : Nat → List NoRota
  cidades : Nat → Cidade
  num_cidades : Nat

/-- `inicializarGrafo`: count 0, every list empty, every slot marked `-1`. -/
def inicializarGrafo : Grafo :=
  { adj := fun _ => [], cidades := fun _ => ⟨-1, ""⟩, num_cidades := 0 }

/-- `obterIdCidadePorNome`: first slot below the count whose id is not `-1` and
whose name matches; `-1` when there is none. -/
def obterIdCidadePorNome (g : Grafo) (nome : String) : Int :=
  match (List.range g.num_cidades).find?
      (fun i => decide ((g.cidades i).id ≠ -1) && decide ((g.cidades i).nome = nome)) with
  | some i => (g.cidades i).id
  | none => -1

/-- The name fits the field `char nome[NOME_CIDADE_MAX]` together with its terminating
NUL: it has fewer than `NOME_CIDADE_MAX` bytes.  For such names the `strcpy` of
`adicionarCidade` stays inside the field; `main` reads every name with
`fgets(nome, NOME_CIDADE_MAX, stdin)`. -/
def nomeCabe (nome : String) : Bool := decide (nome.utf8ByteSize < NOME_CIDADE_MAX)

/-- `adicionarCidade`: capacity guard, then duplicate guard, then the insertion.
The insertion stores the name with `strcpy(g->cidades[novo_id].nome, nome)`; the
stored name is `nome` when `nomeCabe nome` (a longer name would be written past the
field, which this function does not describe). -/
def adicionarCidade (g : Grafo) (nome : String) : Grafo × Except Erro Nat :=
  if g.num_cidades ≥ MAX_CIDADES then (g, .error .capacidade)
  else if obterIdCidadePorNome g nome ≠ -1 then (g, .error .duplicado)
  else
    let novo_id := g.num_cidades
    ({ adj := upd g.adj novo_id [],
       cidades := upd g.cidades novo_id ⟨(novo_id : Int), nome⟩,
       num_cidades := g.num_cidades + 1 }, .ok novo_id)

/-- The id guard shared by `criarRota` and `dijkstra`. -/
def idInvalido (g : Grafo) (id : Int) : Bool :=
  decide (id < 0) || decide (id ≥ (g.num_cidades : Int)) ||
    decide ((g.cidades id.toNat).id = -1)

/-- `criarRota`: id guard, self-loop guard, cost guard, then two head insertions. -/
def criarRota (g : Grafo) (id_origem id_destino custo : Int) : Grafo × Except Erro Unit :=
  if idInvalido g id_origem || idInvalido g id_destino then (g, .error .idInvalido)
  else if id_origem = id_destino then (g, .error .autoLaco)
  else if custo ≤ 0 then (g, .error .custoNaoPositivo)
  else
    let adj1 := upd g.adj id_origem.toNat (⟨id_destino.toNat, custo⟩ :: g.adj id_origem.toNat)
    let adj2 := upd adj1 id_destino.toNat (⟨id_origem.toNat, custo⟩ :: adj1 id_destino.toNat)
    ({ g with adj := adj2 }, .ok ())

/-- Local arrays of `dijkstra`. -/
structure EstadoDijkstra where
  dist : Nat → Int
  pai : Nat → Int
  visitado : Nat → Bool

/-- Body of the selection scan for one `v`; `none` is `u == -1`. -/
def selecionarPasso (st : EstadoDijkstra) (u : Option Nat) (v : Nat) : Option Nat :=
  if st.visitado v then u
  else
    match u with
    | none => some v
    | some u0 => if st.dist v < st.dist u0 then some v else some u0

/-- The selection scan `for (v = 0; v < num_cidades; v++)`. -/
def selecionar (n : Nat) (st : EstadoDijkstra) : Option Nat :=
  (List.range n).foldl (selecionarPasso st) none

/-- Relaxation of one list node of `u`. -/
def relaxar (u : Nat) (st : EstadoDijkstra) (no : NoRota) : EstadoDijkstra :=
  if !st.visitado no.id_destino &&
      decide (wrapInt32 (st.dist u + no.custo) < st.dist no.id_destino) then
    { st with dist := upd st.dist no.id_destino (wrapInt32 (st.dist u + no.custo)),
              pai := upd st.pai no.id_destino (u : Int) }
  else st

/-- The main loop `for (count = 0; count < num_cidades - 1; count++)` with
`restantes` iterations left.  `none`: the scan ended with `u == -1`, so
`dist[u]` would be read outside the array. -/
def dijkstraLaco (g : Grafo) : Nat → EstadoDijkstra → Option EstadoDijkstra
  | 0, st => some st
  | restantes + 1, st =>
    match selecionar g.num_cidades st with
    | none => none
    | some u =>
      if st.dist u = INFINITO then some st
      else dijkstraLaco g restantes
        ((g.adj u).foldl (relaxar u) { st with visitado := upd st.visitado u true })

/-- Arrays of `dijkstra` when the main loop is entered. -/
def dijkstraInicio (inicio : Nat) : EstadoDijkstra :=
  { dist := upd (fun _ => INFINITO) inicio 0, pai := fun _ => -1, visitado := fun _ => false }

/-- Arrays of `dijkstra` after the main loop. -/
def dijkstraFinal (g : Grafo) (inicio : Nat) : Option EstadoDijkstra :=
  dijkstraLaco g (g.num_cidades - 1) (dijkstraInicio inicio)

/-- The loop `while (atual_caminho != -1) caminho[k++] = atual_caminho; ...`:
the filled prefix of `caminho`, index 0 first.  `livres` is the number of free
slots of `caminho`; `none` when the loop needs more than that. -/
def reconstruir (pai : Nat → Int) : Nat → Int → List Nat → Option (List Nat)
  | livres, atual, caminho =>
    if atual = -1 then some caminho
    else
      match livres with
      | 0 => none
      | livres0 + 1 => reconstruir pai livres0 (pai atual.toNat) (caminho ++ [atual.toNat])

/-- What `dijkstra` prints for one city. -/
inductive Relatorio where
  | inatingivel
  | custo (total : Int) (caminho : List Nat)
  deriving DecidableEq, Repr

/-- Report line of city `i`: the path is `caminho` printed from `k - 1` down to 0. -/
def relatorio (st : EstadoDijkstra) (i : Nat) : Option Relatorio :=
  if st.dist i = INFINITO then some .inatingivel
  else (reconstruir st.pai MAX_CIDADES (i : Int) []).map (fun c => .custo (st.dist i) c.reverse)

/-- `dijkstra`: the report lines, one per city other than the start, in id order. -/
def dijkstra (g : Grafo) (id_inicio : Int) : Saida (List (Nat × Relatorio)) :=
  if idInvalido g id_inicio then .idInvalido
  else
    match dijkstraFinal g id_inicio.toNat with
    | none => .indefinido
    | some st =>
      match ((List.range g.num_cidades).filter (fun i => decide (i ≠ id_inicio.toNat))).mapM
          (fun i => (relatorio st i).map (fun r => (i, r))) with
      | some linhas => .ok linhas
      | none => .indefinido

end Exercicio2

/-! ## Specification-level notions -/

namespace Exercicio1

/-- Social graphs reachable from the empty graph by add-user and create-connection
calls (failing calls included: they return the graph unchanged). -/
inductive Construido : Grafo → Prop
  | vazio : Construido inicializarGrafo
  | usuario {g : Grafo} (nome : String) : Construido g → Construido (adicionarUsuario g nome).1
  | conexao {g : Grafo} (id1 id2 : Int) : Construido g → Construido (criarConexao g id1 id2).1

/-- Social graphs reachable from the empty graph by add-user calls whose name fits
the name field and by create-connection calls (failing calls included). -/
inductive ConstruidoNomes : Grafo → Prop
  | vazio : ConstruidoNomes inicializarGrafo
  | usuario {g : Grafo} (nome : String) : nomeCabe nome = true → ConstruidoNomes g →
      ConstruidoNomes (adicionarUsuario g nome).1
  | conexao {g : Grafo} (id1 id2 : Int) : ConstruidoNomes g →
      ConstruidoNomes (criarConexao g id1 id2).1

/-- The facts about a constructed graph that the traversals rely on. -/
structure BemFormado (g : Grafo) : Prop where
  cap : g.num_usuarios ≤ MAX_USUARIOS
  ids : ∀ i, i < g.num_usuarios → (g.usuarios i).id = (i : Int)
  adj_lt : ∀ i v, v ∈ g.adj i → v < g.num_usuarios

/-- `b` is reachable from `a` by a chain of friendships. -/
def Alcanca (g : Grafo) (a b : Nat) : Prop :=
  Relation.ReflTransGen (fun x y => y ∈ g.adj x) a b

/-- There is a walk with exactly `k` edges from `a` to the last argument. -/
inductive Passeio (g : Grafo) (a : Nat) : Nat → Nat → Prop
  | nil : Passeio g a 0 a
  | snoc {k b c : Nat} : Passeio g a k b → c ∈ g.adj b → Passeio g a (k + 1) c

/-- The shortest hop-distance from `a` to `b` is `k`. -/
def DistSaltos (g : Grafo) (a b k : Nat) : Prop :=
  Passeio g a k b ∧ ∀ j, Passeio g a j b → k ≤ j

end Exercicio1

namespace Exercicio1

/-- Queue invariant shared by `bfs` and the BFS of `sugerirAmigos`, over the
arrays `visitado`, `fila` and the indices `frente`, `tras`; `s` is the start. -/
structure InvFila (g : Grafo) (s : Nat) (vis : Nat → Bool) (fila : Nat → Nat)
    (frente tras : Nat) : Prop where
  frente_le : frente ≤ tras
  tras_pos : 0 < tras
  fila0 : fila 0 = s
  lt : ∀ i, i < tras → fila i < g.num_usuarios
  inj : ∀ i j, i < tras → j < tras → fila i = fila j → i = j
  vis_iff : ∀ v, vis v = true ↔ ∃ i, i < tras ∧ fila i = v
  alc : ∀ i, i < tras → Alcanca g s (fila i)

/-- Every neighbour of the first `k` queue entries is marked visited. -/
def Fechado (g : Grafo) (vis : Nat → Bool) (fila : Nat → Nat) (k : Nat) : Prop :=
  ∀ i, i < k → ∀ w, w ∈ g.adj (fila i) → vis w = true

end Exercicio1

namespace Exercicio1

/-- The arrays `vis'`, `fila'` with write index `tr'` extend `vis`, `fila`, `tr`:
nothing already written was changed. -/
structure Estende (vis : Nat → Bool) (fila : Nat → Nat) (tr : Nat)
    (vis' : Nat → Bool) (fila' : Nat → Nat) (tr' : Nat) : Prop where
  tras_le : tr ≤ tr'
  fila_eq : ∀ i, i < tr → fila' i = fila i
  mono : ∀ w, vis w = true → vis' w = true

/-- Invariant of the outer loop of `bfs`. -/
def InvBfs (g : Grafo) (s : Nat) (st : EstadoBfs) : Prop :=
  InvFila g s st.visitado st.fila st.frente st.tras ∧
    st.saida = (List.range st.frente).map st.fila

end Exercicio1

namespace Exercicio1

/-- Number of ids below `n` that are not marked in `vis`. -/
def naoVisitados (n : Nat) (vis : Nat → Bool) : Nat :=
  ((Finset.range n).filter (fun i => vis i = false)).card

/-- Effect of a stretch of the depth-first traversal that starts in `st`, ends in
`st'` and works below the vertex `r`: marks are only added, the ids printed are
exactly the newly marked ones, each once, and each is reachable from `r`. -/
structure EfeitoDfs (g : Grafo) (r : Nat) (st st' : EstadoDfs) : Prop where
  mono : ∀ w, st.visitado w = true → st'.visitado w = true
  saida : ∃ novos, st'.saida = st.saida ++ novos ∧ novos.Nodup ∧
    ∀ w, w ∈ novos ↔ (st.visitado w = false ∧ st'.visitado w = true)
  alc : ∀ w, st.visitado w = false → st'.visitado w = true → Alcanca g r w

/-- Every vertex marked between `st` and `st'` has all its neighbours marked in `st'`. -/
def FechadoDfs (g : Grafo) (st st' : EstadoDfs) : Prop :=
  ∀ w, st.visitado w = false → st'.visitado w = true →
    ∀ x, x ∈ g.adj w → st'.visitado x = true

end Exercicio1

namespace Exercicio1

/-- Distance part of the invariant of the BFS inside `sugerirAmigos`. -/
structure InvDist (g : Grafo) (s : Nat) (dist : Nat → Int) (vis : Nat → Bool)
    (fila : Nat → Nat) (tras : Nat) : Prop where
  zero : dist s = 0
  passeio : ∀ i, i < tras → ∃ k : Nat, dist (fila i) = (k : Int) ∧ Passeio g s k (fila i)
  mono : ∀ i j, i ≤ j → j < tras → dist (fila i) ≤ dist (fila j)
  nao_vis : ∀ v, vis v = false → dist v = -1

/-- Invariant of the inner loop of `sugerirAmigos` while the list of `u` is walked. -/
structure InvSugMeio (g : Grafo) (s u : Nat) (st : EstadoSug) : Prop where
  fila : InvFila g s st.visitado st.fila st.frente st.tras
  dist : InvDist g s st.distancia st.visitado st.fila st.tras
  lim : ∀ j, j < st.tras → st.distancia (st.fila j) ≤ st.distancia u + 1
  u_fila : ∃ i, i < st.tras ∧ st.fila i = u

/-- Every neighbour of the first `k` queue entries is marked and at most one
level further than the entry. -/
def ArestasOk (g : Grafo) (vis : Nat → Bool) (dist : Nat → Int) (fila : Nat → Nat)
    (k : Nat) : Prop :=
  ∀ i, i < k → ∀ w, w ∈ g.adj (fila i) → vis w = true ∧ dist w ≤ dist (fila i) + 1

/-- Invariant of the outer loop of `sugerirAmigos`. -/
structure InvSug (g : Grafo) (s : Nat) (st : EstadoSug) : Prop where
  fila : InvFila g s st.visitado st.fila st.frente st.tras
  dist : InvDist g s st.distancia st.visitado st.fila st.tras
  lim : st.frente < st.tras →
    ∀ j, j < st.tras → st.distancia (st.fila j) ≤ st.distancia (st.fila st.frente) + 1
  arestas : ArestasOk g st.visitado st.distancia st.fila st.frente

end Exercicio1

namespace Exercicio1

/-- The scenario graph: users A, B, C (ids 0, 1, 2) with friendships A-B and B-C. -/
def grafoABC : Grafo :=
  (criarConexao (criarConexao (adicionarUsuario (adicionarUsuario (adicionarUsuario
    inicializarGrafo "A").1 "B").1 "C").1 0 1).1 1 2).1

/-- Users A, B, C, D (ids 0..3) with friendships A-C, A-B, B-D, created in this order:
the list of A is `[1, 2]`, so the traversal goes below B before it reaches C. -/
def grafoRamos : Grafo :=
  (criarConexao (criarConexao (criarConexao (adicionarUsuario (adicionarUsuario
    (adicionarUsuario (adicionarUsuario inicializarGrafo "A").1 "B").1 "C").1 "D").1
    0 2).1 0 1).1 1 3).1

end Exercicio1

namespace Exercicio1

/-- The name is held by a registered user (a slot below the count whose id is set). -/
def Registrado (g : Grafo) (nome : String) : Prop :=
  ∃ i, i < g.num_usuarios ∧ (g.usuarios i).id ≠ -1 ∧ (g.usuarios i).nome = nome

/-- Name of the `i`-th user of `grafoCheio`: two letters, `aa`, `ab`, ..., `jj`
for `i` = 0, 1, ..., 99 (the tens digit, then the units digit, as letters from `a`). -/
def nomeDe (i : Nat) : String := String.mk [Char.ofNat (97 + i / 10), Char.ofNat (97 + i % 10)]

/-- A full registry: `MAX_USUARIOS` users added one after the other. -/
def grafoCheio : Grafo :=
  (List.range MAX_USUARIOS).foldl (fun g i => (adicionarUsuario g (nomeDe i)).1) inicializarGrafo

end Exercicio1

namespace Exercicio2

/-- The name is held by a registered city (a slot below the count whose id is set). -/
def Registrado (g : Grafo) (nome : String) : Prop :=
  ∃ i, i < g.num_cidades ∧ (g.cidades i).id ≠ -1 ∧ (g.cidades i).nome = nome

/-- Name of the `i`-th city of `grafoCheio`: two letters, `aa`, `ab`, ..., `jj`
for `i` = 0, 1, ..., 99 (the tens digit, then the units digit, as letters from `a`). -/
def nomeDe (i : Nat) : String := String.mk [Char.ofNat (97 + i / 10), Char.ofNat (97 + i % 10)]

/-- A full registry: `MAX_CIDADES` cities added one after the other. -/
def grafoCheio : Grafo :=
  (List.range MAX_CIDADES).foldl (fun g i => (adicionarCidade g (nomeDe i)).1) inicializarGrafo

end Exercicio2

namespace Exercicio2

/-- Route graphs reachable from the empty graph by add-city and create-route calls
(failing calls included: they return the graph unchanged). -/
inductive Construido : Grafo → Prop
  | vazio : Construido inicializarGrafo
  | cidade {g : Grafo} (nome : String) : Construido g → Construido (adicionarCidade g nome).1
  | rota {g : Grafo} (id_origem id_destino custo : Int) :
      Construido g → Construido (criarRota g id_origem id_destino custo).1

/-- Route graphs reachable from the empty graph by add-city calls whose name fits the
name field and by create-route calls (failing calls included). -/
inductive ConstruidoNomes : Grafo → Prop
  | vazio : ConstruidoNomes inicializarGrafo
  | cidade {g : Grafo} (nome : String) : nomeCabe nome = true → ConstruidoNomes g →
      ConstruidoNomes (adicionarCidade g nome).1
  | rota {g : Grafo} (id_origem id_destino custo : Int) : ConstruidoNomes g →
      ConstruidoNomes (criarRota g id_origem id_destino custo).1

/-- There is a path from `a` to the city given next whose stored edge weights add
up (exactly, without wrap-around) to the last argument. -/
inductive Caminho (g : Grafo) (a : Nat) : Nat → Int → Prop
  | nil : Caminho g a a 0
  | snoc {b : Nat} {total : Int} (no : NoRota) :
      Caminho g a b total → no ∈ g.adj b → Caminho g a no.id_destino (total + no.custo)

/-- The cheapest path from `a` to `b` costs `c`. -/
def CustoMinimo (g : Grafo) (a b : Nat) (c : Int) : Prop :=
  Caminho g a b c ∧ ∀ c', Caminho g a b c' → c ≤ c'

/-- The listed cities are joined, pair by pair, by stored edges whose weights add
up (exactly) to the last argument. -/
inductive CustoAoLongo (g : Grafo) : List Nat → Int → Prop
  | um (a : Nat) : CustoAoLongo g [a] 0
  | passo {a b : Nat} {resto : List Nat} {w total : Int} :
      (⟨b, w⟩ : NoRota) ∈ g.adj a → CustoAoLongo g (b :: resto) total →
      CustoAoLongo g (a :: b :: resto) (w + total)

/-- Cities A, B (ids 0, 1) and the route A-B of cost 100000. -/
def grafoLonge : Grafo :=
  (criarRota (adicionarCidade (adicionarCidade inicializarGrafo "A").1 "B").1 0 1 100000).1

/-- Cities A, B, C (ids 0, 1, 2) and the routes A-B of cost 99999 and B-C of cost 1. -/
def grafoSentinela : Grafo :=
  (criarRota (criarRota (adicionarCidade (adicionarCidade (adicionarCidade
    inicializarGrafo "A").1 "B").1 "C").1 0 1 99999).1 1 2 1).1

/-- Cities A, B, C (ids 0, 1, 2) and the routes A-B of cost 1 and B-C of cost
2147483647 (`INT_MAX`). -/
def grafoEstouro : Grafo :=
  (criarRota (criarRota (adicionarCidade (adicionarCidade (adicionarCidade
    inicializarGrafo "A").1 "B").1 "C").1 0 1 1).1 1 2 2147483647).1

end Exercicio2

namespace Exercicio1

/-- Registry invariant of the social graph. -/
structure InvRegistro (g : Grafo) : Prop where
  cap : g.num_usuarios ≤ MAX_USUARIOS
  ids : ∀ i, i < g.num_usuarios → (g.usuarios i).id = (i : Int)
  livres : ∀ i, g.num_usuarios ≤ i → (g.usuarios i).id = -1
  nomes : ∀ i j, i < g.num_usuarios → j < g.num_usuarios →
    (g.usuarios i).nome = (g.usuarios j).nome → i = j

/-- Adjacency invariant of the social graph. -/
structure InvAdj (g : Grafo) : Prop where
  lt : ∀ i v, v ∈ g.adj i → v < g.num_usuarios
  sem_laco : ∀ i, i ∉ g.adj i
  sim : ∀ a b, (g.adj a).count b = (g.adj b).count a
  vazio : ∀ i, g.num_usuarios ≤ i → g.adj i = []

end Exercicio1

namespace Exercicio2

/-- Registry invariant of the route graph. -/
structure InvRegistro (g : Grafo) : Prop where
  cap : g.num_cidades ≤ MAX_CIDADES
  ids : ∀ i, i < g.num_cidades → (g.cidades i).id = (i : Int)
  livres : ∀ i, g.num_cidades ≤ i → (g.cidades i).id = -1
  nomes : ∀ i j, i < g.num_cidades → j < g.num_cidades →
    (g.cidades i).nome = (g.cidades j).nome → i = j

/-- Adjacency invariant of the route graph. -/
structure InvAdj (g : Grafo) : Prop where
  lt : ∀ i no, no ∈ g.adj i → no.id_destino < g.num_cidades
  sem_laco : ∀ i no, no ∈ g.adj i → no.id_destino ≠ i
  positivo : ∀ i no, no ∈ g.adj i → 0 < no.custo
  sim : ∀ a b w, (g.adj a).count ⟨b, w⟩ = (g.adj b).count ⟨a, w⟩
  vazio : ∀ i, g.num_cidades ≤ i → g.adj i = []

end Exercicio2

namespace Exercicio1

/-- The `bfs` state and the `sugerirAmigos` state hold the same marks and queue. -/
def MesmaFila (sb : EstadoBfs) (ss : EstadoSug) : Prop :=
  sb.visitado = ss.visitado ∧ sb.fila = ss.fila ∧ sb.frente = ss.frente ∧ sb.tras = ss.tras

end Exercicio1

namespace Exercicio1

/-- Every element of `s1` is in the adjacency list of `a` or of an element that
comes before it in `s1`. -/
def Descendentes (g : Grafo) (a : Nat) (s1 : List Nat) : Prop :=
  ∀ t1 b t2, s1 = t1 ++ b :: t2 → ∃ p, p ∈ a :: t1 ∧ b ∈ g.adj p

/-- Shape of a stretch `seg` of the depth-first output, `visB` being the marks when the
stretch begins: behind each vertex `a` of `seg` comes a block `s1` of vertices reached
below `a`, and every neighbour of `a` was marked before the stretch, or printed before
`a`, or is in that block. -/
def OrdemDfs (g : Grafo) (visB : Nat → Bool) (seg : List Nat) : Prop :=
  ∀ pre a suf, seg = pre ++ a :: suf →
    ∃ s1 s2, suf = s1 ++ s2 ∧ Descendentes g a s1 ∧
      ∀ x, x ∈ g.adj a → visB x = true ∨ x ∈ pre ∨ x = a ∨ x ∈ s1

end Exercicio1

namespace Exercicio2

/-- Structural invariant of the main loop of `dijkstra` after `k` cities have been
marked; `t` is the rank at which a marked city was marked.  It does not depend on the
values in `dist`. -/
structure InvDij (g : Grafo) (st : EstadoDijkstra) (t : Nat → Nat) (k : Nat) : Prop where
  contagem : g.num_cidades ≤ Exercicio1.naoVisitados g.num_cidades st.visitado + k
  rank : ∀ v, st.visitado v = true → t v < k
  pai : ∀ v, st.pai v ≠ -1 → ∃ u : Nat, st.pai v = (u : Int) ∧ st.visitado u = true ∧
    (st.visitado v = true → t u < t v)

end Exercicio2

namespace Exercicio2

/-- `IterDij g s j st`: `st` holds the arrays of `dijkstra` from start `s` at the head
of the main loop when `count = j`, the body having run (without `break`) `j` times. -/
inductive IterDij (g : Grafo) (s : Nat) : Nat → EstadoDijkstra → Prop
  | inicio : IterDij g s 0 (dijkstraInicio s)
  | passo {j : Nat} {st : EstadoDijkstra} {u : Nat} :
      IterDij g s j st → j + 1 < g.num_cidades →
      selecionar g.num_cidades st = some u → st.dist u ≠ INFINITO →
      IterDij g s (j + 1)
        ((g.adj u).foldl (relaxar u) { st with visitado := upd st.visitado u true })

end Exercicio2

namespace Exercicio1

/-- `ExecBfs g inicio st resto`: at some point of `bfs` from `inicio` the local state is
`st` and `resto` holds the nodes of the adjacency list being walked that are still
ahead (`[]` at the head of the outer loop). -/
inductive ExecBfs (g : Grafo) (inicio : Nat) : EstadoBfs → List Nat → Prop
  | inicio : ExecBfs g inicio (bfsInicio inicio) []
  | desenfileira {st : EstadoBfs} : ExecBfs g inicio st [] → st.frente < st.tras →
      ExecBfs g inicio
        { st with frente := st.frente + 1, saida := st.saida ++ [st.fila st.frente] }
        (g.adj (st.fila st.frente))
  | vizinho {st : EstadoBfs} {v : Nat} {resto : List Nat} :
      ExecBfs g inicio st (v :: resto) → ExecBfs g inicio (bfsVizinho st v) resto

/-- `ExecSug g inicio st u resto`: at some point of the BFS inside `sugerirAmigos` from
`inicio` the local state is `st`, the dequeued user is `u` and `resto` holds the nodes
of its list that are still ahead (`[]` at the head of the outer loop). -/
inductive ExecSug (g : Grafo) (inicio : Nat) : EstadoSug → Nat → List Nat → Prop
  | inicio : ExecSug g inicio (sugInicio inicio) inicio []
  | desenfileira {st : EstadoSug} {u : Nat} : ExecSug g inicio st u [] →
      st.frente < st.tras →
      ExecSug g inicio { st with frente := st.frente + 1 } (st.fila st.frente)
        (g.adj (st.fila st.frente))
  | vizinho {st : EstadoSug} {u v : Nat} {resto : List Nat} :
      ExecSug g inicio st u (v :: resto) → ExecSug g inicio (sugVizinho u st v) u resto

end Exercicio1

namespace Exercicio2

/-- Sum of the costs of the nodes of one adjacency list. -/
def somaLista (l : List NoRota) : Int := (l.map (fun no => no.custo)).sum

/-- Sum of the costs of all nodes stored in the adjacency lists.  `criarRota` stores
each route as two nodes, so this is twice the sum of the route costs. -/
def somaEntradas (g : Grafo) : Int :=
  ((List.range g.num_cidades).map (fun u => somaLista (g.adj u))).sum

/-- The cost of node `no` of the list of `u` when `u` is marked and the destination is
unmarked or was marked after `u` (`t` is the marking rank); 0 otherwise.  Of the two
nodes of a route at most one is counted. -/
def contaNo (vis : Nat → Bool) (t : Nat → Nat) (u : Nat) (no : NoRota) : Int :=
  if vis u = true ∧ (vis no.id_destino = false ∨ t u < t no.id_destino) then no.custo else 0

/-- Counted cost of one list. -/
def potLista (vis : Nat → Bool) (t : Nat → Nat) (u : Nat) (l : List NoRota) : Int :=
  (l.map (contaNo vis t u)).sum

/-- Counted cost of the whole store: an upper bound for the tentative distances. -/
def potencial (g : Grafo) (vis : Nat → Bool) (t : Nat → Nat) : Int :=
  ((List.range g.num_cidades).map (fun u => potLista vis t u (g.adj u))).sum

/-- Cities A, B, C, D (ids 0..3) with routes A-B 1, B-C 2, A-C 4, C-D 1. -/
def grafoABCD : Grafo :=
  (criarRota (criarRota (criarRota (criarRota (adicionarCidade (adicionarCidade
    (adicionarCidade (adicionarCidade inicializarGrafo "A").1 "B").1 "C").1 "D").1
    0 1 1).1 1 2 2).1 0 2 4).1 2 3 1).1

end Exercicio2

namespace Exercicio2

/-- Distance invariant of the main loop of `dijkstra` from start `s` after `k` cities
have been marked with ranks `t`, for stores whose counted cost stays below the
sentinel. -/
structure InvCusto (g : Grafo) (s : Nat) (st : EstadoDijkstra) (t : Nat → Nat) (k : Nat) :
    Prop where
  ini : st.dist s = 0
  faixa : ∀ v, 0 ≤ st.dist v ∧ st.dist v ≤ INFINITO
  caminho : ∀ v, st.dist v ≠ INFINITO → Caminho g s v (st.dist v)
  marcado : ∀ u, st.visitado u = true → st.dist u ≠ INFINITO
  arestas : ∀ u no, st.visitado u = true → no ∈ g.adj u →
    st.dist no.id_destino ≤ st.dist u + no.custo
  ordem : ∀ u v, st.visitado u = true → st.visitado v = false → v < g.num_cidades →
    st.dist u ≤ st.dist v
  pot : ∀ v, st.dist v ≠ INFINITO → st.dist v ≤ potencial g st.visitado t
  fronteira : ∀ u no, st.visitado u = true → no ∈ g.adj u →
    st.dist no.id_destino ≠ INFINITO
  limite : Exercicio1.naoVisitados g.num_cidades st.visitado + k ≤ g.num_cidades

end Exercicio2

/-! ## Registry and construction lemmas -/

theorem upd_same {α : Type} (a : Nat → α) (i : Nat) (x : α) : upd a i x i = x := by
  simp [upd]

theorem upd_other {α : Type} (a : Nat → α) (i j : Nat) (x : α) (h : j ≠ i) :
    upd a i x j = a j := by
  simp [upd, h]

namespace Exercicio1

theorem idInvalido_false_iff (g : Grafo) (id : Int) :
    idInvalido g id = false ↔
      0 ≤ id ∧ id < (g.num_usuarios : Int) ∧ (g.usuarios id.toNat).id ≠ -1 := by
  simp only [idInvalido, Bool.or_eq_false_iff, decide_eq_false_iff_not]
  constructor
  · rintro ⟨⟨h1, h2⟩, h3⟩
    exact ⟨by omega, by omega, h3⟩
  · rintro ⟨h1, h2, h3⟩
    exact ⟨⟨by omega, by omega⟩, h3⟩

theorem idInvalido_false_of_bemFormado {g : Grafo} (hg : BemFormado g) {id : Int}
    (h0 : 0 ≤ id) (h1 : id < (g.num_usuarios : Int)) : idInvalido g id = false := by
  rw [idInvalido_false_iff]
  refine ⟨h0, h1, ?_⟩
  have hlt : id.toNat < g.num_usuarios := by omega
  rw [hg.ids _ hlt]
  omega

theorem bemFormado_inicializarGrafo : BemFormado inicializarGrafo := by
  refine ⟨?_, ?_, ?_⟩
  · simp [inicializarGrafo, MAX_USUARIOS]
  · intro i hi
    simp [inicializarGrafo] at hi
  · intro i v hv
    simp [inicializarGrafo] at hv

theorem bemFormado_adicionarUsuario {g : Grafo} (hg : BemFormado g) (nome : String) :
    BemFormado (adicionarUsuario g nome).1 := by
  unfold adicionarUsuario
  split_ifs with h1 h2
  · exact hg
  · exact hg
  · refine ⟨?_, ?_, ?_⟩
    · simp only [ge_iff_le, not_le] at h1
      show g.num_usuarios + 1 ≤ MAX_USUARIOS
      omega
    · intro i hi
      simp only at hi
      show (upd g.usuarios g.num_usuarios _ i).id = (i : Int)
      by_cases hin : i = g.num_usuarios
      · subst hin
        rw [upd_same]
      · rw [upd_other _ _ _ _ hin]
        exact hg.ids i (by omega)
    · intro i v hv
      show v < g.num_usuarios + 1
      change v ∈ upd g.adj g.num_usuarios [] i at hv
      by_cases hin : i = g.num_usuarios
      · subst hin
        rw [upd_same] at hv
        simp at hv
      · rw [upd_other _ _ _ _ hin] at hv
        have := hg.adj_lt i v hv
        omega

theorem bemFormado_criarConexao {g : Grafo} (hg : BemFormado g) (id1 id2 : Int) :
    BemFormado (criarConexao g id1 id2).1 := by
  unfold criarConexao
  split_ifs with h1 h2
  · exact hg
  · exact hg
  · simp only [Bool.or_eq_true, not_or, Bool.not_eq_true] at h1
    obtain ⟨ha, hb⟩ := h1
    rw [idInvalido_false_iff] at ha hb
    have h1lt : id1.toNat < g.num_usuarios := by omega
    have h2lt : id2.toNat < g.num_usuarios := by omega
    refine ⟨hg.cap, hg.ids, ?_⟩
    intro i v hv
    show v < g.num_usuarios
    change v ∈ upd (upd g.adj id1.toNat (id2.toNat :: g.adj id1.toNat)) id2.toNat
      (id1.toNat :: upd g.adj id1.toNat (id2.toNat :: g.adj id1.toNat) id2.toNat) i at hv
    by_cases hi2 : i = id2.toNat
    · subst hi2
      rw [upd_same] at hv
      rcases List.mem_cons.mp hv with hv | hv
      · omega
      · by_cases hi1 : id2.toNat = id1.toNat
        · rw [hi1, upd_same] at hv
          rcases List.mem_cons.mp hv with hv | hv
          · omega
          · exact hg.adj_lt _ v hv
        · rw [upd_other _ _ _ _ hi1] at hv
          exact hg.adj_lt _ v hv
    · rw [upd_other _ _ _ _ hi2] at hv
      by_cases hi1 : i = id1.toNat
      · subst hi1
        rw [upd_same] at hv
        rcases List.mem_cons.mp hv with hv | hv
        · omega
        · exact hg.adj_lt _ v hv
      · rw [upd_other _ _ _ _ hi1] at hv
        exact hg.adj_lt _ v hv

theorem bemFormado_of_construido {g : Grafo} (h : Construido g) : BemFormado g := by
  induction h with
  | vazio => exact bemFormado_inicializarGrafo
  | usuario nome _ ih => exact bemFormado_adicionarUsuario ih nome
  | conexao id1 id2 _ ih => exact bemFormado_criarConexao ih id1 id2

end Exercicio1

/-! ## Breadth-first search: the queue invariant -/

namespace Exercicio1

theorem invFila_enfileira {g : Grafo} {s : Nat} {vis : Nat → Bool} {fila : Nat → Nat}
    {fr tr v : Nat} (h : InvFila g s vis fila fr tr)
    (hv : vis v = false) (hlt : v < g.num_usuarios) (ha : Alcanca g s v) :
    InvFila g s (upd vis v true) (upd fila tr v) fr (tr + 1) := by
  have hnot : ∀ j, j < tr → fila j ≠ v := by
    intro j hj hjv
    have : vis v = true := (h.vis_iff v).mpr ⟨j, hj, hjv⟩
    rw [hv] at this
    exact Bool.noConfusion this
  refine ⟨?_, ?_, ?_, ?_, ?_, ?_, ?_⟩
  · have := h.frente_le
    omega
  · omega
  · have := h.tras_pos
    rw [upd_other _ _ _ _ (by omega)]
    exact h.fila0
  · intro i hi
    by_cases hit : i = tr
    · rw [hit, upd_same]
      exact hlt
    · rw [upd_other _ _ _ _ hit]
      exact h.lt i (by omega)
  · intro i j hi hj hij
    by_cases hit : i = tr
    · by_cases hjt : j = tr
      · omega
      · rw [hit, upd_same, upd_other _ _ _ _ hjt] at hij
        exact absurd hij.symm (hnot j (by omega))
    · by_cases hjt : j = tr
      · rw [hjt, upd_same, upd_other _ _ _ _ hit] at hij
        exact absurd hij (hnot i (by omega))
      · rw [upd_other _ _ _ _ hit, upd_other _ _ _ _ hjt] at hij
        exact h.inj i j (by omega) (by omega) hij
  · intro w
    constructor
    · intro hw
      by_cases hwv : w = v
      · exact ⟨tr, by omega, by rw [upd_same, hwv]⟩
      · rw [upd_other _ _ _ _ hwv] at hw
        obtain ⟨i, hi, hiw⟩ := (h.vis_iff w).mp hw
        exact ⟨i, by omega, by rw [upd_other _ _ _ _ (by omega)]; exact hiw⟩
    · rintro ⟨i, hi, hiw⟩
      by_cases hwv : w = v
      · rw [hwv, upd_same]
      · rw [upd_other _ _ _ _ hwv]
        by_cases hit : i = tr
        · rw [hit, upd_same] at hiw
          exact absurd hiw.symm hwv
        · rw [upd_other _ _ _ _ hit] at hiw
          exact (h.vis_iff w).mpr ⟨i, by omega, hiw⟩
  · intro i hi
    by_cases hit : i = tr
    · rw [hit, upd_same]
      exact ha
    · rw [upd_other _ _ _ _ hit]
      exact h.alc i (by omega)

theorem InvFila.avanca {g : Grafo} {s : Nat} {vis : Nat → Bool} {fila : Nat → Nat}
    {fr tr : Nat} (h : InvFila g s vis fila fr tr) (hlt : fr < tr) :
    InvFila g s vis fila (fr + 1) tr :=
  ⟨hlt, h.tras_pos, h.fila0, h.lt, h.inj, h.vis_iff, h.alc⟩

/-- The queue never holds more entries than there are users. -/
theorem InvFila.tras_le {g : Grafo} {s : Nat} {vis : Nat → Bool} {fila : Nat → Nat}
    {fr tr : Nat} (h : InvFila g s vis fila fr tr) : tr ≤ g.num_usuarios := by
  have hcard := Finset.card_le_card_of_injOn (s := Finset.range tr)
    (t := Finset.range g.num_usuarios) fila
    (fun i hi => Finset.mem_range.mpr (h.lt i (Finset.mem_range.mp hi)))
    (fun i hi j hj hij => h.inj i j (Finset.mem_range.mp hi) (Finset.mem_range.mp hj) hij)
  simpa using hcard

theorem invFila_inicio (g : Grafo) {s : Nat} (hs : s < g.num_usuarios) :
    InvFila g s (upd (fun _ => false) s true) (upd (fun _ => 0) 0 s) 0 1 := by
  refine ⟨by omega, by omega, upd_same _ _ _, ?_, ?_, ?_, ?_⟩
  · intro i hi
    have : i = 0 := by omega
    rw [this, upd_same]
    exact hs
  · intro i j hi hj _
    omega
  · intro v
    constructor
    · intro hv
      by_cases hvs : v = s
      · exact ⟨0, by omega, by rw [upd_same, hvs]⟩
      · rw [upd_other _ _ _ _ hvs] at hv
        exact Bool.noConfusion hv
    · rintro ⟨i, hi, hiv⟩
      have : i = 0 := by omega
      rw [this, upd_same] at hiv
      rw [← hiv, upd_same]
  · intro i hi
    have : i = 0 := by omega
    rw [this, upd_same]
    exact Relation.ReflTransGen.refl

/-- A visited set that contains the start and is closed under adjacency contains
everything reachable. -/
theorem visitado_of_alcanca {g : Grafo} {s : Nat} {vis : Nat → Bool}
    (hs : vis s = true) (hfech : ∀ u, vis u = true → ∀ w, w ∈ g.adj u → vis w = true)
    {v : Nat} (hv : Alcanca g s v) : vis v = true := by
  induction hv with
  | refl => exact hs
  | tail _ hbc ih => exact hfech _ ih _ hbc

end Exercicio1

/-! ## Breadth-first search: `bfs` -/

namespace Exercicio1

theorem estende_refl (vis : Nat → Bool) (fila : Nat → Nat) (tr : Nat) :
    Estende vis fila tr vis fila tr :=
  ⟨le_refl _, fun _ _ => rfl, fun _ h => h⟩

theorem estende_trans {vis vis1 vis2 : Nat → Bool} {fila fila1 fila2 : Nat → Nat}
    {tr tr1 tr2 : Nat} (h1 : Estende vis fila tr vis1 fila1 tr1)
    (h2 : Estende vis1 fila1 tr1 vis2 fila2 tr2) : Estende vis fila tr vis2 fila2 tr2 := by
  refine ⟨le_trans h1.tras_le h2.tras_le, ?_, fun w hw => h2.mono w (h1.mono w hw)⟩
  intro i hi
  rw [h2.fila_eq i (lt_of_lt_of_le hi h1.tras_le), h1.fila_eq i hi]

theorem estende_enfileira (vis : Nat → Bool) (fila : Nat → Nat) (tr v : Nat) :
    Estende vis fila tr (upd vis v true) (upd fila tr v) (tr + 1) := by
  refine ⟨by omega, ?_, ?_⟩
  · intro i hi
    rw [upd_other _ _ _ _ (by omega)]
  · intro w hw
    by_cases hwv : w = v
    · rw [hwv, upd_same]
    · rw [upd_other _ _ _ _ hwv]
      exact hw

theorem map_fila_congr {fila fila' : Nat → Nat} {k tr : Nat} (hk : k ≤ tr)
    (h : ∀ i, i < tr → fila' i = fila i) :
    (List.range k).map fila' = (List.range k).map fila := by
  apply List.map_congr_left
  intro i hi
  exact h i (lt_of_lt_of_le (List.mem_range.mp hi) hk)

theorem bfsVizinho_spec {g : Grafo} {s : Nat} {st : EstadoBfs} {v : Nat}
    (h : InvBfs g s st) (hlt : v < g.num_usuarios) (ha : Alcanca g s v) :
    InvBfs g s (bfsVizinho st v) ∧ (bfsVizinho st v).frente = st.frente ∧
    Estende st.visitado st.fila st.tras
      (bfsVizinho st v).visitado (bfsVizinho st v).fila (bfsVizinho st v).tras ∧
    (bfsVizinho st v).visitado v = true := by
  unfold bfsVizinho
  by_cases hv : st.visitado v = true
  · rw [if_pos hv]
    exact ⟨h, rfl, estende_refl _ _ _, hv⟩
  · rw [if_neg hv]
    have hv' : st.visitado v = false := by simpa using hv
    refine ⟨⟨invFila_enfileira h.1 hv' hlt ha, ?_⟩, rfl, estende_enfileira _ _ _ _, upd_same _ _ _⟩
    show st.saida = (List.range st.frente).map (upd st.fila st.tras v)
    rw [h.2]
    exact (map_fila_congr h.1.frente_le (estende_enfileira st.visitado st.fila st.tras v).fila_eq).symm

theorem bfs_foldl {g : Grafo} {s : Nat} : ∀ (l : List Nat) (st : EstadoBfs),
    InvBfs g s st → (∀ v, v ∈ l → v < g.num_usuarios ∧ Alcanca g s v) →
    InvBfs g s (l.foldl bfsVizinho st) ∧ (l.foldl bfsVizinho st).frente = st.frente ∧
    Estende st.visitado st.fila st.tras (l.foldl bfsVizinho st).visitado
      (l.foldl bfsVizinho st).fila (l.foldl bfsVizinho st).tras ∧
    (∀ v, v ∈ l → (l.foldl bfsVizinho st).visitado v = true) := by
  intro l
  induction l with
  | nil =>
    intro st h _
    exact ⟨h, rfl, estende_refl _ _ _, fun v hv => absurd hv (List.not_mem_nil v)⟩
  | cons a l ih =>
    intro st h hl
    obtain ⟨h1, hf1, he1, ha1⟩ :=
      bfsVizinho_spec h (hl a (List.mem_cons_self a l)).1 (hl a (List.mem_cons_self a l)).2
    obtain ⟨h2, hf2, he2, ha2⟩ :=
      ih (bfsVizinho st a) h1 (fun v hv => hl v (List.mem_cons_of_mem a hv))
    rw [List.foldl_cons]
    refine ⟨h2, by rw [hf2, hf1], estende_trans he1 he2, ?_⟩
    intro v hv
    rcases List.mem_cons.mp hv with hva | hvl
    · rw [hva]
      exact he2.mono a ha1
    · exact ha2 v hvl

theorem bfsPasso_spec {g : Grafo} (hg : BemFormado g) {s : Nat} {st : EstadoBfs}
    (h : InvBfs g s st) (hf : Fechado g st.visitado st.fila st.frente)
    (hlt : st.frente < st.tras) :
    InvBfs g s (bfsPasso g st) ∧
    Fechado g (bfsPasso g st).visitado (bfsPasso g st).fila (bfsPasso g st).frente ∧
    (bfsPasso g st).frente = st.frente + 1 := by
  have h1 : InvBfs g s { st with frente := st.frente + 1,
                                 saida := st.saida ++ [st.fila st.frente] } := by
    refine ⟨h.1.avanca hlt, ?_⟩
    show st.saida ++ [st.fila st.frente] = (List.range (st.frente + 1)).map st.fila
    rw [List.range_succ, List.map_append, h.2]
    rfl
  have hadj : ∀ v, v ∈ g.adj (st.fila st.frente) → v < g.num_usuarios ∧ Alcanca g s v :=
    fun v hv => ⟨hg.adj_lt _ v hv, Relation.ReflTransGen.tail (h.1.alc _ hlt) hv⟩
  obtain ⟨h2, hf2, he2, ha2⟩ := bfs_foldl (g.adj (st.fila st.frente)) _ h1 hadj
  refine ⟨h2, ?_, hf2⟩
  intro i hi w hw
  change i < (bfsPasso g st).frente at hi
  change w ∈ g.adj ((bfsPasso g st).fila i) at hw
  change (bfsPasso g st).visitado w = true
  have hfr : (bfsPasso g st).frente = st.frente + 1 := hf2
  rw [hfr] at hi
  have hit : i < st.tras := by omega
  have hfi : (bfsPasso g st).fila i = st.fila i := he2.fila_eq i hit
  rw [hfi] at hw
  by_cases hi' : i < st.frente
  · exact he2.mono w (hf i hi' w hw)
  · have hie : i = st.frente := by omega
    rw [hie] at hw
    exact ha2 w hw

theorem bfsLaco_spec {g : Grafo} (hg : BemFormado g) {s : Nat} :
    ∀ (k : Nat) (st : EstadoBfs), InvBfs g s st →
      Fechado g st.visitado st.fila st.frente → g.num_usuarios - st.frente ≤ k →
      ∃ st', bfsLaco g k st = some st' ∧ InvBfs g s st' ∧
        Fechado g st'.visitado st'.fila st'.frente ∧ st'.frente = st'.tras := by
  intro k
  induction k with
  | zero =>
    intro st h hf hk
    have h1 := h.1.tras_le
    have h2 := h.1.frente_le
    have hn : ¬ st.frente < st.tras := by omega
    exact ⟨st, by simp [bfsLaco, hn], h, hf, by omega⟩
  | succ k ih =>
    intro st h hf hk
    by_cases hlt : st.frente < st.tras
    · obtain ⟨h1, hf1, hfr⟩ := bfsPasso_spec hg h hf hlt
      obtain ⟨st', hst', hr⟩ := ih (bfsPasso g st) h1 hf1 (by omega)
      exact ⟨st', by simp [bfsLaco, hlt, hst'], hr⟩
    · have h2 := h.1.frente_le
      exact ⟨st, by simp [bfsLaco, hlt], h, hf, by omega⟩

/-- What `bfs` returns on a well-formed graph from a registered start. -/
theorem bfs_spec {g : Grafo} (hg : BemFormado g) {inicio_id : Int}
    (h0 : 0 ≤ inicio_id) (h1 : inicio_id < (g.num_usuarios : Int)) :
    ∃ l, bfs g inicio_id = Saida.ok l ∧ l.Nodup ∧
      ∀ v, v ∈ l ↔ Alcanca g inicio_id.toNat v := by
  have hs : inicio_id.toNat < g.num_usuarios := by omega
  have hinv : InvBfs g inicio_id.toNat (bfsInicio inicio_id.toNat) :=
    ⟨invFila_inicio g hs, rfl⟩
  have hfech : Fechado g (bfsInicio inicio_id.toNat).visitado (bfsInicio inicio_id.toNat).fila
      (bfsInicio inicio_id.toNat).frente := by
    intro i hi
    exact absurd hi (Nat.not_lt_zero i)
  have hcap := hg.cap
  obtain ⟨st, hst, hI, hF, hend⟩ := bfsLaco_spec hg MAX_USUARIOS _ hinv hfech (by omega)
  refine ⟨st.saida, ?_, ?_, ?_⟩
  · unfold bfs
    rw [idInvalido_false_of_bemFormado hg h0 h1, hst]
    simp
  · rw [hI.2]
    apply List.Nodup.map_on _ (List.nodup_range _)
    intro i hi j hj hij
    have hi' := List.mem_range.mp hi
    have hj' := List.mem_range.mp hj
    exact hI.1.inj i j (by omega) (by omega) hij
  · intro v
    have hmem : v ∈ st.saida ↔ st.visitado v = true := by
      rw [hI.2, hI.1.vis_iff, List.mem_map]
      constructor
      · rintro ⟨i, hi, hiv⟩
        exact ⟨i, by have := List.mem_range.mp hi; omega, hiv⟩
      · rintro ⟨i, hi, hiv⟩
        exact ⟨i, List.mem_range.mpr (by omega), hiv⟩
    rw [hmem]
    constructor
    · intro hv
      obtain ⟨i, hi, hiv⟩ := (hI.1.vis_iff v).mp hv
      rw [← hiv]
      exact hI.1.alc i hi
    · intro hv
      apply visitado_of_alcanca _ _ hv
      · exact (hI.1.vis_iff _).mpr ⟨0, hI.1.tras_pos, hI.1.fila0⟩
      · intro u hu w hw
        obtain ⟨i, hi, hiu⟩ := (hI.1.vis_iff u).mp hu
        rw [← hiu] at hw
        exact hF i (by omega) w hw

end Exercicio1

/-! ## Depth-first search: `dfs` -/

namespace Exercicio1

theorem naoVisitados_mono (n : Nat) {vis vis' : Nat → Bool}
    (h : ∀ w, vis w = true → vis' w = true) : naoVisitados n vis' ≤ naoVisitados n vis := by
  apply Finset.card_le_card
  intro i hi
  rw [Finset.mem_filter] at hi ⊢
  refine ⟨hi.1, ?_⟩
  by_contra hc
  have hvi : vis i = true := by simpa using hc
  rw [h i hvi] at hi
  exact Bool.noConfusion hi.2

theorem naoVisitados_marca {n u : Nat} {vis : Nat → Bool} (hu : u < n)
    (hv : vis u = false) : naoVisitados n (upd vis u true) < naoVisitados n vis := by
  apply Finset.card_lt_card
  rw [Finset.ssubset_iff_of_subset]
  · refine ⟨u, ?_, ?_⟩
    · rw [Finset.mem_filter]
      exact ⟨Finset.mem_range.mpr hu, hv⟩
    · rw [Finset.mem_filter, upd_same]
      simp
  · intro i hi
    rw [Finset.mem_filter] at hi ⊢
    refine ⟨hi.1, ?_⟩
    by_cases hiu : i = u
    · rw [hiu]
      exact hv
    · rw [upd_other _ _ _ _ hiu] at hi
      exact hi.2

theorem efeitoDfs_refl (g : Grafo) (r : Nat) (st : EstadoDfs) : EfeitoDfs g r st st := by
  refine ⟨fun _ h => h, ⟨[], by simp, List.nodup_nil, ?_⟩, ?_⟩
  · intro w
    constructor
    · intro hw
      exact absurd hw (List.not_mem_nil w)
    · rintro ⟨h1, h2⟩
      rw [h1] at h2
      exact Bool.noConfusion h2
  · intro w h1 h2
    rw [h1] at h2
    exact Bool.noConfusion h2

theorem efeitoDfs_trans {g : Grafo} {r : Nat} {st st1 st2 : EstadoDfs}
    (h1 : EfeitoDfs g r st st1) (h2 : EfeitoDfs g r st1 st2) : EfeitoDfs g r st st2 := by
  obtain ⟨n1, hs1, hn1, hm1⟩ := h1.saida
  obtain ⟨n2, hs2, hn2, hm2⟩ := h2.saida
  refine ⟨fun w hw => h2.mono w (h1.mono w hw), ⟨n1 ++ n2, ?_, ?_, ?_⟩, ?_⟩
  · rw [hs2, hs1, List.append_assoc]
  · rw [List.nodup_append]
    refine ⟨hn1, hn2, ?_⟩
    intro w hw1 hw2
    have a := ((hm1 w).mp hw1).2
    have b := ((hm2 w).mp hw2).1
    rw [a] at b
    exact Bool.noConfusion b
  · intro w
    rw [List.mem_append, hm1, hm2]
    constructor
    · rintro (⟨a, b⟩ | ⟨a, b⟩)
      · exact ⟨a, h2.mono w b⟩
      · refine ⟨?_, b⟩
        by_contra hc
        have hw : st.visitado w = true := by simpa using hc
        rw [h1.mono w hw] at a
        exact Bool.noConfusion a
    · rintro ⟨a, b⟩
      by_cases hw1 : st1.visitado w = true
      · exact Or.inl ⟨a, hw1⟩
      · exact Or.inr ⟨by simpa using hw1, b⟩
  · intro w a b
    by_cases hw1 : st1.visitado w = true
    · exact h1.alc w a hw1
    · exact h2.alc w (by simpa using hw1) b

theorem EfeitoDfs.raiz {g : Grafo} {r v : Nat} {st st' : EstadoDfs}
    (h : EfeitoDfs g v st st') (hrv : Alcanca g r v) : EfeitoDfs g r st st' :=
  ⟨h.mono, h.saida, fun w a b => Relation.ReflTransGen.trans hrv (h.alc w a b)⟩

theorem fechadoDfs_trans {g : Grafo} {r : Nat} {st st1 st2 : EstadoDfs}
    (h1 : FechadoDfs g st st1) (h2 : FechadoDfs g st1 st2)
    (hm : EfeitoDfs g r st1 st2) : FechadoDfs g st st2 := by
  intro w a b x hx
  by_cases hw1 : st1.visitado w = true
  · exact hm.mono x (h1 w a hw1 x hx)
  · exact h2 w (by simpa using hw1) b x hx

/-- The loop of `dfs_recursivo` over (the rest of) the list of `u0`, given the
specification of the recursive calls with `d` activations left. -/
theorem dfs_laco_spec {g : Grafo} {d u0 : Nat}
    (ih : ∀ (u : Nat) (st : EstadoDfs), u < g.num_usuarios → st.visitado u = false →
      naoVisitados g.num_usuarios st.visitado ≤ d →
      ∃ st', dfs_recursivo g d u st = some st' ∧ EfeitoDfs g u st st' ∧
        FechadoDfs g st st' ∧ st'.visitado u = true) :
    ∀ (l : List Nat) (s1 : EstadoDfs),
      (∀ v, v ∈ l → v < g.num_usuarios ∧ v ∈ g.adj u0) →
      naoVisitados g.num_usuarios s1.visitado ≤ d →
      ∃ s2, l.foldlM (fun s v_id =>
          if s.visitado v_id then some s else dfs_recursivo g d v_id s) s1 = some s2 ∧
        EfeitoDfs g u0 s1 s2 ∧ FechadoDfs g s1 s2 ∧ ∀ v, v ∈ l → s2.visitado v = true := by
  intro l
  induction l with
  | nil =>
    intro s1 _ _
    refine ⟨s1, rfl, efeitoDfs_refl g u0 s1, ?_, fun v hv => absurd hv (List.not_mem_nil v)⟩
    intro w a b
    rw [a] at b
    exact Bool.noConfusion b
  | cons a l ihl =>
    intro s1 hl hn
    have hal := hl a (List.mem_cons_self a l)
    have hl' : ∀ v, v ∈ l → v < g.num_usuarios ∧ v ∈ g.adj u0 :=
      fun v hv => hl v (List.mem_cons_of_mem a hv)
    by_cases hva : s1.visitado a = true
    · obtain ⟨s2, hs2, he, hf, hv⟩ := ihl s1 hl' hn
      refine ⟨s2, ?_, he, hf, ?_⟩
      · rw [List.foldlM_cons, if_pos hva]
        exact hs2
      · intro v hv'
        rcases List.mem_cons.mp hv' with h | h
        · rw [h]
          exact he.mono a hva
        · exact hv v h
    · have hva' : s1.visitado a = false := by simpa using hva
      obtain ⟨s', hs', he', hf', hv'⟩ := ih a s1 hal.1 hva' hn
      have he'' : EfeitoDfs g u0 s1 s' :=
        he'.raiz (Relation.ReflTransGen.single hal.2)
      obtain ⟨s2, hs2, he, hf, hv⟩ :=
        ihl s' hl' (le_trans (naoVisitados_mono _ he'.mono) hn)
      refine ⟨s2, ?_, efeitoDfs_trans he'' he, fechadoDfs_trans hf' hf he, ?_⟩
      · rw [List.foldlM_cons, if_neg hva, hs']
        exact hs2
      · intro v hvm
        rcases List.mem_cons.mp hvm with h | h
        · rw [h]
          exact he.mono a hv'
        · exact hv v h

theorem dfs_recursivo_spec {g : Grafo} (hg : BemFormado g) :
    ∀ (d u : Nat) (st : EstadoDfs), u < g.num_usuarios → st.visitado u = false →
      naoVisitados g.num_usuarios st.visitado ≤ d →
      ∃ st', dfs_recursivo g d u st = some st' ∧ EfeitoDfs g u st st' ∧
        FechadoDfs g st st' ∧ st'.visitado u = true := by
  intro d
  induction d with
  | zero =>
    intro u st hu hv hn
    have hpos : 0 < naoVisitados g.num_usuarios st.visitado := by
      apply Finset.card_pos.mpr
      exact ⟨u, Finset.mem_filter.mpr ⟨Finset.mem_range.mpr hu, hv⟩⟩
    omega
  | succ d ih =>
    intro u st hu hv hn
    have hmark : ∀ w, st.visitado w = true → upd st.visitado u true w = true := by
      intro w hw
      by_cases hwu : w = u
      · rw [hwu, upd_same]
      · rw [upd_other _ _ _ _ hwu]
        exact hw
    have hn1 : naoVisitados g.num_usuarios (upd st.visitado u true) ≤ d := by
      have := naoVisitados_marca hu hv
      omega
    obtain ⟨s2, hs2, he, hf, hall⟩ := dfs_laco_spec ih (g.adj u)
      { visitado := upd st.visitado u true, saida := st.saida ++ [u] }
      (fun v hv => ⟨hg.adj_lt u v hv, hv⟩) hn1
    have hu2 : s2.visitado u = true := he.mono u (upd_same _ _ _)
    obtain ⟨novos, hsa, hnd, hmem⟩ := he.saida
    refine ⟨s2, ?_, ⟨?_, ⟨u :: novos, ?_, ?_, ?_⟩, ?_⟩, ?_, hu2⟩
    · rw [dfs_recursivo]
      exact hs2
    · exact fun w hw => he.mono w (hmark w hw)
    · rw [hsa]
      simp
    · rw [List.nodup_cons]
      refine ⟨?_, hnd⟩
      intro hin
      have := ((hmem u).mp hin).1
      change upd st.visitado u true u = false at this
      rw [upd_same] at this
      exact Bool.noConfusion this
    · intro w
      rw [List.mem_cons, hmem]
      constructor
      · rintro (h | ⟨a, b⟩)
        · rw [h]
          exact ⟨hv, hu2⟩
        · refine ⟨?_, b⟩
          by_contra hc
          have hw : st.visitado w = true := by simpa using hc
          have := hmark w hw
          change upd st.visitado u true w = false at a
          rw [this] at a
          exact Bool.noConfusion a
      · rintro ⟨a, b⟩
        by_cases hwu : w = u
        · exact Or.inl hwu
        · refine Or.inr ⟨?_, b⟩
          show upd st.visitado u true w = false
          rw [upd_other _ _ _ _ hwu]
          exact a
    · intro w a b
      by_cases hwu : w = u
      · rw [hwu]
        exact Relation.ReflTransGen.refl
      · apply he.alc w _ b
        show upd st.visitado u true w = false
        rw [upd_other _ _ _ _ hwu]
        exact a
    · intro w a b x hx
      by_cases hwu : w = u
      · rw [hwu] at hx
        exact hall x hx
      · apply hf w _ b x hx
        show upd st.visitado u true w = false
        rw [upd_other _ _ _ _ hwu]
        exact a

/-- What `dfs` returns on a well-formed graph from a registered start. -/
theorem dfs_spec {g : Grafo} (hg : BemFormado g) {inicio_id : Int}
    (h0 : 0 ≤ inicio_id) (h1 : inicio_id < (g.num_usuarios : Int)) :
    ∃ l, dfs g inicio_id = Saida.ok l ∧ l.Nodup ∧
      ∀ v, v ∈ l ↔ Alcanca g inicio_id.toNat v := by
  have hs : inicio_id.toNat < g.num_usuarios := by omega
  have hcount : naoVisitados g.num_usuarios (fun _ => false) ≤ g.num_usuarios := by
    unfold naoVisitados
    exact le_trans (Finset.card_filter_le _ _) (by simp)
  obtain ⟨st, hst, he, hf, hvs⟩ := dfs_recursivo_spec hg g.num_usuarios inicio_id.toNat
    ⟨fun _ => false, []⟩ hs rfl hcount
  obtain ⟨novos, hsa, hnd, hmem⟩ := he.saida
  have hsaida : st.saida = novos := by
    rw [hsa]
    rfl
  refine ⟨st.saida, ?_, ?_, ?_⟩
  · unfold dfs
    rw [idInvalido_false_of_bemFormado hg h0 h1, hst]
    simp
  · rw [hsaida]
    exact hnd
  · intro v
    rw [hsaida, hmem]
    constructor
    · rintro ⟨a, b⟩
      exact he.alc v a b
    · intro hv
      refine ⟨rfl, ?_⟩
      apply visitado_of_alcanca hvs _ hv
      intro u hu w hw
      exact hf u rfl hu w hw

end Exercicio1

/-! ## Breadth-first search with distances: `sugerirAmigos` -/

namespace Exercicio1

theorem sugVizinho_spec {g : Grafo} {s u : Nat} {st : EstadoSug} {v : Nat}
    (h : InvSugMeio g s u st) (hlt : v < g.num_usuarios) (hadj : v ∈ g.adj u) :
    InvSugMeio g s u (sugVizinho u st v) ∧ (sugVizinho u st v).frente = st.frente ∧
    Estende st.visitado st.fila st.tras
      (sugVizinho u st v).visitado (sugVizinho u st v).fila (sugVizinho u st v).tras ∧
    (∀ w, st.visitado w = true → (sugVizinho u st v).distancia w = st.distancia w) ∧
    (sugVizinho u st v).visitado v = true ∧
    (sugVizinho u st v).distancia v ≤ (sugVizinho u st v).distancia u + 1 := by
  obtain ⟨iu, hiu, hfu⟩ := h.u_fila
  unfold sugVizinho
  by_cases hv : st.visitado v = true
  · rw [if_pos hv]
    refine ⟨h, rfl, estende_refl _ _ _, fun _ _ => rfl, hv, ?_⟩
    obtain ⟨j, hj, hjv⟩ := (h.fila.vis_iff v).mp hv
    rw [← hjv]
    exact h.lim j hj
  · rw [if_neg hv]
    have hv' : st.visitado v = false := by simpa using hv
    have hnot : ∀ j, j < st.tras → st.fila j ≠ v := by
      intro j hj hjv
      exact hv ((h.fila.vis_iff v).mpr ⟨j, hj, hjv⟩)
    have huv : u ≠ v := by
      rw [← hfu]
      exact hnot iu hiu
    have halc : Alcanca g s v := by
      have := h.fila.alc iu hiu
      rw [hfu] at this
      exact Relation.ReflTransGen.tail this hadj
    have hold : ∀ j, j < st.tras →
        upd st.distancia v (st.distancia u + 1) (upd st.fila st.tras v j) =
          st.distancia (st.fila j) := by
      intro j hj
      rw [upd_other st.fila _ _ _ (by omega), upd_other _ _ _ _ (hnot j hj)]
    have hnew : upd st.distancia v (st.distancia u + 1) (upd st.fila st.tras v st.tras) =
        st.distancia u + 1 := by
      rw [upd_same, upd_same]
    have hdu : upd st.distancia v (st.distancia u + 1) u = st.distancia u :=
      upd_other _ _ _ _ huv
    refine ⟨⟨invFila_enfileira h.fila hv' hlt halc, ⟨?_, ?_, ?_, ?_⟩, ?_, ?_⟩, rfl,
      estende_enfileira _ _ _ _, ?_, upd_same _ _ _, ?_⟩
    · show upd st.distancia v (st.distancia u + 1) s = 0
      have hs0 : s ≠ v := by
        rw [← h.fila.fila0]
        exact hnot 0 h.fila.tras_pos
      rw [upd_other _ _ _ _ hs0]
      exact h.dist.zero
    · intro i hi
      show ∃ k : Nat, upd st.distancia v (st.distancia u + 1) (upd st.fila st.tras v i) = (k : Int)
        ∧ Passeio g s k (upd st.fila st.tras v i)
      by_cases hit : i = st.tras
      · obtain ⟨k, hk, hp⟩ := h.dist.passeio iu hiu
        rw [hfu] at hk hp
        refine ⟨k + 1, ?_, ?_⟩
        · rw [hit, hnew, hk]
          push_cast
          rfl
        · rw [hit, upd_same]
          exact Passeio.snoc hp hadj
      · have hi' : i < st.tras := by
          change i < st.tras + 1 at hi
          omega
        obtain ⟨k, hk, hp⟩ := h.dist.passeio i hi'
        refine ⟨k, ?_, ?_⟩
        · rw [hold i hi']
          exact hk
        · rw [upd_other _ _ _ _ hit]
          exact hp
    · intro i j hij hj
      change j < st.tras + 1 at hj
      show upd st.distancia v (st.distancia u + 1) (upd st.fila st.tras v i) ≤
        upd st.distancia v (st.distancia u + 1) (upd st.fila st.tras v j)
      by_cases hjt : j = st.tras
      · by_cases hit : i = st.tras
        · rw [hit, hjt]
        · rw [hjt, hnew, hold i (by omega)]
          exact h.lim i (by omega)
      · rw [hold i (by omega), hold j (by omega)]
        exact h.dist.mono i j hij (by omega)
    · intro w hw
      change upd st.visitado v true w = false at hw
      show upd st.distancia v (st.distancia u + 1) w = -1
      have hwv : w ≠ v := by
        intro hwv
        rw [hwv, upd_same] at hw
        exact Bool.noConfusion hw
      rw [upd_other _ _ _ _ hwv] at hw ⊢
      exact h.dist.nao_vis w hw
    · intro j hj
      change j < st.tras + 1 at hj
      show upd st.distancia v (st.distancia u + 1) (upd st.fila st.tras v j) ≤
        upd st.distancia v (st.distancia u + 1) u + 1
      rw [hdu]
      by_cases hjt : j = st.tras
      · rw [hjt, hnew]
      · rw [hold j (by omega)]
        exact h.lim j (by omega)
    · refine ⟨iu, ?_, ?_⟩
      · show iu < st.tras + 1
        omega
      · show upd st.fila st.tras v iu = u
        rw [upd_other _ _ _ _ (by omega)]
        exact hfu
    · intro w hw
      show upd st.distancia v (st.distancia u + 1) w = st.distancia w
      have hwv : w ≠ v := by
        intro hwv
        rw [hwv] at hw
        exact hv hw
      exact upd_other _ _ _ _ hwv
    · show upd st.distancia v (st.distancia u + 1) v ≤
        upd st.distancia v (st.distancia u + 1) u + 1
      rw [upd_same, hdu]

theorem sug_foldl {g : Grafo} {s u : Nat} : ∀ (l : List Nat) (st : EstadoSug),
    InvSugMeio g s u st → (∀ v, v ∈ l → v < g.num_usuarios ∧ v ∈ g.adj u) →
    InvSugMeio g s u (l.foldl (sugVizinho u) st) ∧
    (l.foldl (sugVizinho u) st).frente = st.frente ∧
    Estende st.visitado st.fila st.tras (l.foldl (sugVizinho u) st).visitado
      (l.foldl (sugVizinho u) st).fila (l.foldl (sugVizinho u) st).tras ∧
    (∀ w, st.visitado w = true → (l.foldl (sugVizinho u) st).distancia w = st.distancia w) ∧
    (∀ v, v ∈ l → (l.foldl (sugVizinho u) st).visitado v = true ∧
      (l.foldl (sugVizinho u) st).distancia v ≤ (l.foldl (sugVizinho u) st).distancia u + 1) := by
  intro l
  induction l with
  | nil =>
    intro st h _
    exact ⟨h, rfl, estende_refl _ _ _, fun _ _ => rfl,
      fun v hv => absurd hv (List.not_mem_nil v)⟩
  | cons a l ih =>
    intro st h hl
    obtain ⟨h1, hf1, he1, hd1, hva, hda⟩ :=
      sugVizinho_spec h (hl a (List.mem_cons_self a l)).1 (hl a (List.mem_cons_self a l)).2
    obtain ⟨h2, hf2, he2, hd2, hall⟩ :=
      ih (sugVizinho u st a) h1 (fun v hv => hl v (List.mem_cons_of_mem a hv))
    rw [List.foldl_cons]
    refine ⟨h2, by rw [hf2, hf1], estende_trans he1 he2, ?_, ?_⟩
    · intro w hw
      rw [hd2 w (he1.mono w hw), hd1 w hw]
    · intro v hv
      rcases List.mem_cons.mp hv with hva' | hvl
      · rw [hva']
        refine ⟨he2.mono a hva, ?_⟩
        obtain ⟨iu, hiu, hfu⟩ := h1.u_fila
        have hu1 : (sugVizinho u st a).visitado u = true :=
          (h1.fila.vis_iff u).mpr ⟨iu, hiu, hfu⟩
        rw [hd2 a hva, hd2 u hu1]
        exact hda
      · exact hall v hvl

theorem sugPasso_spec {g : Grafo} (hg : BemFormado g) {s : Nat} {st : EstadoSug}
    (h : InvSug g s st) (hlt : st.frente < st.tras) :
    InvSug g s (sugPasso g st) ∧ (sugPasso g st).frente = st.frente + 1 := by
  have hmeio : InvSugMeio g s (st.fila st.frente) { st with frente := st.frente + 1 } :=
    ⟨h.fila.avanca hlt, h.dist, h.lim hlt, ⟨st.frente, hlt, rfl⟩⟩
  have hadj : ∀ v, v ∈ g.adj (st.fila st.frente) →
      v < g.num_usuarios ∧ v ∈ g.adj (st.fila st.frente) :=
    fun v hv => ⟨hg.adj_lt _ v hv, hv⟩
  obtain ⟨h2, hf2, he2, hd2, hall⟩ := sug_foldl (g.adj (st.fila st.frente)) _ hmeio hadj
  have hfr : (sugPasso g st).frente = st.frente + 1 := hf2
  have hfila : ∀ i, i < st.tras → (sugPasso g st).fila i = st.fila i := he2.fila_eq
  have hvis : ∀ i, i < st.tras → st.visitado (st.fila i) = true :=
    fun i hi => (h.fila.vis_iff _).mpr ⟨i, hi, rfl⟩
  have hdist : ∀ w, st.visitado w = true → (sugPasso g st).distancia w = st.distancia w := hd2
  refine ⟨⟨h2.fila, h2.dist, ?_, ?_⟩, hfr⟩
  · intro hlt' j hj
    have hu : (sugPasso g st).distancia ((sugPasso g st).fila j) ≤
        (sugPasso g st).distancia (st.fila st.frente) + 1 := h2.lim j hj
    have hm := h2.dist.mono st.frente (st.frente + 1) (by omega) (by rw [hfr] at hlt'; exact hlt')
    change (sugPasso g st).distancia ((sugPasso g st).fila st.frente) ≤
      (sugPasso g st).distancia ((sugPasso g st).fila (st.frente + 1)) at hm
    rw [hfila _ hlt] at hm
    rw [hfr]
    omega
  · intro i hi w hw
    rw [hfr] at hi
    have hit : i < st.tras := by omega
    rw [hfila i hit] at hw ⊢
    by_cases hi' : i < st.frente
    · obtain ⟨a, b⟩ := h.arestas i hi' w hw
      refine ⟨he2.mono w a, ?_⟩
      rw [hdist w a, hdist _ (hvis i hit)]
      exact b
    · have hie : i = st.frente := by omega
      rw [hie] at hw ⊢
      exact hall w hw

theorem sugLaco_spec {g : Grafo} (hg : BemFormado g) {s : Nat} :
    ∀ (k : Nat) (st : EstadoSug), InvSug g s st → g.num_usuarios - st.frente ≤ k →
      ∃ st', sugLaco g k st = some st' ∧ InvSug g s st' ∧ st'.frente = st'.tras := by
  intro k
  induction k with
  | zero =>
    intro st h hk
    have h1 := h.fila.tras_le
    have h2 := h.fila.frente_le
    have hn : ¬ st.frente < st.tras := by omega
    exact ⟨st, by simp [sugLaco, hn], h, by omega⟩
  | succ k ih =>
    intro st h hk
    by_cases hlt : st.frente < st.tras
    · obtain ⟨h1, hfr⟩ := sugPasso_spec hg h hlt
      obtain ⟨st', hst', hr⟩ := ih (sugPasso g st) h1 (by omega)
      exact ⟨st', by simp [sugLaco, hlt, hst'], hr⟩
    · have h2 := h.fila.frente_le
      exact ⟨st, by simp [sugLaco, hlt], h, by omega⟩

theorem invSug_inicio (g : Grafo) {s : Nat} (hs : s < g.num_usuarios) :
    InvSug g s (sugInicio s) := by
  have hf0 : (sugInicio s).fila 0 = s := by
    show upd (fun _ => 0) 0 s 0 = s
    exact upd_same _ _ _
  have hd0 : (sugInicio s).distancia s = 0 := by
    show upd (fun _ => (-1 : Int)) s 0 s = 0
    exact upd_same _ _ _
  refine ⟨invFila_inicio g hs, ⟨hd0, ?_, ?_, ?_⟩, ?_, ?_⟩
  · intro i hi
    have hi0 : i = 0 := by
      change i < 1 at hi
      omega
    refine ⟨0, ?_, ?_⟩
    · rw [hi0, hf0, hd0]
      rfl
    · rw [hi0, hf0]
      exact Passeio.nil
  · intro i j hij hj
    have hj0 : j = 0 := by
      change j < 1 at hj
      omega
    have hi0 : i = 0 := by omega
    rw [hi0, hj0]
  · intro v hv
    change upd (fun _ => false) s true v = false at hv
    show upd (fun _ => (-1 : Int)) s 0 v = -1
    have hvs : v ≠ s := by
      intro hvs
      rw [hvs, upd_same] at hv
      exact Bool.noConfusion hv
    rw [upd_other _ _ _ _ hvs]
  · intro _ j hj
    have hj0 : j = 0 := by
      change j < 1 at hj
      omega
    rw [hj0]
    show (sugInicio s).distancia ((sugInicio s).fila 0) ≤
      (sugInicio s).distancia ((sugInicio s).fila 0) + 1
    omega
  · intro i hi
    exact absurd hi (Nat.not_lt_zero i)

end Exercicio1

namespace Exercicio1

/-- After the BFS loop of `sugerirAmigos`, `distancia` holds the exact hop-distance
of every vertex that has one. -/
theorem sug_final {g : Grafo} {s : Nat} {st : EstadoSug} (h : InvSug g s st)
    (hend : st.frente = st.tras) (v k : Nat) :
    st.distancia v = (k : Int) ↔ DistSaltos g s v k := by
  have hvs : st.visitado s = true :=
    (h.fila.vis_iff s).mpr ⟨0, h.fila.tras_pos, h.fila.fila0⟩
  have hbaixo : ∀ (j w : Nat), Passeio g s j w →
      st.visitado w = true ∧ st.distancia w ≤ (j : Int) := by
    intro j w hp
    induction hp with
    | nil => exact ⟨hvs, by rw [h.dist.zero]; rfl⟩
    | @snoc j0 b c _ hadj ih =>
      obtain ⟨i, hi, hib⟩ := (h.fila.vis_iff b).mp ih.1
      rw [← hib] at hadj
      obtain ⟨a1, a2⟩ := h.arestas i (by omega) c hadj
      rw [hib] at a2
      refine ⟨a1, ?_⟩
      have := ih.2
      push_cast
      omega
  have hcima : ∀ w, st.visitado w = true →
      ∃ j : Nat, st.distancia w = (j : Int) ∧ Passeio g s j w := by
    intro w hw
    obtain ⟨i, hi, hiw⟩ := (h.fila.vis_iff w).mp hw
    rw [← hiw]
    exact h.dist.passeio i hi
  constructor
  · intro hd
    have hvis : st.visitado v = true := by
      by_contra hc
      have := h.dist.nao_vis v (by simpa using hc)
      omega
    obtain ⟨j, hj, hp⟩ := hcima v hvis
    have hjk : j = k := by omega
    rw [hjk] at hp
    refine ⟨hp, ?_⟩
    intro j' hp'
    have := (hbaixo j' v hp').2
    omega
  · rintro ⟨hp, hmin⟩
    obtain ⟨hvis, hle⟩ := hbaixo k v hp
    obtain ⟨j, hj, hpj⟩ := hcima v hvis
    have := hmin j hpj
    omega

/-- What `sugerirAmigos` returns on a well-formed graph from a registered start. -/
theorem sug_spec {g : Grafo} (hg : BemFormado g) {id_usuario : Int}
    (h0 : 0 ≤ id_usuario) (h1 : id_usuario < (g.num_usuarios : Int)) :
    ∃ l, sugerirAmigos g id_usuario = Saida.ok l ∧ List.Pairwise (fun a b => a < b) l ∧
      ∀ v, v ∈ l ↔ DistSaltos g id_usuario.toNat v 2 := by
  have hs : id_usuario.toNat < g.num_usuarios := by omega
  have hcap := hg.cap
  obtain ⟨st, hst, hI, hend⟩ :=
    sugLaco_spec hg MAX_USUARIOS _ (invSug_inicio g hs) (by omega)
  refine ⟨(List.range g.num_usuarios).filter (fun i => decide (st.distancia i = 2)), ?_, ?_, ?_⟩
  · unfold sugerirAmigos
    rw [idInvalido_false_of_bemFormado hg h0 h1, hst]
    simp
  · exact List.Pairwise.filter _ (List.pairwise_lt_range _)
  · intro v
    rw [List.mem_filter, List.mem_range, decide_eq_true_iff]
    have hiff := sug_final hI hend v 2
    constructor
    · rintro ⟨_, hd⟩
      exact hiff.mp hd
    · intro hd
      have hd2 : st.distancia v = 2 := hiff.mpr hd
      refine ⟨?_, hd2⟩
      have hvis : st.visitado v = true := by
        by_contra hc
        have := hI.dist.nao_vis v (by simpa using hc)
        omega
      obtain ⟨i, hi, hiv⟩ := (hI.fila.vis_iff v).mp hvis
      rw [← hiv]
      exact hI.fila.lt i hi

theorem construido_grafoABC : Construido grafoABC :=
  Construido.conexao 1 2 (Construido.conexao 0 1
    (Construido.usuario "C" (Construido.usuario "B" (Construido.usuario "A" Construido.vazio))))

end Exercicio1

/-! ## Traversal claims -/

/-- C4. On every social graph built by add-user and create-connection calls and for
every valid start id, `sugerirAmigos` runs to completion and prints exactly the users
whose shortest hop-distance from the start is 2, each once, in ascending id order;
in the scenario graph A-B, B-C the suggestions for A are exactly `[C]`. -/
theorem sugerirAmigos_distancia_dois (g : Exercicio1.Grafo) (hg : Exercicio1.Construido g)
    (id_usuario : Int) (h0 : 0 ≤ id_usuario) (h1 : id_usuario < (g.num_usuarios : Int)) :
    (∃ l, Exercicio1.sugerirAmigos g id_usuario = Saida.ok l ∧
      List.Pairwise (fun a b => a < b) l ∧
      ∀ v, v ∈ l ↔ Exercicio1.DistSaltos g id_usuario.toNat v 2) ∧
    Exercicio1.sugerirAmigos Exercicio1.grafoABC 0 = Saida.ok [2] :=
  ⟨Exercicio1.sug_spec (Exercicio1.bemFormado_of_construido hg) h0 h1, by decide⟩

theorem sugerirAmigos_distancia_dois_witness :
    (∃ l, Exercicio1.sugerirAmigos Exercicio1.grafoABC 0 = Saida.ok l ∧
      List.Pairwise (fun a b => a < b) l ∧
      ∀ v, v ∈ l ↔ Exercicio1.DistSaltos Exercicio1.grafoABC (0 : Int).toNat v 2) ∧
    Exercicio1.sugerirAmigos Exercicio1.grafoABC 0 = Saida.ok [2] :=
  sugerirAmigos_distancia_dois Exercicio1.grafoABC Exercicio1.construido_grafoABC 0
    (by decide) (by decide)

/-- C5. On every built social graph (parallel friendships included) and for every
valid start id, the list printed by `sugerirAmigos` contains neither the start user
nor any user of the start user's adjacency list. -/
theorem sugerirAmigos_exclui_proximos (g : Exercicio1.Grafo) (hg : Exercicio1.Construido g)
    (id_usuario : Int) (h0 : 0 ≤ id_usuario) (h1 : id_usuario < (g.num_usuarios : Int)) :
    ∃ l, Exercicio1.sugerirAmigos g id_usuario = Saida.ok l ∧ id_usuario.toNat ∉ l ∧
      ∀ v, v ∈ g.adj id_usuario.toNat → v ∉ l := by
  obtain ⟨l, hl, _, hmem⟩ := Exercicio1.sug_spec (Exercicio1.bemFormado_of_construido hg) h0 h1
  refine ⟨l, hl, ?_, ?_⟩
  · intro hin
    have := ((hmem _).mp hin).2 0 Exercicio1.Passeio.nil
    omega
  · intro v hv hin
    have := ((hmem _).mp hin).2 1 (Exercicio1.Passeio.snoc Exercicio1.Passeio.nil hv)
    omega

theorem sugerirAmigos_exclui_proximos_witness :
    ∃ l, Exercicio1.sugerirAmigos Exercicio1.grafoABC 1 = Saida.ok l ∧ (1 : Int).toNat ∉ l ∧
      ∀ v, v ∈ Exercicio1.grafoABC.adj (1 : Int).toNat → v ∉ l :=
  sugerirAmigos_exclui_proximos Exercicio1.grafoABC Exercicio1.construido_grafoABC 1
    (by decide) (by decide)

/-- C6. On every built social graph and for every valid start id, `bfs` terminates
and its visitation sequence has no user twice and holds exactly the users reachable
from the start by a chain of friendships. -/
theorem bfs_visita_alcancaveis (g : Exercicio1.Grafo) (hg : Exercicio1.Construido g)
    (inicio_id : Int) (h0 : 0 ≤ inicio_id) (h1 : inicio_id < (g.num_usuarios : Int)) :
    ∃ l, Exercicio1.bfs g inicio_id = Saida.ok l ∧ l.Nodup ∧
      (∀ v, Exercicio1.Alcanca g inicio_id.toNat v → v ∈ l) ∧
      (∀ v, v ∈ l → Exercicio1.Alcanca g inicio_id.toNat v) := by
  obtain ⟨l, hl, hnd, hmem⟩ := Exercicio1.bfs_spec (Exercicio1.bemFormado_of_construido hg) h0 h1
  exact ⟨l, hl, hnd, fun v hv => (hmem v).mpr hv, fun v hv => (hmem v).mp hv⟩

theorem bfs_visita_alcancaveis_witness :
    ∃ l, Exercicio1.bfs Exercicio1.grafoABC 0 = Saida.ok l ∧ l.Nodup ∧
      (∀ v, Exercicio1.Alcanca Exercicio1.grafoABC (0 : Int).toNat v → v ∈ l) ∧
      (∀ v, v ∈ l → Exercicio1.Alcanca Exercicio1.grafoABC (0 : Int).toNat v) :=
  bfs_visita_alcancaveis Exercicio1.grafoABC Exercicio1.construido_grafoABC 0
    (by decide) (by decide)

/-- C7. On every built social graph (cycles and parallel edges included) and for
every valid start id, `dfs` terminates with at most `num_usuarios` nested activations
of `dfs_recursivo`, and its visitation sequence has no user twice and holds exactly
the users reachable from the start. -/
theorem dfs_visita_alcancaveis (g : Exercicio1.Grafo) (hg : Exercicio1.Construido g)
    (inicio_id : Int) (h0 : 0 ≤ inicio_id) (h1 : inicio_id < (g.num_usuarios : Int)) :
    ∃ st, Exercicio1.dfs_recursivo g g.num_usuarios inicio_id.toNat ⟨fun _ => false, []⟩ = some st ∧
      Exercicio1.dfs g inicio_id = Saida.ok st.saida ∧ st.saida.Nodup ∧
      (∀ v, Exercicio1.Alcanca g inicio_id.toNat v → v ∈ st.saida) ∧
      (∀ v, v ∈ st.saida → Exercicio1.Alcanca g inicio_id.toNat v) := by
  obtain ⟨l, hl, hnd, hmem⟩ := Exercicio1.dfs_spec (Exercicio1.bemFormado_of_construido hg) h0 h1
  have hval := Exercicio1.idInvalido_false_of_bemFormado
    (Exercicio1.bemFormado_of_construido hg) h0 h1
  unfold Exercicio1.dfs at hl
  rw [hval] at hl
  cases hrec : Exercicio1.dfs_recursivo g g.num_usuarios inicio_id.toNat ⟨fun _ => false, []⟩ with
  | none =>
    rw [hrec] at hl
    simp at hl
  | some st =>
    rw [hrec] at hl
    simp at hl
    refine ⟨st, rfl, ?_, ?_, ?_, ?_⟩
    · unfold Exercicio1.dfs
      rw [hval, hrec]
      simp
    · rw [hl]
      exact hnd
    · intro v hv
      rw [hl]
      exact (hmem v).mpr hv
    · intro v hv
      rw [hl] at hv
      exact (hmem v).mp hv

theorem dfs_visita_alcancaveis_witness :
    ∃ st, Exercicio1.dfs_recursivo Exercicio1.grafoABC Exercicio1.grafoABC.num_usuarios
        (1 : Int).toNat ⟨fun _ => false, []⟩ = some st ∧
      Exercicio1.dfs Exercicio1.grafoABC 1 = Saida.ok st.saida ∧ st.saida.Nodup ∧
      (∀ v, Exercicio1.Alcanca Exercicio1.grafoABC (1 : Int).toNat v → v ∈ st.saida) ∧
      (∀ v, v ∈ st.saida → Exercicio1.Alcanca Exercicio1.grafoABC (1 : Int).toNat v) :=
  dfs_visita_alcancaveis Exercicio1.grafoABC Exercicio1.construido_grafoABC 1
    (by decide) (by decide)

/-- C8. On every built social graph and for every valid start id, `bfs` and `dfs`
both run to completion and visit the same set of users. -/
theorem bfs_dfs_mesmo_conjunto (g : Exercicio1.Grafo) (hg : Exercicio1.Construido g)
    (inicio_id : Int) (h0 : 0 ≤ inicio_id) (h1 : inicio_id < (g.num_usuarios : Int)) :
    ∃ lb ld, Exercicio1.bfs g inicio_id = Saida.ok lb ∧
      Exercicio1.dfs g inicio_id = Saida.ok ld ∧ ∀ v, v ∈ lb ↔ v ∈ ld := by
  obtain ⟨lb, hb, _, hmb⟩ := Exercicio1.bfs_spec (Exercicio1.bemFormado_of_construido hg) h0 h1
  obtain ⟨ld, hd, _, hmd⟩ := Exercicio1.dfs_spec (Exercicio1.bemFormado_of_construido hg) h0 h1
  exact ⟨lb, ld, hb, hd, fun v => (hmb v).trans (hmd v).symm⟩

theorem bfs_dfs_mesmo_conjunto_witness :
    ∃ lb ld, Exercicio1.bfs Exercicio1.grafoABC 2 = Saida.ok lb ∧
      Exercicio1.dfs Exercicio1.grafoABC 2 = Saida.ok ld ∧ ∀ v, v ∈ lb ↔ v ∈ ld :=
  bfs_dfs_mesmo_conjunto Exercicio1.grafoABC Exercicio1.construido_grafoABC 2
    (by decide) (by decide)

/-! ## Registry claims -/

namespace Exercicio1

theorem obterIdUsuario_ne_iff (g : Grafo) (nome : String) :
    obterIdUsuarioPorNome g nome ≠ -1 ↔ Registrado g nome := by
  unfold obterIdUsuarioPorNome Registrado
  cases hfind : (List.range g.num_usuarios).find?
      (fun i => decide ((g.usuarios i).id ≠ -1) && decide ((g.usuarios i).nome = nome)) with
  | none =>
    rw [List.find?_eq_none] at hfind
    constructor
    · intro h
      exact absurd rfl h
    · rintro ⟨i, hi, h1, h2⟩
      exact absurd (by simp [h1, h2]) (hfind i (List.mem_range.mpr hi))
  | some j =>
    have hp := List.find?_some hfind
    have hmem := List.mem_of_find?_eq_some hfind
    simp only [Bool.and_eq_true, decide_eq_true_eq] at hp
    constructor
    · intro _
      exact ⟨j, List.mem_range.mp hmem, hp.1, hp.2⟩
    · intro _
      exact hp.1

theorem obterIdUsuario_apos_adicionar (g : Grafo) (nome : String)
    (h : obterIdUsuarioPorNome g nome = -1) :
    obterIdUsuarioPorNome
      { adj := upd g.adj g.num_usuarios [],
        usuarios := upd g.usuarios g.num_usuarios ⟨(g.num_usuarios : Int), nome⟩,
        num_usuarios := g.num_usuarios + 1 } nome = (g.num_usuarios : Int) := by
  have hnr : ¬ Registrado g nome := by
    rw [← obterIdUsuario_ne_iff]
    simpa using h
  unfold obterIdUsuarioPorNome
  simp only
  rw [List.range_succ, List.find?_append]
  have hnone : (List.range g.num_usuarios).find?
      (fun i => decide ((upd g.usuarios g.num_usuarios
          ⟨(g.num_usuarios : Int), nome⟩ i).id ≠ -1) &&
        decide ((upd g.usuarios g.num_usuarios ⟨(g.num_usuarios : Int), nome⟩ i).nome = nome))
      = none := by
    rw [List.find?_eq_none]
    intro i hi hp
    have hlt := List.mem_range.mp hi
    rw [upd_other _ _ _ _ (by omega)] at hp
    simp only [Bool.and_eq_true, decide_eq_true_eq] at hp
    exact hnr ⟨i, hlt, hp.1, hp.2⟩
  rw [hnone]
  have hn : ((g.num_usuarios : Int) ≠ -1) := by omega
  simp [upd_same, hn]

theorem adicionarUsuario_ok (g : Grafo) (nome : String) (id : Nat)
    (h : (adicionarUsuario g nome).2 = Except.ok id) :
    id = g.num_usuarios ∧
    (adicionarUsuario g nome).1.num_usuarios = g.num_usuarios + 1 ∧
    obterIdUsuarioPorNome (adicionarUsuario g nome).1 nome = (id : Int) := by
  unfold adicionarUsuario at h ⊢
  split_ifs at h ⊢ with h1 h2
  have hid : g.num_usuarios = id := by simpa using h
  have hnf : obterIdUsuarioPorNome g nome = -1 := by simpa using h2
  refine ⟨hid.symm, rfl, ?_⟩
  rw [← hid]
  exact obterIdUsuario_apos_adicionar g nome hnf

theorem adicionarUsuario_registrado (g : Grafo) (nome : String) (h : Registrado g nome) :
    (g.num_usuarios < MAX_USUARIOS → adicionarUsuario g nome = (g, Except.error Erro.duplicado)) ∧
    (MAX_USUARIOS ≤ g.num_usuarios →
      adicionarUsuario g nome = (g, Except.error Erro.capacidade)) := by
  have hne := (obterIdUsuario_ne_iff g nome).mpr h
  constructor
  · intro hlt
    unfold adicionarUsuario
    rw [if_neg (by omega), if_pos hne]
  · intro hge
    unfold adicionarUsuario
    rw [if_pos hge]

end Exercicio1


namespace Exercicio2

theorem obterIdCidade_ne_iff (g : Grafo) (nome : String) :
    obterIdCidadePorNome g nome ≠ -1 ↔ Registrado g nome := by
  unfold obterIdCidadePorNome Registrado
  cases hfind : (List.range g.num_cidades).find?
      (fun i => decide ((g.cidades i).id ≠ -1) && decide ((g.cidades i).nome = nome)) with
  | none =>
    rw [List.find?_eq_none] at hfind
    constructor
    · intro h
      exact absurd rfl h
    · rintro ⟨i, hi, h1, h2⟩
      exact absurd (by simp [h1, h2]) (hfind i (List.mem_range.mpr hi))
  | some j =>
    have hp := List.find?_some hfind
    have hmem := List.mem_of_find?_eq_some hfind
    simp only [Bool.and_eq_true, decide_eq_true_eq] at hp
    constructor
    · intro _
      exact ⟨j, List.mem_range.mp hmem, hp.1, hp.2⟩
    · intro _
      exact hp.1

theorem obterIdCidade_apos_adicionar (g : Grafo) (nome : String)
    (h : obterIdCidadePorNome g nome = -1) :
    obterIdCidadePorNome
      { adj := upd g.adj g.num_cidades [],
        cidades := upd g.cidades g.num_cidades ⟨(g.num_cidades : Int), nome⟩,
        num_cidades := g.num_cidades + 1 } nome = (g.num_cidades : Int) := by
  have hnr : ¬ Registrado g nome := by
    rw [← obterIdCidade_ne_iff]
    simpa using h
  unfold obterIdCidadePorNome
  simp only
  rw [List.range_succ, List.find?_append]
  have hnone : (List.range g.num_cidades).find?
      (fun i => decide ((upd g.cidades g.num_cidades
          ⟨(g.num_cidades : Int), nome⟩ i).id ≠ -1) &&
        decide ((upd g.cidades g.num_cidades ⟨(g.num_cidades : Int), nome⟩ i).nome = nome))
      = none := by
    rw [List.find?_eq_none]
    intro i hi hp
    have hlt := List.mem_range.mp hi
    rw [upd_other _ _ _ _ (by omega)] at hp
    simp only [Bool.and_eq_true, decide_eq_true_eq] at hp
    exact hnr ⟨i, hlt, hp.1, hp.2⟩
  rw [hnone]
  have hn : ((g.num_cidades : Int) ≠ -1) := by omega
  simp [upd_same, hn]

theorem adicionarCidade_ok (g : Grafo) (nome : String) (id : Nat)
    (h : (adicionarCidade g nome).2 = Except.ok id) :
    id = g.num_cidades ∧
    (adicionarCidade g nome).1.num_cidades = g.num_cidades + 1 ∧
    obterIdCidadePorNome (adicionarCidade g nome).1 nome = (id : Int) := by
  unfold adicionarCidade at h ⊢
  split_ifs at h ⊢ with h1 h2
  have hid : g.num_cidades = id := by simpa using h
  have hnf : obterIdCidadePorNome g nome = -1 := by simpa using h2
  refine ⟨hid.symm, rfl, ?_⟩
  rw [← hid]
  exact obterIdCidade_apos_adicionar g nome hnf

theorem adicionarCidade_registrado (g : Grafo) (nome : String) (h : Registrado g nome) :
    (g.num_cidades < MAX_CIDADES → adicionarCidade g nome = (g, Except.error Erro.duplicado)) ∧
    (MAX_CIDADES ≤ g.num_cidades →
      adicionarCidade g nome = (g, Except.error Erro.capacidade)) := by
  have hne := (obterIdCidade_ne_iff g nome).mpr h
  constructor
  · intro hlt
    unfold adicionarCidade
    rw [if_neg (by omega), if_pos hne]
  · intro hge
    unfold adicionarCidade
    rw [if_pos hge]

end Exercicio2

namespace Exercicio1

theorem construidoUsuarios_of_nomes {g : Grafo} (h : ConstruidoNomes g) : Construido g := by
  induction h with
  | vazio => exact Construido.vazio
  | usuario nome _ _ ih => exact Construido.usuario nome ih
  | conexao id1 id2 _ ih => exact Construido.conexao id1 id2 ih

theorem construidoNomes_foldl_adicionar (nomes : Nat → String) :
    ∀ (l : List Nat) (g : Grafo), (∀ i, i ∈ l → nomeCabe (nomes i) = true) →
      ConstruidoNomes g →
      ConstruidoNomes (l.foldl (fun g i => (adicionarUsuario g (nomes i)).1) g) := by
  intro l
  induction l with
  | nil => exact fun g _ h => h
  | cons a l ih =>
    intro g hl h
    exact ih _ (fun i hi => hl i (List.mem_cons_of_mem a hi))
      (ConstruidoNomes.usuario (nomes a) (hl a (List.mem_cons_self a l)) h)

theorem construidoNomes_grafoABC : ConstruidoNomes grafoABC :=
  ConstruidoNomes.conexao 1 2 (ConstruidoNomes.conexao 0 1
    (ConstruidoNomes.usuario "C" (by decide) (ConstruidoNomes.usuario "B" (by decide)
      (ConstruidoNomes.usuario "A" (by decide) ConstruidoNomes.vazio))))

theorem construido_grafoRamos : Construido grafoRamos :=
  Construido.conexao 1 3 (Construido.conexao 0 1 (Construido.conexao 0 2
    (Construido.usuario "D" (Construido.usuario "C" (Construido.usuario "B"
      (Construido.usuario "A" Construido.vazio))))))

end Exercicio1

namespace Exercicio2

theorem construidoCidades_of_nomes {g : Grafo} (h : ConstruidoNomes g) : Construido g := by
  induction h with
  | vazio => exact Construido.vazio
  | cidade nome _ _ ih => exact Construido.cidade nome ih
  | rota a b w _ ih => exact Construido.rota a b w ih

theorem construidoNomes_foldl_cidades (nomes : Nat → String) :
    ∀ (l : List Nat) (g : Grafo), (∀ i, i ∈ l → nomeCabe (nomes i) = true) →
      ConstruidoNomes g →
      ConstruidoNomes (l.foldl (fun g i => (adicionarCidade g (nomes i)).1) g) := by
  intro l
  induction l with
  | nil => exact fun g _ h => h
  | cons a l ih =>
    intro g hl h
    exact ih _ (fun i hi => hl i (List.mem_cons_of_mem a hi))
      (ConstruidoNomes.cidade (nomes a) (hl a (List.mem_cons_self a l)) h)

theorem construidoNomes_grafoLonge : ConstruidoNomes grafoLonge :=
  ConstruidoNomes.rota 0 1 100000 (ConstruidoNomes.cidade "B" (by decide)
    (ConstruidoNomes.cidade "A" (by decide) ConstruidoNomes.vazio))

theorem construidoNomes_grafoSentinela : ConstruidoNomes grafoSentinela :=
  ConstruidoNomes.rota 1 2 1 (ConstruidoNomes.rota 0 1 99999
    (ConstruidoNomes.cidade "C" (by decide) (ConstruidoNomes.cidade "B" (by decide)
      (ConstruidoNomes.cidade "A" (by decide) ConstruidoNomes.vazio))))

end Exercicio2

/-- C9. In both graphs, for every name that fits the name field (fewer than 50 bytes,
as every name that `main` passes): whenever add-entity succeeds the id it assigns is the
entity count before the call, the count grows by exactly one, and a lookup of the same
name right afterwards returns that id. -/
theorem adicionar_atribui_contagem :
    (∀ (g : Exercicio1.Grafo) (nome : String) (id : Nat),
      Exercicio1.nomeCabe nome = true →
      (Exercicio1.adicionarUsuario g nome).2 = Except.ok id →
        id = g.num_usuarios ∧
        (Exercicio1.adicionarUsuario g nome).1.num_usuarios = g.num_usuarios + 1 ∧
        Exercicio1.obterIdUsuarioPorNome (Exercicio1.adicionarUsuario g nome).1 nome = (id : Int)) ∧
    (∀ (g : Exercicio2.Grafo) (nome : String) (id : Nat),
      Exercicio2.nomeCabe nome = true →
      (Exercicio2.adicionarCidade g nome).2 = Except.ok id →
        id = g.num_cidades ∧
        (Exercicio2.adicionarCidade g nome).1.num_cidades = g.num_cidades + 1 ∧
        Exercicio2.obterIdCidadePorNome (Exercicio2.adicionarCidade g nome).1 nome = (id : Int)) :=
  ⟨fun g nome id _ h => Exercicio1.adicionarUsuario_ok g nome id h,
   fun g nome id _ h => Exercicio2.adicionarCidade_ok g nome id h⟩

theorem adicionar_atribui_contagem_witness :
    (Exercicio1.nomeCabe "D" = true ∧
      3 = Exercicio1.grafoABC.num_usuarios ∧
      (Exercicio1.adicionarUsuario Exercicio1.grafoABC "D").1.num_usuarios =
        Exercicio1.grafoABC.num_usuarios + 1 ∧
      Exercicio1.obterIdUsuarioPorNome
        (Exercicio1.adicionarUsuario Exercicio1.grafoABC "D").1 "D" = ((3 : Nat) : Int)) ∧
    (Exercicio2.nomeCabe "C" = true ∧
      2 = Exercicio2.grafoLonge.num_cidades ∧
      (Exercicio2.adicionarCidade Exercicio2.grafoLonge "C").1.num_cidades =
        Exercicio2.grafoLonge.num_cidades + 1 ∧
      Exercicio2.obterIdCidadePorNome
        (Exercicio2.adicionarCidade Exercicio2.grafoLonge "C").1 "C" = ((2 : Nat) : Int)) :=
  ⟨⟨by decide, adicionar_atribui_contagem.1 Exercicio1.grafoABC "D" 3 (by decide) rfl⟩,
   ⟨by decide, adicionar_atribui_contagem.2 Exercicio2.grafoLonge "C" 2 (by decide) rfl⟩⟩

set_option maxRecDepth 100000 in
/-- C10 (as stated, refuted). The full registries `grafoCheio` are built by 100
add-entity calls with the two-letter names `aa`, `ab`, ..., `jj`, which all fit the name
field, and hold the name `aa`; adding `aa` again is answered with CapacityExceeded, not
Duplicate, in the social graph and in the route graph. -/
theorem adicionar_duplicado_registro_cheio :
    (Exercicio1.ConstruidoNomes Exercicio1.grafoCheio ∧
      Exercicio1.Registrado Exercicio1.grafoCheio "aa" ∧
      Exercicio1.adicionarUsuario Exercicio1.grafoCheio "aa" =
        (Exercicio1.grafoCheio, Except.error Erro.capacidade) ∧
      (Exercicio1.adicionarUsuario Exercicio1.grafoCheio "aa").2 ≠
        Except.error Erro.duplicado) ∧
    (Exercicio2.ConstruidoNomes Exercicio2.grafoCheio ∧
      Exercicio2.Registrado Exercicio2.grafoCheio "aa" ∧
      Exercicio2.adicionarCidade Exercicio2.grafoCheio "aa" =
        (Exercicio2.grafoCheio, Except.error Erro.capacidade) ∧
      (Exercicio2.adicionarCidade Exercicio2.grafoCheio "aa").2 ≠
        Except.error Erro.duplicado) := by
  have hn1 : Exercicio1.grafoCheio.num_usuarios = 100 := by decide
  have hn2 : Exercicio2.grafoCheio.num_cidades = 100 := by decide
  have hcap1 : Exercicio1.adicionarUsuario Exercicio1.grafoCheio "aa" =
      (Exercicio1.grafoCheio, Except.error Erro.capacidade) := by
    unfold Exercicio1.adicionarUsuario
    rw [if_pos (by rw [hn1]; decide)]
  have hcap2 : Exercicio2.adicionarCidade Exercicio2.grafoCheio "aa" =
      (Exercicio2.grafoCheio, Except.error Erro.capacidade) := by
    unfold Exercicio2.adicionarCidade
    rw [if_pos (by rw [hn2]; decide)]
  have hf1 : ∀ i, i < 100 → Exercicio1.nomeCabe (Exercicio1.nomeDe i) = true := by decide
  have hf2 : ∀ i, i < 100 → Exercicio2.nomeCabe (Exercicio2.nomeDe i) = true := by decide
  refine ⟨⟨Exercicio1.construidoNomes_foldl_adicionar Exercicio1.nomeDe _ _
      (fun i hi => hf1 i (List.mem_range.mp hi)) Exercicio1.ConstruidoNomes.vazio,
    ⟨0, by rw [hn1]; decide, by decide, by decide⟩, hcap1, ?_⟩,
    ⟨Exercicio2.construidoNomes_foldl_cidades Exercicio2.nomeDe _ _
      (fun i hi => hf2 i (List.mem_range.mp hi)) Exercicio2.ConstruidoNomes.vazio,
    ⟨0, by rw [hn2]; decide, by decide, by decide⟩, hcap2, ?_⟩⟩
  · rw [hcap1]
    intro h
    cases h
  · rw [hcap2]
    intro h
    cases h

/-- C10 (amended). In both graphs, add-entity with a name that is already registered
leaves the whole graph unchanged; it signals Duplicate when fewer than 100 entities
are registered and CapacityExceeded when the registry is full. -/
theorem adicionar_registrado_sem_mudanca :
    (∀ (g : Exercicio1.Grafo) (nome : String), Exercicio1.Registrado g nome →
      Exercicio1.adicionarUsuario g nome =
        (g, Except.error (if g.num_usuarios < Exercicio1.MAX_USUARIOS
          then Erro.duplicado else Erro.capacidade))) ∧
    (∀ (g : Exercicio2.Grafo) (nome : String), Exercicio2.Registrado g nome →
      Exercicio2.adicionarCidade g nome =
        (g, Except.error (if g.num_cidades < Exercicio2.MAX_CIDADES
          then Erro.duplicado else Erro.capacidade))) := by
  constructor
  · intro g nome h
    by_cases hlt : g.num_usuarios < Exercicio1.MAX_USUARIOS
    · rw [if_pos hlt]
      exact (Exercicio1.adicionarUsuario_registrado g nome h).1 hlt
    · rw [if_neg hlt]
      exact (Exercicio1.adicionarUsuario_registrado g nome h).2 (by omega)
  · intro g nome h
    by_cases hlt : g.num_cidades < Exercicio2.MAX_CIDADES
    · rw [if_pos hlt]
      exact (Exercicio2.adicionarCidade_registrado g nome h).1 hlt
    · rw [if_neg hlt]
      exact (Exercicio2.adicionarCidade_registrado g nome h).2 (by omega)

theorem adicionar_registrado_sem_mudanca_witness :
    Exercicio1.adicionarUsuario Exercicio1.grafoABC "B" =
      (Exercicio1.grafoABC, Except.error (if Exercicio1.grafoABC.num_usuarios <
        Exercicio1.MAX_USUARIOS then Erro.duplicado else Erro.capacidade)) ∧
    Exercicio2.adicionarCidade Exercicio2.grafoLonge "A" =
      (Exercicio2.grafoLonge, Except.error (if Exercicio2.grafoLonge.num_cidades <
        Exercicio2.MAX_CIDADES then Erro.duplicado else Erro.capacidade)) :=
  ⟨adicionar_registrado_sem_mudanca.1 Exercicio1.grafoABC "B"
      ⟨1, by decide, by decide, by decide⟩,
   adicionar_registrado_sem_mudanca.2 Exercicio2.grafoLonge "A"
      ⟨0, by decide, by decide, by decide⟩⟩

/-! ## Shortest paths: behaviour of `dijkstra` at costs near the sentinel and near `INT_MAX` -/

namespace Exercicio2

theorem construido_grafoLonge : Construido grafoLonge :=
  Construido.rota 0 1 100000 (Construido.cidade "B" (Construido.cidade "A" Construido.vazio))

theorem construido_grafoSentinela : Construido grafoSentinela :=
  Construido.rota 1 2 1 (Construido.rota 0 1 99999
    (Construido.cidade "C" (Construido.cidade "B" (Construido.cidade "A" Construido.vazio))))

theorem construido_grafoEstouro : Construido grafoEstouro :=
  Construido.rota 1 2 2147483647 (Construido.rota 0 1 1
    (Construido.cidade "C" (Construido.cidade "B" (Construido.cidade "A" Construido.vazio))))

theorem grafoLonge_custo (b : Nat) (no : NoRota) (h : no ∈ grafoLonge.adj b) :
    no.custo = 100000 := by
  have key : grafoLonge.adj =
      upd (upd (upd (upd (fun _ => []) 0 []) 1 []) 0 [⟨1, 100000⟩]) 1 [⟨0, 100000⟩] := rfl
  rw [key] at h
  unfold upd at h
  split_ifs at h <;> simp at h <;> rw [h]

theorem grafoLonge_caminho (b : Nat) (c : Int) (h : Caminho grafoLonge 0 b c) :
    0 ≤ c ∧ (b ≠ 0 → 100000 ≤ c) := by
  induction h with
  | nil => exact ⟨le_refl _, fun h => absurd rfl h⟩
  | snoc no _ hmem ih =>
    have := grafoLonge_custo _ no hmem
    have := ih.1
    constructor
    · omega
    · intro _
      omega

end Exercicio2

/-- C1 (failing input). Cities A, B and the route A-B of cost 100000, accepted by
`criarRota`: the cheapest path from A to B costs 100000, but `dijkstra` from A ends
with `dist[B] = 99999` and prints B as unreachable. -/
theorem dijkstra_custo_acima_da_sentinela :
    Exercicio2.Construido Exercicio2.grafoLonge ∧
    Exercicio2.CustoMinimo Exercicio2.grafoLonge 0 1 100000 ∧
    (Exercicio2.dijkstraFinal Exercicio2.grafoLonge 0).map (fun st => st.dist 1) = some 99999 ∧
    Exercicio2.dijkstra Exercicio2.grafoLonge 0 =
      Saida.ok [(1, Exercicio2.Relatorio.inatingivel)] := by
  refine ⟨Exercicio2.construido_grafoLonge, ⟨?_, ?_⟩, by decide, by decide⟩
  · exact Exercicio2.Caminho.snoc ⟨1, 100000⟩ Exercicio2.Caminho.nil (by decide)
  · intro c hc
    exact (Exercicio2.grafoLonge_caminho 1 c hc).2 (by decide)

/-- C2 (failing input). Cities A, B, C and the routes A-B of cost 1 and B-C of cost
2147483647: `dijkstra` from A prints for C the path A, B, C with total cost
-2147483648, while the weights of the stored edges along that path add up to
2147483648 and to nothing else. -/
theorem dijkstra_custo_relatado_estoura :
    Exercicio2.Construido Exercicio2.grafoEstouro ∧
    Exercicio2.dijkstra Exercicio2.grafoEstouro 0 =
      Saida.ok [(1, Exercicio2.Relatorio.custo 1 [0, 1]),
                (2, Exercicio2.Relatorio.custo (-2147483648) [0, 1, 2])] ∧
    Exercicio2.CustoAoLongo Exercicio2.grafoEstouro [0, 1, 2] 2147483648 ∧
    ∀ c, Exercicio2.CustoAoLongo Exercicio2.grafoEstouro [0, 1, 2] c → c = 2147483648 := by
  have h0 : Exercicio2.grafoEstouro.adj 0 = [⟨1, 1⟩] := by decide
  have h1 : Exercicio2.grafoEstouro.adj 1 = [⟨2, 2147483647⟩, ⟨0, 1⟩] := by decide
  refine ⟨Exercicio2.construido_grafoEstouro, by decide, ?_, ?_⟩
  · exact Exercicio2.CustoAoLongo.passo (w := 1) (by decide)
      (Exercicio2.CustoAoLongo.passo (w := 2147483647) (by decide) (Exercicio2.CustoAoLongo.um 2))
  · intro c hc
    cases hc with
    | passo he hr =>
      cases hr with
      | passo he2 hr2 =>
        cases hr2 with
        | um =>
          rw [h0] at he
          rw [h1] at he2
          simp at he he2
          omega

/-- C3 (failing input). Cities A, B, C and the routes A-B of cost 99999 and B-C of
cost 1: B and C are joined to A by paths of cost 99999 and 100000, but `dijkstra`
from A prints both as unreachable. -/
theorem dijkstra_inatingivel_com_caminho :
    Exercicio2.Construido Exercicio2.grafoSentinela ∧
    Exercicio2.Caminho Exercicio2.grafoSentinela 0 1 99999 ∧
    Exercicio2.Caminho Exercicio2.grafoSentinela 0 2 100000 ∧
    Exercicio2.dijkstra Exercicio2.grafoSentinela 0 =
      Saida.ok [(1, Exercicio2.Relatorio.inatingivel), (2, Exercicio2.Relatorio.inatingivel)] := by
  have hb : Exercicio2.Caminho Exercicio2.grafoSentinela 0 1 99999 :=
    Exercicio2.Caminho.snoc ⟨1, 99999⟩ Exercicio2.Caminho.nil (by decide)
  exact ⟨Exercicio2.construido_grafoSentinela, hb,
    Exercicio2.Caminho.snoc ⟨2, 1⟩ hb (by decide), by decide⟩

namespace Exercicio1

/-- The three possible results of `adicionarUsuario`. -/
theorem adicionarUsuario_casos (g : Grafo) (nome : String) :
    (MAX_USUARIOS ≤ g.num_usuarios ∧
      adicionarUsuario g nome = (g, Except.error Erro.capacidade)) ∨
    (g.num_usuarios < MAX_USUARIOS ∧ Registrado g nome ∧
      adicionarUsuario g nome = (g, Except.error Erro.duplicado)) ∨
    (g.num_usuarios < MAX_USUARIOS ∧ ¬ Registrado g nome ∧
      adicionarUsuario g nome =
        ({ adj := upd g.adj g.num_usuarios [],
           usuarios := upd g.usuarios g.num_usuarios ⟨(g.num_usuarios : Int), nome⟩,
           num_usuarios := g.num_usuarios + 1 }, Except.ok g.num_usuarios)) := by
  unfold adicionarUsuario
  by_cases h1 : g.num_usuarios ≥ MAX_USUARIOS
  · exact Or.inl ⟨h1, by rw [if_pos h1]⟩
  · by_cases h2 : obterIdUsuarioPorNome g nome ≠ -1
    · exact Or.inr (Or.inl ⟨by omega, (obterIdUsuario_ne_iff g nome).mp h2,
        by rw [if_neg h1, if_pos h2]⟩)
    · refine Or.inr (Or.inr ⟨by omega, fun hr => h2 ((obterIdUsuario_ne_iff g nome).mpr hr), ?_⟩)
      rw [if_neg h1, if_neg h2]

/-- The three possible results of `criarConexao`. -/
theorem criarConexao_casos (g : Grafo) (id1 id2 : Int) :
    ((idInvalido g id1 = true ∨ idInvalido g id2 = true) ∧
      criarConexao g id1 id2 = (g, Except.error Erro.idInvalido)) ∨
    (idInvalido g id1 = false ∧ idInvalido g id2 = false ∧ id1 = id2 ∧
      criarConexao g id1 id2 = (g, Except.error Erro.autoLaco)) ∨
    (idInvalido g id1 = false ∧ idInvalido g id2 = false ∧ id1 ≠ id2 ∧
      criarConexao g id1 id2 =
        ({ g with adj := (upd (upd g.adj id1.toNat (id2.toNat :: g.adj id1.toNat))
            id2.toNat (id1.toNat :: g.adj id2.toNat)) }, Except.ok ())) := by
  unfold criarConexao
  by_cases h1 : (idInvalido g id1 || idInvalido g id2) = true
  · left
    refine ⟨by simpa using h1, by rw [if_pos h1]⟩
  · have h1' : idInvalido g id1 = false ∧ idInvalido g id2 = false := by simpa using h1
    right
    by_cases h2 : id1 = id2
    · left
      exact ⟨h1'.1, h1'.2, h2, by rw [if_neg h1, if_pos h2]⟩
    · right
      refine ⟨h1'.1, h1'.2, h2, ?_⟩
      rw [if_neg h1, if_neg h2]
      have ha := (idInvalido_false_iff g id1).mp h1'.1
      have hb := (idInvalido_false_iff g id2).mp h1'.2
      have hne : id2.toNat ≠ id1.toNat := by omega
      simp only [upd_other _ _ _ _ hne]

theorem invAdj_conecta {g : Grafo} (h : InvAdj g) {a b : Nat} (ha : a < g.num_usuarios)
    (hb : b < g.num_usuarios) (hab : a ≠ b) :
    InvAdj { g with adj := (upd (upd g.adj a (b :: g.adj a)) b (a :: g.adj b)) } := by
  have hadj : ∀ x, upd (upd g.adj a (b :: g.adj a)) b (a :: g.adj b) x =
      if x = b then a :: g.adj b else if x = a then b :: g.adj a else g.adj x := fun x => rfl
  refine ⟨?_, ?_, ?_, ?_⟩
  · intro i v hv
    change v ∈ upd (upd g.adj a (b :: g.adj a)) b (a :: g.adj b) i at hv
    show v < g.num_usuarios
    rw [hadj] at hv
    split_ifs at hv
    · rcases List.mem_cons.mp hv with h1 | h1
      · omega
      · exact h.lt _ v h1
    · rcases List.mem_cons.mp hv with h1 | h1
      · omega
      · exact h.lt _ v h1
    · exact h.lt _ v hv
  · intro i hi
    change i ∈ upd (upd g.adj a (b :: g.adj a)) b (a :: g.adj b) i at hi
    rw [hadj] at hi
    split_ifs at hi with h1 h2
    · rcases List.mem_cons.mp hi with h3 | h3
      · omega
      · rw [h1] at h3
        exact h.sem_laco b h3
    · rcases List.mem_cons.mp hi with h3 | h3
      · omega
      · rw [h2] at h3
        exact h.sem_laco a h3
    · exact h.sem_laco i hi
  · intro x y
    show (upd (upd g.adj a (b :: g.adj a)) b (a :: g.adj b) x).count y =
      (upd (upd g.adj a (b :: g.adj a)) b (a :: g.adj b) y).count x
    rw [hadj, hadj]
    have hba : b ≠ a := fun e => hab e.symm
    have haa : (g.adj a).count a = 0 := List.count_eq_zero.mpr (h.sem_laco a)
    have hbb : (g.adj b).count b = 0 := List.count_eq_zero.mpr (h.sem_laco b)
    have hs := h.sim
    by_cases hxb : x = b
    · by_cases hyb : y = b
      · rw [hxb, hyb]
      · by_cases hya : y = a
        · rw [hxb, hya]
          simp [hab, hba, List.count_cons, hs a b]
        · rw [hxb]
          simp [hyb, hya, List.count_cons, hs b y]
    · by_cases hxa : x = a
      · by_cases hyb : y = b
        · rw [hxa, hyb]
          simp [hab, hba, List.count_cons, hs a b]
        · by_cases hya : y = a
          · rw [hxa, hya]
          · rw [hxa]
            simp [hyb, hya, hab, List.count_cons, hs a y]
      · by_cases hyb : y = b
        · rw [hyb]
          simp [hxb, hxa, hba, List.count_cons, hs x b]
        · by_cases hya : y = a
          · rw [hya]
            simp [hxb, hxa, hab, List.count_cons, hs x a]
          · simp [hxb, hxa, hyb, hya, hs x y]
  · intro i hi
    change g.num_usuarios ≤ i at hi
    show upd (upd g.adj a (b :: g.adj a)) b (a :: g.adj b) i = []
    rw [hadj, if_neg (by omega), if_neg (by omega)]
    exact h.vazio i hi

theorem invRegistro_adiciona {g : Grafo} (h : InvRegistro g) {nome : String}
    (hlt : g.num_usuarios < MAX_USUARIOS) (hnr : ¬ Registrado g nome) :
    InvRegistro { adj := upd g.adj g.num_usuarios [],
                  usuarios := upd g.usuarios g.num_usuarios ⟨(g.num_usuarios : Int), nome⟩,
                  num_usuarios := g.num_usuarios + 1 } := by
  have hnovo : ∀ i, i < g.num_usuarios → (g.usuarios i).nome ≠ nome := by
    intro i hi hn
    apply hnr
    refine ⟨i, hi, ?_, hn⟩
    rw [h.ids i hi]
    omega
  refine ⟨?_, ?_, ?_, ?_⟩
  · show g.num_usuarios + 1 ≤ MAX_USUARIOS
    omega
  · intro i hi
    change i < g.num_usuarios + 1 at hi
    show (upd g.usuarios g.num_usuarios _ i).id = (i : Int)
    by_cases hin : i = g.num_usuarios
    · rw [hin, upd_same]
    · rw [upd_other _ _ _ _ hin]
      exact h.ids i (by omega)
  · intro i hi
    change g.num_usuarios + 1 ≤ i at hi
    show (upd g.usuarios g.num_usuarios _ i).id = -1
    rw [upd_other _ _ _ _ (by omega)]
    exact h.livres i (by omega)
  · intro i j hi hj hij
    change i < g.num_usuarios + 1 at hi
    change j < g.num_usuarios + 1 at hj
    change (upd g.usuarios g.num_usuarios _ i).nome = (upd g.usuarios g.num_usuarios _ j).nome
      at hij
    by_cases hin : i = g.num_usuarios
    · by_cases hjn : j = g.num_usuarios
      · omega
      · rw [hin, upd_same, upd_other _ _ _ _ hjn] at hij
        exact absurd hij.symm (hnovo j (by omega))
    · by_cases hjn : j = g.num_usuarios
      · rw [hjn, upd_same, upd_other _ _ _ _ hin] at hij
        exact absurd hij (hnovo i (by omega))
      · rw [upd_other _ _ _ _ hin, upd_other _ _ _ _ hjn] at hij
        exact h.nomes i j (by omega) (by omega) hij

theorem invAdj_adiciona {g : Grafo} (h : InvAdj g) (nome : String) :
    InvAdj { adj := upd g.adj g.num_usuarios [],
             usuarios := upd g.usuarios g.num_usuarios ⟨(g.num_usuarios : Int), nome⟩,
             num_usuarios := g.num_usuarios + 1 } := by
  have hadj : ∀ x, upd g.adj g.num_usuarios [] x = g.adj x := by
    intro x
    by_cases hx : x = g.num_usuarios
    · rw [hx, upd_same, h.vazio _ (le_refl _)]
    · exact upd_other _ _ _ _ hx
  refine ⟨?_, ?_, ?_, ?_⟩
  · intro i v hv
    change v ∈ upd g.adj g.num_usuarios [] i at hv
    show v < g.num_usuarios + 1
    rw [hadj] at hv
    have := h.lt i v hv
    omega
  · intro i hi
    change i ∈ upd g.adj g.num_usuarios [] i at hi
    rw [hadj] at hi
    exact h.sem_laco i hi
  · intro a b
    show (upd g.adj g.num_usuarios [] a).count b = (upd g.adj g.num_usuarios [] b).count a
    rw [hadj, hadj]
    exact h.sim a b
  · intro i hi
    change g.num_usuarios + 1 ≤ i at hi
    show upd g.adj g.num_usuarios [] i = []
    rw [hadj]
    exact h.vazio i (by omega)

theorem invariantes_of_construido {g : Grafo} (hg : Construido g) :
    InvRegistro g ∧ InvAdj g := by
  induction hg with
  | vazio =>
    refine ⟨⟨?_, ?_, ?_, ?_⟩, ⟨?_, ?_, ?_, ?_⟩⟩
    · simp [inicializarGrafo, MAX_USUARIOS]
    · intro i hi
      exact absurd hi (Nat.not_lt_zero i)
    · intro i _
      rfl
    · intro i j hi
      exact absurd hi (Nat.not_lt_zero i)
    · intro i v hv
      exact absurd hv (List.not_mem_nil v)
    · intro i hi
      exact absurd hi (List.not_mem_nil i)
    · intro a b
      rfl
    · intro i _
      rfl
  | @usuario g nome _ ih =>
    rcases adicionarUsuario_casos g nome with ⟨_, he⟩ | ⟨_, _, he⟩ | ⟨hlt, hnr, he⟩
    · rw [he]
      exact ih
    · rw [he]
      exact ih
    · rw [he]
      exact ⟨invRegistro_adiciona ih.1 hlt hnr, invAdj_adiciona ih.2 nome⟩
  | @conexao g id1 id2 _ ih =>
    rcases criarConexao_casos g id1 id2 with ⟨_, he⟩ | ⟨_, _, _, he⟩ | ⟨h1, h2, hne, he⟩
    · rw [he]
      exact ih
    · rw [he]
      exact ih
    · rw [he]
      have ha := (idInvalido_false_iff g id1).mp h1
      have hb := (idInvalido_false_iff g id2).mp h2
      refine ⟨⟨ih.1.cap, ih.1.ids, ih.1.livres, ih.1.nomes⟩, ?_⟩
      exact invAdj_conecta ih.2 (by omega) (by omega) (by omega)

end Exercicio1

namespace Exercicio2

theorem idInvalidoCidade_false_iff (g : Grafo) (id : Int) :
    idInvalido g id = false ↔
      0 ≤ id ∧ id < (g.num_cidades : Int) ∧ (g.cidades id.toNat).id ≠ -1 := by
  simp only [idInvalido, Bool.or_eq_false_iff, decide_eq_false_iff_not]
  constructor
  · rintro ⟨⟨h1, h2⟩, h3⟩
    exact ⟨by omega, by omega, h3⟩
  · rintro ⟨h1, h2, h3⟩
    exact ⟨⟨by omega, by omega⟩, h3⟩

/-- The three possible results of `adicionarCidade`. -/
theorem adicionarCidade_casos (g : Grafo) (nome : String) :
    (MAX_CIDADES ≤ g.num_cidades ∧
      adicionarCidade g nome = (g, Except.error Erro.capacidade)) ∨
    (g.num_cidades < MAX_CIDADES ∧ Registrado g nome ∧
      adicionarCidade g nome = (g, Except.error Erro.duplicado)) ∨
    (g.num_cidades < MAX_CIDADES ∧ ¬ Registrado g nome ∧
      adicionarCidade g nome =
        ({ adj := upd g.adj g.num_cidades [],
           cidades := upd g.cidades g.num_cidades ⟨(g.num_cidades : Int), nome⟩,
           num_cidades := g.num_cidades + 1 }, Except.ok g.num_cidades)) := by
  unfold adicionarCidade
  by_cases h1 : g.num_cidades ≥ MAX_CIDADES
  · exact Or.inl ⟨h1, by rw [if_pos h1]⟩
  · by_cases h2 : obterIdCidadePorNome g nome ≠ -1
    · exact Or.inr (Or.inl ⟨by omega, (obterIdCidade_ne_iff g nome).mp h2,
        by rw [if_neg h1, if_pos h2]⟩)
    · refine Or.inr (Or.inr ⟨by omega, fun hr => h2 ((obterIdCidade_ne_iff g nome).mpr hr), ?_⟩)
      rw [if_neg h1, if_neg h2]

/-- The four possible results of `criarRota`. -/
theorem criarRota_casos (g : Grafo) (id_origem id_destino custo : Int) :
    ((idInvalido g id_origem = true ∨ idInvalido g id_destino = true) ∧
      criarRota g id_origem id_destino custo = (g, Except.error Erro.idInvalido)) ∨
    (idInvalido g id_origem = false ∧ idInvalido g id_destino = false ∧
      id_origem = id_destino ∧
      criarRota g id_origem id_destino custo = (g, Except.error Erro.autoLaco)) ∨
    (idInvalido g id_origem = false ∧ idInvalido g id_destino = false ∧
      id_origem ≠ id_destino ∧ custo ≤ 0 ∧
      criarRota g id_origem id_destino custo = (g, Except.error Erro.custoNaoPositivo)) ∨
    (idInvalido g id_origem = false ∧ idInvalido g id_destino = false ∧
      id_origem ≠ id_destino ∧ 0 < custo ∧
      criarRota g id_origem id_destino custo =
        ({ g with adj := (upd (upd g.adj id_origem.toNat
            (⟨id_destino.toNat, custo⟩ :: g.adj id_origem.toNat))
            id_destino.toNat (⟨id_origem.toNat, custo⟩ :: g.adj id_destino.toNat)) },
          Except.ok ())) := by
  unfold criarRota
  by_cases h1 : (idInvalido g id_origem || idInvalido g id_destino) = true
  · left
    refine ⟨by simpa using h1, by rw [if_pos h1]⟩
  · have h1' : idInvalido g id_origem = false ∧ idInvalido g id_destino = false := by
      simpa using h1
    right
    by_cases h2 : id_origem = id_destino
    · left
      exact ⟨h1'.1, h1'.2, h2, by rw [if_neg h1, if_pos h2]⟩
    · right
      by_cases h3 : custo ≤ 0
      · left
        exact ⟨h1'.1, h1'.2, h2, h3, by rw [if_neg h1, if_neg h2, if_pos h3]⟩
      · right
        refine ⟨h1'.1, h1'.2, h2, by omega, ?_⟩
        rw [if_neg h1, if_neg h2, if_neg h3]
        have ha := (idInvalidoCidade_false_iff g id_origem).mp h1'.1
        have hb := (idInvalidoCidade_false_iff g id_destino).mp h1'.2
        have hne : id_destino.toNat ≠ id_origem.toNat := by omega
        simp only [upd_other _ _ _ _ hne]

theorem invAdjRota_conecta {g : Grafo} (h : InvAdj g) {a b : Nat} {w : Int}
    (ha : a < g.num_cidades) (hb : b < g.num_cidades) (hab : a ≠ b) (hw : 0 < w) :
    InvAdj { g with adj := (upd (upd g.adj a (⟨b, w⟩ :: g.adj a)) b (⟨a, w⟩ :: g.adj b)) } := by
  have hadj : ∀ x, upd (upd g.adj a (⟨b, w⟩ :: g.adj a)) b (⟨a, w⟩ :: g.adj b) x =
      if x = b then ⟨a, w⟩ :: g.adj b else if x = a then ⟨b, w⟩ :: g.adj a else g.adj x :=
    fun x => rfl
  have hba : b ≠ a := fun e => hab e.symm
  refine ⟨?_, ?_, ?_, ?_, ?_⟩
  · intro i no hv
    change no ∈ upd (upd g.adj a (⟨b, w⟩ :: g.adj a)) b (⟨a, w⟩ :: g.adj b) i at hv
    show no.id_destino < g.num_cidades
    rw [hadj] at hv
    split_ifs at hv
    · rcases List.mem_cons.mp hv with h1 | h1
      · rw [h1]
        exact ha
      · exact h.lt _ no h1
    · rcases List.mem_cons.mp hv with h1 | h1
      · rw [h1]
        exact hb
      · exact h.lt _ no h1
    · exact h.lt _ no hv
  · intro i no hv
    change no ∈ upd (upd g.adj a (⟨b, w⟩ :: g.adj a)) b (⟨a, w⟩ :: g.adj b) i at hv
    rw [hadj] at hv
    split_ifs at hv with h1 h2
    · rcases List.mem_cons.mp hv with h3 | h3
      · rw [h3, h1]
        exact hab
      · rw [h1]
        exact h.sem_laco b no h3
    · rcases List.mem_cons.mp hv with h3 | h3
      · rw [h3, h2]
        exact hba
      · rw [h2]
        exact h.sem_laco a no h3
    · exact h.sem_laco _ no hv
  · intro i no hv
    change no ∈ upd (upd g.adj a (⟨b, w⟩ :: g.adj a)) b (⟨a, w⟩ :: g.adj b) i at hv
    rw [hadj] at hv
    split_ifs at hv
    · rcases List.mem_cons.mp hv with h3 | h3
      · rw [h3]
        exact hw
      · exact h.positivo _ no h3
    · rcases List.mem_cons.mp hv with h3 | h3
      · rw [h3]
        exact hw
      · exact h.positivo _ no h3
    · exact h.positivo _ no hv
  · intro x y c
    show (upd (upd g.adj a (⟨b, w⟩ :: g.adj a)) b (⟨a, w⟩ :: g.adj b) x).count ⟨y, c⟩ =
      (upd (upd g.adj a (⟨b, w⟩ :: g.adj a)) b (⟨a, w⟩ :: g.adj b) y).count ⟨x, c⟩
    rw [hadj, hadj]
    have haa : ∀ c, (g.adj a).count ⟨a, c⟩ = 0 := fun c =>
      List.count_eq_zero.mpr (fun hm => h.sem_laco a _ hm rfl)
    have hbb : ∀ c, (g.adj b).count ⟨b, c⟩ = 0 := fun c =>
      List.count_eq_zero.mpr (fun hm => h.sem_laco b _ hm rfl)
    have hs := h.sim
    by_cases hxb : x = b
    · by_cases hyb : y = b
      · rw [hxb, hyb]
      · by_cases hya : y = a
        · rw [hxb, hya]
          simp [hab, hba, List.count_cons, hs a b c]
        · rw [hxb]
          simp [hyb, hya, List.count_cons, hs b y c]
    · by_cases hxa : x = a
      · by_cases hyb : y = b
        · rw [hxa, hyb]
          simp [hab, hba, List.count_cons, hs a b c]
        · by_cases hya : y = a
          · rw [hxa, hya]
          · rw [hxa]
            simp [hyb, hya, hab, List.count_cons, hs a y c]
      · by_cases hyb : y = b
        · rw [hyb]
          simp [hxb, hxa, hba, List.count_cons, hs x b c]
        · by_cases hya : y = a
          · rw [hya]
            simp [hxb, hxa, hab, List.count_cons, hs x a c]
          · simp [hxb, hxa, hyb, hya, hs x y c]
  · intro i hi
    change g.num_cidades ≤ i at hi
    show upd (upd g.adj a (⟨b, w⟩ :: g.adj a)) b (⟨a, w⟩ :: g.adj b) i = []
    rw [hadj, if_neg (by omega), if_neg (by omega)]
    exact h.vazio i hi

theorem invRegistroCidade_adiciona {g : Grafo} (h : InvRegistro g) {nome : String}
    (hlt : g.num_cidades < MAX_CIDADES) (hnr : ¬ Registrado g nome) :
    InvRegistro { adj := upd g.adj g.num_cidades [],
                  cidades := upd g.cidades g.num_cidades ⟨(g.num_cidades : Int), nome⟩,
                  num_cidades := g.num_cidades + 1 } := by
  have hnovo : ∀ i, i < g.num_cidades → (g.cidades i).nome ≠ nome := by
    intro i hi hn
    apply hnr
    refine ⟨i, hi, ?_, hn⟩
    rw [h.ids i hi]
    omega
  refine ⟨?_, ?_, ?_, ?_⟩
  · show g.num_cidades + 1 ≤ MAX_CIDADES
    omega
  · intro i hi
    change i < g.num_cidades + 1 at hi
    show (upd g.cidades g.num_cidades _ i).id = (i : Int)
    by_cases hin : i = g.num_cidades
    · rw [hin, upd_same]
    · rw [upd_other _ _ _ _ hin]
      exact h.ids i (by omega)
  · intro i hi
    change g.num_cidades + 1 ≤ i at hi
    show (upd g.cidades g.num_cidades _ i).id = -1
    rw [upd_other _ _ _ _ (by omega)]
    exact h.livres i (by omega)
  · intro i j hi hj hij
    change i < g.num_cidades + 1 at hi
    change j < g.num_cidades + 1 at hj
    change (upd g.cidades g.num_cidades _ i).nome = (upd g.cidades g.num_cidades _ j).nome
      at hij
    by_cases hin : i = g.num_cidades
    · by_cases hjn : j = g.num_cidades
      · omega
      · rw [hin, upd_same, upd_other _ _ _ _ hjn] at hij
        exact absurd hij.symm (hnovo j (by omega))
    · by_cases hjn : j = g.num_cidades
      · rw [hjn, upd_same, upd_other _ _ _ _ hin] at hij
        exact absurd hij (hnovo i (by omega))
      · rw [upd_other _ _ _ _ hin, upd_other _ _ _ _ hjn] at hij
        exact h.nomes i j (by omega) (by omega) hij

theorem invAdjRota_adiciona {g : Grafo} (h : InvAdj g) (nome : String) :
    InvAdj { adj := upd g.adj g.num_cidades [],
             cidades := upd g.cidades g.num_cidades ⟨(g.num_cidades : Int), nome⟩,
             num_cidades := g.num_cidades + 1 } := by
  have hadj : ∀ x, upd g.adj g.num_cidades [] x = g.adj x := by
    intro x
    by_cases hx : x = g.num_cidades
    · rw [hx, upd_same, h.vazio _ (le_refl _)]
    · exact upd_other _ _ _ _ hx
  refine ⟨?_, ?_, ?_, ?_, ?_⟩
  · intro i no hv
    change no ∈ upd g.adj g.num_cidades [] i at hv
    show no.id_destino < g.num_cidades + 1
    rw [hadj] at hv
    have := h.lt i no hv
    omega
  · intro i no hv
    change no ∈ upd g.adj g.num_cidades [] i at hv
    rw [hadj] at hv
    exact h.sem_laco i no hv
  · intro i no hv
    change no ∈ upd g.adj g.num_cidades [] i at hv
    rw [hadj] at hv
    exact h.positivo i no hv
  · intro a b w
    show (upd g.adj g.num_cidades [] a).count ⟨b, w⟩ =
      (upd g.adj g.num_cidades [] b).count ⟨a, w⟩
    rw [hadj, hadj]
    exact h.sim a b w
  · intro i hi
    change g.num_cidades + 1 ≤ i at hi
    show upd g.adj g.num_cidades [] i = []
    rw [hadj]
    exact h.vazio i (by omega)

theorem invariantesRota_of_construido {g : Grafo} (hg : Construido g) :
    InvRegistro g ∧ InvAdj g := by
  induction hg with
  | vazio =>
    refine ⟨⟨?_, ?_, ?_, ?_⟩, ⟨?_, ?_, ?_, ?_, ?_⟩⟩
    · simp [inicializarGrafo, MAX_CIDADES]
    · intro i hi
      exact absurd hi (Nat.not_lt_zero i)
    · intro i _
      rfl
    · intro i j hi
      exact absurd hi (Nat.not_lt_zero i)
    · intro i no hv
      exact absurd hv (List.not_mem_nil no)
    · intro i no hv
      exact absurd hv (List.not_mem_nil no)
    · intro i no hv
      exact absurd hv (List.not_mem_nil no)
    · intro a b w
      rfl
    · intro i _
      rfl
  | @cidade g nome _ ih =>
    rcases adicionarCidade_casos g nome with ⟨_, he⟩ | ⟨_, _, he⟩ | ⟨hlt, hnr, he⟩
    · rw [he]
      exact ih
    · rw [he]
      exact ih
    · rw [he]
      exact ⟨invRegistroCidade_adiciona ih.1 hlt hnr, invAdjRota_adiciona ih.2 nome⟩
  | @rota g a b w _ ih =>
    rcases criarRota_casos g a b w with ⟨_, he⟩ | ⟨_, _, _, he⟩ | ⟨_, _, _, _, he⟩ |
      ⟨h1, h2, hne, hw, he⟩
    · rw [he]
      exact ih
    · rw [he]
      exact ih
    · rw [he]
      exact ih
    · rw [he]
      have ha := (idInvalidoCidade_false_iff g a).mp h1
      have hb := (idInvalidoCidade_false_iff g b).mp h2
      refine ⟨⟨ih.1.cap, ih.1.ids, ih.1.livres, ih.1.nomes⟩, ?_⟩
      exact invAdjRota_conecta ih.2 (by omega) (by omega) (by omega) hw

end Exercicio2

namespace Exercicio1

theorem idInvalido_true_iff {g : Grafo} (h : InvRegistro g) (id : Int) :
    idInvalido g id = true ↔ (id < 0 ∨ (g.num_usuarios : Int) ≤ id) := by
  constructor
  · intro hi
    by_contra hc
    have h0 : 0 ≤ id := by omega
    have h1 : id < (g.num_usuarios : Int) := by omega
    have hf : idInvalido g id = false := by
      rw [idInvalido_false_iff]
      refine ⟨h0, h1, ?_⟩
      rw [h.ids id.toNat (by omega)]
      omega
    rw [hf] at hi
    exact Bool.noConfusion hi
  · intro hc
    by_contra hi
    have hf : idInvalido g id = false := by simpa using hi
    have := (idInvalido_false_iff g id).mp hf
    omega

theorem idInvalido_true_of_fora (g : Grafo) (id : Int)
    (h : id < 0 ∨ (g.num_usuarios : Int) ≤ id) : idInvalido g id = true := by
  by_contra hi
  have hf : idInvalido g id = false := by simpa using hi
  have := (idInvalido_false_iff g id).mp hf
  omega

/-- The value returned by `obterIdUsuarioPorNome`: `-1`, or the id stored in a
matching slot. -/
theorem obterIdUsuario_valor (g : Grafo) (nome : String) :
    obterIdUsuarioPorNome g nome = -1 ∨
    ∃ j, j < g.num_usuarios ∧ (g.usuarios j).nome = nome ∧
      obterIdUsuarioPorNome g nome = (g.usuarios j).id := by
  unfold obterIdUsuarioPorNome
  cases hfind : (List.range g.num_usuarios).find?
      (fun i => decide ((g.usuarios i).id ≠ -1) && decide ((g.usuarios i).nome = nome)) with
  | none => exact Or.inl rfl
  | some j =>
    have hp := List.find?_some hfind
    have hmem := List.mem_of_find?_eq_some hfind
    simp only [Bool.and_eq_true, decide_eq_true_eq] at hp
    exact Or.inr ⟨j, List.mem_range.mp hmem, hp.2, rfl⟩

theorem obterIdUsuario_construido {g : Grafo} (h : InvRegistro g) (nome : String) :
    (obterIdUsuarioPorNome g nome = -1 ↔
      ∀ i, i < g.num_usuarios → (g.usuarios i).nome ≠ nome) ∧
    (∀ i, i < g.num_usuarios → (g.usuarios i).nome = nome →
      obterIdUsuarioPorNome g nome = (i : Int) ∧
      ∀ j, j < g.num_usuarios → (g.usuarios j).nome = nome → j = i) := by
  have hreg : Registrado g nome ↔ ∃ i, i < g.num_usuarios ∧ (g.usuarios i).nome = nome := by
    constructor
    · rintro ⟨i, hi, _, hn⟩
      exact ⟨i, hi, hn⟩
    · rintro ⟨i, hi, hn⟩
      refine ⟨i, hi, ?_, hn⟩
      rw [h.ids i hi]
      omega
  constructor
  · constructor
    · intro he i hi hn
      have : obterIdUsuarioPorNome g nome ≠ -1 :=
        (obterIdUsuario_ne_iff g nome).mpr (hreg.mpr ⟨i, hi, hn⟩)
      exact this he
    · intro hall
      by_contra hne
      obtain ⟨i, hi, hn⟩ := hreg.mp ((obterIdUsuario_ne_iff g nome).mp hne)
      exact hall i hi hn
  · intro i hi hn
    have huniq : ∀ j, j < g.num_usuarios → (g.usuarios j).nome = nome → j = i :=
      fun j hj hjn => h.nomes j i hj hi (by rw [hjn, hn])
    refine ⟨?_, huniq⟩
    rcases obterIdUsuario_valor g nome with he | ⟨j, hj, hjn, he⟩
    · exact absurd he ((obterIdUsuario_ne_iff g nome).mpr (hreg.mpr ⟨i, hi, hn⟩))
    · rw [he, huniq j hj hjn, h.ids i hi]

end Exercicio1

namespace Exercicio2

theorem idInvalidoCidade_true_iff {g : Grafo} (h : InvRegistro g) (id : Int) :
    idInvalido g id = true ↔ (id < 0 ∨ (g.num_cidades : Int) ≤ id) := by
  constructor
  · intro hi
    by_contra hc
    have h0 : 0 ≤ id := by omega
    have h1 : id < (g.num_cidades : Int) := by omega
    have hf : idInvalido g id = false := by
      rw [idInvalidoCidade_false_iff]
      refine ⟨h0, h1, ?_⟩
      rw [h.ids id.toNat (by omega)]
      omega
    rw [hf] at hi
    exact Bool.noConfusion hi
  · intro hc
    by_contra hi
    have hf : idInvalido g id = false := by simpa using hi
    have := (idInvalidoCidade_false_iff g id).mp hf
    omega

theorem idInvalidoCidade_true_of_fora (g : Grafo) (id : Int)
    (h : id < 0 ∨ (g.num_cidades : Int) ≤ id) : idInvalido g id = true := by
  by_contra hi
  have hf : idInvalido g id = false := by simpa using hi
  have := (idInvalidoCidade_false_iff g id).mp hf
  omega

/-- The value returned by `obterIdCidadePorNome`: `-1`, or the id stored in a
matching slot. -/
theorem obterIdCidade_valor (g : Grafo) (nome : String) :
    obterIdCidadePorNome g nome = -1 ∨
    ∃ j, j < g.num_cidades ∧ (g.cidades j).nome = nome ∧
      obterIdCidadePorNome g nome = (g.cidades j).id := by
  unfold obterIdCidadePorNome
  cases hfind : (List.range g.num_cidades).find?
      (fun i => decide ((g.cidades i).id ≠ -1) && decide ((g.cidades i).nome = nome)) with
  | none => exact Or.inl rfl
  | some j =>
    have hp := List.find?_some hfind
    have hmem := List.mem_of_find?_eq_some hfind
    simp only [Bool.and_eq_true, decide_eq_true_eq] at hp
    exact Or.inr ⟨j, List.mem_range.mp hmem, hp.2, rfl⟩

theorem obterIdCidade_construido {g : Grafo} (h : InvRegistro g) (nome : String) :
    (obterIdCidadePorNome g nome = -1 ↔
      ∀ i, i < g.num_cidades → (g.cidades i).nome ≠ nome) ∧
    (∀ i, i < g.num_cidades → (g.cidades i).nome = nome →
      obterIdCidadePorNome g nome = (i : Int) ∧
      ∀ j, j < g.num_cidades → (g.cidades j).nome = nome → j = i) := by
  have hreg : Registrado g nome ↔ ∃ i, i < g.num_cidades ∧ (g.cidades i).nome = nome := by
    constructor
    · rintro ⟨i, hi, _, hn⟩
      exact ⟨i, hi, hn⟩
    · rintro ⟨i, hi, hn⟩
      refine ⟨i, hi, ?_, hn⟩
      rw [h.ids i hi]
      omega
  constructor
  · constructor
    · intro he i hi hn
      have : obterIdCidadePorNome g nome ≠ -1 :=
        (obterIdCidade_ne_iff g nome).mpr (hreg.mpr ⟨i, hi, hn⟩)
      exact this he
    · intro hall
      by_contra hne
      obtain ⟨i, hi, hn⟩ := hreg.mp ((obterIdCidade_ne_iff g nome).mp hne)
      exact hall i hi hn
  · intro i hi hn
    have huniq : ∀ j, j < g.num_cidades → (g.cidades j).nome = nome → j = i :=
      fun j hj hjn => h.nomes j i hj hi (by rw [hjn, hn])
    refine ⟨?_, huniq⟩
    rcases obterIdCidade_valor g nome with he | ⟨j, hj, hjn, he⟩
    · exact absurd he ((obterIdCidade_ne_iff g nome).mpr (hreg.mpr ⟨i, hi, hn⟩))
    · rw [he, huniq j hj hjn, h.ids i hi]

end Exercicio2

namespace Exercicio1

theorem adicionarUsuario_efeito (g : Grafo) (nome : String) :
    ((∃ e, (adicionarUsuario g nome).2 = Except.error e) ↔
      (Registrado g nome ∨ MAX_USUARIOS ≤ g.num_usuarios)) ∧
    (∀ e, (adicionarUsuario g nome).2 = Except.error e → (adicionarUsuario g nome).1 = g) ∧
    (∀ id, (adicionarUsuario g nome).2 = Except.ok id →
      (∀ i, i < g.num_usuarios → (adicionarUsuario g nome).1.usuarios i = g.usuarios i) ∧
      (∀ i, i ≠ g.num_usuarios → (adicionarUsuario g nome).1.adj i = g.adj i) ∧
      (g.adj g.num_usuarios = [] → (adicionarUsuario g nome).1.adj = g.adj)) := by
  rcases adicionarUsuario_casos g nome with ⟨hc, he⟩ | ⟨hlt, hr, he⟩ | ⟨hlt, hnr, he⟩
  · rw [he]
    refine ⟨⟨fun _ => Or.inr hc, fun _ => ⟨_, rfl⟩⟩, fun _ _ => rfl, ?_⟩
    intro id hid
    cases hid
  · rw [he]
    refine ⟨⟨fun _ => Or.inl hr, fun _ => ⟨_, rfl⟩⟩, fun _ _ => rfl, ?_⟩
    intro id hid
    cases hid
  · rw [he]
    refine ⟨⟨?_, ?_⟩, ?_, ?_⟩
    · rintro ⟨e, h⟩
      cases h
    · rintro (h | h)
      · exact absurd h hnr
      · omega
    · intro e h
      cases h
    · intro id _
      refine ⟨?_, ?_, ?_⟩
      · intro i hi
        exact upd_other _ _ _ _ (by omega)
      · intro i hi
        exact upd_other _ _ _ _ hi
      · intro hv
        funext i
        show upd g.adj g.num_usuarios [] i = g.adj i
        by_cases hi : i = g.num_usuarios
        · rw [hi, upd_same, hv]
        · exact upd_other _ _ _ _ hi

theorem criarConexao_efeito (g : Grafo) (id1 id2 : Int)
    (h : (criarConexao g id1 id2).2 = Except.ok ()) :
    0 ≤ id1 ∧ 0 ≤ id2 ∧ id1.toNat ≠ id2.toNat ∧
    (criarConexao g id1 id2).1.adj id1.toNat = id2.toNat :: g.adj id1.toNat ∧
    (criarConexao g id1 id2).1.adj id2.toNat = id1.toNat :: g.adj id2.toNat ∧
    (∀ i, i ≠ id1.toNat → i ≠ id2.toNat → (criarConexao g id1 id2).1.adj i = g.adj i) ∧
    (criarConexao g id1 id2).1.usuarios = g.usuarios ∧
    (criarConexao g id1 id2).1.num_usuarios = g.num_usuarios := by
  rcases criarConexao_casos g id1 id2 with ⟨_, he⟩ | ⟨_, _, _, he⟩ | ⟨h1, h2, hne, he⟩
  · rw [he] at h
    cases h
  · rw [he] at h
    cases h
  · rw [he]
    have ha := (idInvalido_false_iff g id1).mp h1
    have hb := (idInvalido_false_iff g id2).mp h2
    have hab : id1.toNat ≠ id2.toNat := by omega
    refine ⟨ha.1, hb.1, hab, ?_, ?_, ?_, rfl, rfl⟩
    · show upd (upd g.adj id1.toNat (id2.toNat :: g.adj id1.toNat)) id2.toNat
        (id1.toNat :: g.adj id2.toNat) id1.toNat = id2.toNat :: g.adj id1.toNat
      rw [upd_other _ _ _ _ hab, upd_same]
    · show upd (upd g.adj id1.toNat (id2.toNat :: g.adj id1.toNat)) id2.toNat
        (id1.toNat :: g.adj id2.toNat) id2.toNat = id1.toNat :: g.adj id2.toNat
      rw [upd_same]
    · intro i hi1 hi2
      show upd (upd g.adj id1.toNat (id2.toNat :: g.adj id1.toNat)) id2.toNat
        (id1.toNat :: g.adj id2.toNat) i = g.adj i
      rw [upd_other _ _ _ _ hi2, upd_other _ _ _ _ hi1]

theorem criarConexao_falha (g : Grafo) (id1 id2 : Int) (e : Erro)
    (h : (criarConexao g id1 id2).2 = Except.error e) : (criarConexao g id1 id2).1 = g := by
  rcases criarConexao_casos g id1 id2 with ⟨_, he⟩ | ⟨_, _, _, he⟩ | ⟨h1, h2, hne, he⟩
  · rw [he]
  · rw [he]
  · rw [he] at h
    cases h

end Exercicio1

namespace Exercicio2

theorem adicionarCidade_efeito (g : Grafo) (nome : String) :
    ((∃ e, (adicionarCidade g nome).2 = Except.error e) ↔
      (Registrado g nome ∨ MAX_CIDADES ≤ g.num_cidades)) ∧
    (∀ e, (adicionarCidade g nome).2 = Except.error e → (adicionarCidade g nome).1 = g) ∧
    (∀ id, (adicionarCidade g nome).2 = Except.ok id →
      (∀ i, i < g.num_cidades → (adicionarCidade g nome).1.cidades i = g.cidades i) ∧
      (∀ i, i ≠ g.num_cidades → (adicionarCidade g nome).1.adj i = g.adj i) ∧
      (g.adj g.num_cidades = [] → (adicionarCidade g nome).1.adj = g.adj)) := by
  rcases adicionarCidade_casos g nome with ⟨hc, he⟩ | ⟨hlt, hr, he⟩ | ⟨hlt, hnr, he⟩
  · rw [he]
    refine ⟨⟨fun _ => Or.inr hc, fun _ => ⟨_, rfl⟩⟩, fun _ _ => rfl, ?_⟩
    intro id hid
    cases hid
  · rw [he]
    refine ⟨⟨fun _ => Or.inl hr, fun _ => ⟨_, rfl⟩⟩, fun _ _ => rfl, ?_⟩
    intro id hid
    cases hid
  · rw [he]
    refine ⟨⟨?_, ?_⟩, ?_, ?_⟩
    · rintro ⟨e, h⟩
      cases h
    · rintro (h | h)
      · exact absurd h hnr
      · omega
    · intro e h
      cases h
    · intro id _
      refine ⟨?_, ?_, ?_⟩
      · intro i hi
        exact upd_other _ _ _ _ (by omega)
      · intro i hi
        exact upd_other _ _ _ _ hi
      · intro hv
        funext i
        show upd g.adj g.num_cidades [] i = g.adj i
        by_cases hi : i = g.num_cidades
        · rw [hi, upd_same, hv]
        · exact upd_other _ _ _ _ hi

theorem criarRota_efeito (g : Grafo) (id_origem id_destino custo : Int)
    (h : (criarRota g id_origem id_destino custo).2 = Except.ok ()) :
    0 ≤ id_origem ∧ 0 ≤ id_destino ∧ id_origem.toNat ≠ id_destino.toNat ∧
    (criarRota g id_origem id_destino custo).1.adj id_origem.toNat =
      ⟨id_destino.toNat, custo⟩ :: g.adj id_origem.toNat ∧
    (criarRota g id_origem id_destino custo).1.adj id_destino.toNat =
      ⟨id_origem.toNat, custo⟩ :: g.adj id_destino.toNat ∧
    (∀ i, i ≠ id_origem.toNat → i ≠ id_destino.toNat →
      (criarRota g id_origem id_destino custo).1.adj i = g.adj i) ∧
    (criarRota g id_origem id_destino custo).1.cidades = g.cidades ∧
    (criarRota g id_origem id_destino custo).1.num_cidades = g.num_cidades := by
  rcases criarRota_casos g id_origem id_destino custo with
    ⟨_, he⟩ | ⟨_, _, _, he⟩ | ⟨_, _, _, _, he⟩ | ⟨h1, h2, hne, hw, he⟩
  · rw [he] at h
    cases h
  · rw [he] at h
    cases h
  · rw [he] at h
    cases h
  · rw [he]
    have ha := (idInvalidoCidade_false_iff g id_origem).mp h1
    have hb := (idInvalidoCidade_false_iff g id_destino).mp h2
    have hab : id_origem.toNat ≠ id_destino.toNat := by omega
    refine ⟨ha.1, hb.1, hab, ?_, ?_, ?_, rfl, rfl⟩
    · show upd (upd g.adj id_origem.toNat (⟨id_destino.toNat, custo⟩ :: g.adj id_origem.toNat))
        id_destino.toNat (⟨id_origem.toNat, custo⟩ :: g.adj id_destino.toNat) id_origem.toNat =
        ⟨id_destino.toNat, custo⟩ :: g.adj id_origem.toNat
      rw [upd_other _ _ _ _ hab, upd_same]
    · show upd (upd g.adj id_origem.toNat (⟨id_destino.toNat, custo⟩ :: g.adj id_origem.toNat))
        id_destino.toNat (⟨id_origem.toNat, custo⟩ :: g.adj id_destino.toNat) id_destino.toNat =
        ⟨id_origem.toNat, custo⟩ :: g.adj id_destino.toNat
      rw [upd_same]
    · intro i hi1 hi2
      show upd (upd g.adj id_origem.toNat (⟨id_destino.toNat, custo⟩ :: g.adj id_origem.toNat))
        id_destino.toNat (⟨id_origem.toNat, custo⟩ :: g.adj id_destino.toNat) i = g.adj i
      rw [upd_other _ _ _ _ hi2, upd_other _ _ _ _ hi1]

theorem criarRota_falha (g : Grafo) (id_origem id_destino custo : Int) (e : Erro)
    (h : (criarRota g id_origem id_destino custo).2 = Except.error e) :
    (criarRota g id_origem id_destino custo).1 = g := by
  rcases criarRota_casos g id_origem id_destino custo with
    ⟨_, he⟩ | ⟨_, _, _, he⟩ | ⟨_, _, _, _, he⟩ | ⟨h1, h2, hne, hw, he⟩
  · rw [he]
  · rw [he]
  · rw [he]
  · rw [he] at h
    cases h

end Exercicio2

/-! ## Registry and adjacency claims -/

namespace Exercicio1

/-- On a graph built with names that fit, every slot holds a name that fits. -/
theorem nomesUsuarios_cabem {g : Grafo} (h : ConstruidoNomes g) :
    ∀ i, nomeCabe (g.usuarios i).nome = true := by
  induction h with
  | vazio =>
    intro i
    show nomeCabe "" = true
    decide
  | @usuario g nome hn _ ih =>
    intro i
    rcases adicionarUsuario_casos g nome with ⟨_, h⟩ | ⟨_, _, h⟩ | ⟨_, _, h⟩
    · rw [h]
      exact ih i
    · rw [h]
      exact ih i
    · rw [h]
      show nomeCabe (upd g.usuarios g.num_usuarios ⟨(g.num_usuarios : Int), nome⟩ i).nome = true
      by_cases e : i = g.num_usuarios
      · rw [e, upd_same]
        exact hn
      · rw [upd_other _ _ _ _ e]
        exact ih i
  | @conexao g id1 id2 _ ih =>
    intro i
    rcases criarConexao_casos g id1 id2 with ⟨_, h⟩ | ⟨_, _, _, h⟩ | ⟨_, _, _, h⟩
    · rw [h]
      exact ih i
    · rw [h]
      exact ih i
    · rw [h]
      exact ih i

end Exercicio1

namespace Exercicio2

/-- On a graph built with names that fit, every slot holds a name that fits. -/
theorem nomesCidades_cabem {g : Grafo} (h : ConstruidoNomes g) :
    ∀ i, nomeCabe (g.cidades i).nome = true := by
  induction h with
  | vazio =>
    intro i
    show nomeCabe "" = true
    decide
  | @cidade g nome hn _ ih =>
    intro i
    rcases adicionarCidade_casos g nome with ⟨_, h⟩ | ⟨_, _, h⟩ | ⟨_, _, h⟩
    · rw [h]
      exact ih i
    · rw [h]
      exact ih i
    · rw [h]
      show nomeCabe (upd g.cidades g.num_cidades ⟨(g.num_cidades : Int), nome⟩ i).nome = true
      by_cases e : i = g.num_cidades
      · rw [e, upd_same]
        exact hn
      · rw [upd_other _ _ _ _ e]
        exact ih i
  | @rota g a b w _ ih =>
    intro i
    rcases criarRota_casos g a b w with ⟨_, h⟩ | ⟨_, _, _, h⟩ | ⟨_, _, _, _, h⟩ |
      ⟨_, _, _, _, h⟩
    · rw [h]
      exact ih i
    · rw [h]
      exact ih i
    · rw [h]
      exact ih i
    · rw [h]
      exact ih i

end Exercicio2

/-- C11. In both graphs, for every name that fits the name field (fewer than 50 bytes,
as every name that `main` passes): add-entity fails exactly when the name is already
registered (exact match) or the registry already holds `MAX` = 100 entities; a failing
call returns the graph unchanged; a successful call leaves every previously registered
entity and every other adjacency list as they were, and on a graph built from the empty
graph (with names that fit) the slot it resets was already empty, so all adjacency lists
are unchanged. -/
theorem adicionar_falha_sse_registrado_ou_cheio :
    (∀ (g : Exercicio1.Grafo) (nome : String), Exercicio1.nomeCabe nome = true →
      ((∃ e, (Exercicio1.adicionarUsuario g nome).2 = Except.error e) ↔
        (Exercicio1.Registrado g nome ∨ Exercicio1.MAX_USUARIOS ≤ g.num_usuarios)) ∧
      (∀ e, (Exercicio1.adicionarUsuario g nome).2 = Except.error e →
        (Exercicio1.adicionarUsuario g nome).1 = g) ∧
      (∀ id, (Exercicio1.adicionarUsuario g nome).2 = Except.ok id →
        (∀ i, i < g.num_usuarios →
          (Exercicio1.adicionarUsuario g nome).1.usuarios i = g.usuarios i) ∧
        (∀ i, i ≠ g.num_usuarios → (Exercicio1.adicionarUsuario g nome).1.adj i = g.adj i)) ∧
      (Exercicio1.ConstruidoNomes g → (Exercicio1.adicionarUsuario g nome).1.adj = g.adj)) ∧
    (∀ (g : Exercicio2.Grafo) (nome : String), Exercicio2.nomeCabe nome = true →
      ((∃ e, (Exercicio2.adicionarCidade g nome).2 = Except.error e) ↔
        (Exercicio2.Registrado g nome ∨ Exercicio2.MAX_CIDADES ≤ g.num_cidades)) ∧
      (∀ e, (Exercicio2.adicionarCidade g nome).2 = Except.error e →
        (Exercicio2.adicionarCidade g nome).1 = g) ∧
      (∀ id, (Exercicio2.adicionarCidade g nome).2 = Except.ok id →
        (∀ i, i < g.num_cidades →
          (Exercicio2.adicionarCidade g nome).1.cidades i = g.cidades i) ∧
        (∀ i, i ≠ g.num_cidades → (Exercicio2.adicionarCidade g nome).1.adj i = g.adj i)) ∧
      (Exercicio2.ConstruidoNomes g → (Exercicio2.adicionarCidade g nome).1.adj = g.adj)) := by
  constructor
  · intro g nome _
    obtain ⟨h1, h2, h3⟩ := Exercicio1.adicionarUsuario_efeito g nome
    refine ⟨h1, h2, fun id hid => ⟨(h3 id hid).1, (h3 id hid).2.1⟩, ?_⟩
    intro hg
    have hv := (Exercicio1.invariantes_of_construido
      (Exercicio1.construidoUsuarios_of_nomes hg)).2.vazio g.num_usuarios (le_refl _)
    cases hr : (Exercicio1.adicionarUsuario g nome).2 with
    | error e => rw [h2 e hr]
    | ok id => exact (h3 id hr).2.2 hv
  · intro g nome _
    obtain ⟨h1, h2, h3⟩ := Exercicio2.adicionarCidade_efeito g nome
    refine ⟨h1, h2, fun id hid => ⟨(h3 id hid).1, (h3 id hid).2.1⟩, ?_⟩
    intro hg
    have hv := (Exercicio2.invariantesRota_of_construido
      (Exercicio2.construidoCidades_of_nomes hg)).2.vazio g.num_cidades (le_refl _)
    cases hr : (Exercicio2.adicionarCidade g nome).2 with
    | error e => rw [h2 e hr]
    | ok id => exact (h3 id hr).2.2 hv

theorem adicionar_falha_sse_registrado_ou_cheio_witness :
    (Exercicio1.nomeCabe "A" = true ∧ Exercicio1.nomeCabe "D" = true ∧
      Exercicio2.nomeCabe "B" = true ∧ Exercicio2.nomeCabe "C" = true) ∧
    (Exercicio1.adicionarUsuario Exercicio1.grafoABC "A").1 = Exercicio1.grafoABC ∧
    (∀ i, i < Exercicio1.grafoABC.num_usuarios →
      (Exercicio1.adicionarUsuario Exercicio1.grafoABC "D").1.usuarios i =
        Exercicio1.grafoABC.usuarios i) ∧
    (Exercicio1.adicionarUsuario Exercicio1.grafoABC "D").1.adj = Exercicio1.grafoABC.adj ∧
    (Exercicio2.adicionarCidade Exercicio2.grafoLonge "B").1 = Exercicio2.grafoLonge ∧
    (Exercicio2.adicionarCidade Exercicio2.grafoLonge "C").1.adj = Exercicio2.grafoLonge.adj :=
  ⟨⟨by decide, by decide, by decide, by decide⟩,
   (adicionar_falha_sse_registrado_ou_cheio.1 Exercicio1.grafoABC "A" (by decide)).2.1
     Erro.duplicado rfl,
   ((adicionar_falha_sse_registrado_ou_cheio.1 Exercicio1.grafoABC "D" (by decide)).2.2.1
     3 rfl).1,
   (adicionar_falha_sse_registrado_ou_cheio.1 Exercicio1.grafoABC "D" (by decide)).2.2.2
     Exercicio1.construidoNomes_grafoABC,
   (adicionar_falha_sse_registrado_ou_cheio.2 Exercicio2.grafoLonge "B" (by decide)).2.1
     Erro.duplicado rfl,
   (adicionar_falha_sse_registrado_ou_cheio.2 Exercicio2.grafoLonge "C" (by decide)).2.2.2
     Exercicio2.construidoNomes_grafoLonge⟩

/-- C12. On every graph built by add-entity and connect calls with names that fit the
name field (fewer than 50 bytes, as every name that `main` passes), and for every name
looked up: the lookup returns `-1` exactly when no registered entity has that name; when
entity `i` has the name, the lookup returns `i` (so a value in `[0, count)`) and `i` is
the only such entity. -/
theorem obterId_por_nome_caracterizado :
    (∀ (g : Exercicio1.Grafo), Exercicio1.ConstruidoNomes g → ∀ (nome : String),
      (Exercicio1.obterIdUsuarioPorNome g nome = -1 ↔
        ∀ i, i < g.num_usuarios → (g.usuarios i).nome ≠ nome) ∧
      (∀ i, i < g.num_usuarios → (g.usuarios i).nome = nome →
        Exercicio1.obterIdUsuarioPorNome g nome = (i : Int) ∧
        ∀ j, j < g.num_usuarios → (g.usuarios j).nome = nome → j = i)) ∧
    (∀ (g : Exercicio2.Grafo), Exercicio2.ConstruidoNomes g → ∀ (nome : String),
      (Exercicio2.obterIdCidadePorNome g nome = -1 ↔
        ∀ i, i < g.num_cidades → (g.cidades i).nome ≠ nome) ∧
      (∀ i, i < g.num_cidades → (g.cidades i).nome = nome →
        Exercicio2.obterIdCidadePorNome g nome = (i : Int) ∧
        ∀ j, j < g.num_cidades → (g.cidades j).nome = nome → j = i)) :=
  ⟨fun _ hg nome =>
      Exercicio1.obterIdUsuario_construido (Exercicio1.invariantes_of_construido
        (Exercicio1.construidoUsuarios_of_nomes hg)).1 nome,
   fun _ hg nome =>
      Exercicio2.obterIdCidade_construido (Exercicio2.invariantesRota_of_construido
        (Exercicio2.construidoCidades_of_nomes hg)).1 nome⟩

theorem obterId_por_nome_caracterizado_witness :
    (Exercicio1.obterIdUsuarioPorNome Exercicio1.grafoABC "B" = ((1 : Nat) : Int) ∧
      ∀ j, j < Exercicio1.grafoABC.num_usuarios →
        (Exercicio1.grafoABC.usuarios j).nome = "B" → j = 1) ∧
    (Exercicio2.obterIdCidadePorNome Exercicio2.grafoLonge "B" = ((1 : Nat) : Int) ∧
      ∀ j, j < Exercicio2.grafoLonge.num_cidades →
        (Exercicio2.grafoLonge.cidades j).nome = "B" → j = 1) :=
  ⟨(obterId_por_nome_caracterizado.1 Exercicio1.grafoABC
      Exercicio1.construidoNomes_grafoABC "B").2 1 (by decide) (by decide),
   (obterId_por_nome_caracterizado.2 Exercicio2.grafoLonge
      Exercicio2.construidoNomes_grafoLonge "B").2 1 (by decide) (by decide)⟩

/-- C13. On every built graph and for all integer arguments, connect is decided in
this order: InvalidId exactly when an id is negative or not below the count;
otherwise SelfLoop exactly when the ids are equal; otherwise, in the route graph,
NonPositiveWeight exactly when the cost is `<= 0`; otherwise success. -/
theorem conectar_ordem_das_guardas :
    (∀ (g : Exercicio1.Grafo), Exercicio1.Construido g → ∀ (id1 id2 : Int),
      (Exercicio1.criarConexao g id1 id2).2 =
        if id1 < 0 ∨ (g.num_usuarios : Int) ≤ id1 ∨ id2 < 0 ∨ (g.num_usuarios : Int) ≤ id2
        then Except.error Erro.idInvalido
        else if id1 = id2 then Except.error Erro.autoLaco
        else Except.ok ()) ∧
    (∀ (g : Exercicio2.Grafo), Exercicio2.Construido g → ∀ (id_origem id_destino custo : Int),
      (Exercicio2.criarRota g id_origem id_destino custo).2 =
        if id_origem < 0 ∨ (g.num_cidades : Int) ≤ id_origem ∨
            id_destino < 0 ∨ (g.num_cidades : Int) ≤ id_destino
        then Except.error Erro.idInvalido
        else if id_origem = id_destino then Except.error Erro.autoLaco
        else if custo ≤ 0 then Except.error Erro.custoNaoPositivo
        else Except.ok ()) := by
  constructor
  · intro g hg id1 id2
    have hr := (Exercicio1.invariantes_of_construido hg).1
    have e1 := Exercicio1.idInvalido_true_iff hr id1
    have e2 := Exercicio1.idInvalido_true_iff hr id2
    rcases Exercicio1.criarConexao_casos g id1 id2 with
      ⟨hi, he⟩ | ⟨h1, h2, heq, he⟩ | ⟨h1, h2, hne, he⟩
    · rw [he, if_pos]
      rcases hi with hi | hi
      · have := e1.mp hi
        tauto
      · have := e2.mp hi
        tauto
    · have n1 : ¬ (id1 < 0 ∨ (g.num_usuarios : Int) ≤ id1) := fun hc => by
        rw [e1.mpr hc] at h1
        exact Bool.noConfusion h1
      have n2 : ¬ (id2 < 0 ∨ (g.num_usuarios : Int) ≤ id2) := fun hc => by
        rw [e2.mpr hc] at h2
        exact Bool.noConfusion h2
      rw [he, if_neg (by tauto), if_pos heq]
    · have n1 : ¬ (id1 < 0 ∨ (g.num_usuarios : Int) ≤ id1) := fun hc => by
        rw [e1.mpr hc] at h1
        exact Bool.noConfusion h1
      have n2 : ¬ (id2 < 0 ∨ (g.num_usuarios : Int) ≤ id2) := fun hc => by
        rw [e2.mpr hc] at h2
        exact Bool.noConfusion h2
      rw [he, if_neg (by tauto), if_neg hne]
  · intro g hg a b w
    have hr := (Exercicio2.invariantesRota_of_construido hg).1
    have e1 := Exercicio2.idInvalidoCidade_true_iff hr a
    have e2 := Exercicio2.idInvalidoCidade_true_iff hr b
    rcases Exercicio2.criarRota_casos g a b w with
      ⟨hi, he⟩ | ⟨h1, h2, heq, he⟩ | ⟨h1, h2, hne, hw, he⟩ | ⟨h1, h2, hne, hw, he⟩
    · rw [he, if_pos]
      rcases hi with hi | hi
      · have := e1.mp hi
        tauto
      · have := e2.mp hi
        tauto
    · have n1 : ¬ (a < 0 ∨ (g.num_cidades : Int) ≤ a) := fun hc => by
        rw [e1.mpr hc] at h1
        exact Bool.noConfusion h1
      have n2 : ¬ (b < 0 ∨ (g.num_cidades : Int) ≤ b) := fun hc => by
        rw [e2.mpr hc] at h2
        exact Bool.noConfusion h2
      rw [he, if_neg (by tauto), if_pos heq]
    · have n1 : ¬ (a < 0 ∨ (g.num_cidades : Int) ≤ a) := fun hc => by
        rw [e1.mpr hc] at h1
        exact Bool.noConfusion h1
      have n2 : ¬ (b < 0 ∨ (g.num_cidades : Int) ≤ b) := fun hc => by
        rw [e2.mpr hc] at h2
        exact Bool.noConfusion h2
      rw [he, if_neg (by tauto), if_neg hne, if_pos hw]
    · have n1 : ¬ (a < 0 ∨ (g.num_cidades : Int) ≤ a) := fun hc => by
        rw [e1.mpr hc] at h1
        exact Bool.noConfusion h1
      have n2 : ¬ (b < 0 ∨ (g.num_cidades : Int) ≤ b) := fun hc => by
        rw [e2.mpr hc] at h2
        exact Bool.noConfusion h2
      rw [he, if_neg (by tauto), if_neg hne, if_neg (by omega)]

theorem conectar_ordem_das_guardas_witness :
    (Exercicio1.criarConexao Exercicio1.grafoABC 0 (-1)).2 =
      (if (0 : Int) < 0 ∨ (Exercicio1.grafoABC.num_usuarios : Int) ≤ 0 ∨
          (-1 : Int) < 0 ∨ (Exercicio1.grafoABC.num_usuarios : Int) ≤ -1
        then Except.error Erro.idInvalido
        else if (0 : Int) = -1 then Except.error Erro.autoLaco
        else Except.ok ()) ∧
    (Exercicio2.criarRota Exercicio2.grafoLonge 1 1 0).2 =
      (if (1 : Int) < 0 ∨ (Exercicio2.grafoLonge.num_cidades : Int) ≤ 1 ∨
          (1 : Int) < 0 ∨ (Exercicio2.grafoLonge.num_cidades : Int) ≤ 1
        then Except.error Erro.idInvalido
        else if (1 : Int) = 1 then Except.error Erro.autoLaco
        else if (0 : Int) ≤ 0 then Except.error Erro.custoNaoPositivo
        else Except.ok ()) :=
  ⟨conectar_ordem_das_guardas.1 Exercicio1.grafoABC Exercicio1.construido_grafoABC 0 (-1),
   conectar_ordem_das_guardas.2 Exercicio2.grafoLonge Exercicio2.construido_grafoLonge 1 1 0⟩

/-- C14. In both graphs, connecting a registered entity to itself is answered with
SelfLoop (in the route graph whatever the cost is) and returns the graph unchanged;
every failing connect call returns the graph unchanged. -/
theorem conectar_a_si_mesmo_falha :
    (∀ (g : Exercicio1.Grafo) (id : Int), 0 ≤ id → id < (g.num_usuarios : Int) →
      (g.usuarios id.toNat).id ≠ -1 →
      Exercicio1.criarConexao g id id = (g, Except.error Erro.autoLaco)) ∧
    (∀ (g : Exercicio1.Grafo) (id1 id2 : Int) (e : Erro),
      (Exercicio1.criarConexao g id1 id2).2 = Except.error e →
      (Exercicio1.criarConexao g id1 id2).1 = g) ∧
    (∀ (g : Exercicio2.Grafo) (id custo : Int), 0 ≤ id → id < (g.num_cidades : Int) →
      (g.cidades id.toNat).id ≠ -1 →
      Exercicio2.criarRota g id id custo = (g, Except.error Erro.autoLaco)) ∧
    (∀ (g : Exercicio2.Grafo) (id_origem id_destino custo : Int) (e : Erro),
      (Exercicio2.criarRota g id_origem id_destino custo).2 = Except.error e →
      (Exercicio2.criarRota g id_origem id_destino custo).1 = g) := by
  refine ⟨?_, Exercicio1.criarConexao_falha, ?_, Exercicio2.criarRota_falha⟩
  · intro g id h0 h1 h2
    have hv : Exercicio1.idInvalido g id = false :=
      (Exercicio1.idInvalido_false_iff g id).mpr ⟨h0, h1, h2⟩
    unfold Exercicio1.criarConexao
    rw [hv]
    simp
  · intro g id custo h0 h1 h2
    have hv : Exercicio2.idInvalido g id = false :=
      (Exercicio2.idInvalidoCidade_false_iff g id).mpr ⟨h0, h1, h2⟩
    unfold Exercicio2.criarRota
    rw [hv]
    simp

theorem conectar_a_si_mesmo_falha_witness :
    Exercicio1.criarConexao Exercicio1.grafoABC 1 1 =
      (Exercicio1.grafoABC, Except.error Erro.autoLaco) ∧
    (Exercicio1.criarConexao Exercicio1.grafoABC 0 7).1 = Exercicio1.grafoABC ∧
    Exercicio2.criarRota Exercicio2.grafoLonge 1 1 (-5) =
      (Exercicio2.grafoLonge, Except.error Erro.autoLaco) ∧
    (Exercicio2.criarRota Exercicio2.grafoLonge 0 1 0).1 = Exercicio2.grafoLonge :=
  ⟨conectar_a_si_mesmo_falha.1 Exercicio1.grafoABC 1 (by decide) (by decide) (by decide),
   conectar_a_si_mesmo_falha.2.1 Exercicio1.grafoABC 0 7 Erro.idInvalido rfl,
   conectar_a_si_mesmo_falha.2.2.1 Exercicio2.grafoLonge 1 (-5) (by decide) (by decide)
     (by decide),
   conectar_a_si_mesmo_falha.2.2.2 Exercicio2.grafoLonge 0 1 0 Erro.custoNaoPositivo rfl⟩

/-- C15. In both graphs, after a successful connect of `a` and `b` (with cost `w` in
the route graph) the list of `a` is the new entry for `b` followed by the old list of
`a`, the list of `b` is the new entry for `a` followed by the old list of `b`, so the
number of entries of each in the other's list grew by exactly one; every other list,
the registry and the count are unchanged. -/
theorem conectar_insere_na_cabeca :
    (∀ (g : Exercicio1.Grafo) (id1 id2 : Int),
      (Exercicio1.criarConexao g id1 id2).2 = Except.ok () →
      0 ≤ id1 ∧ 0 ≤ id2 ∧ id1.toNat ≠ id2.toNat ∧
      (Exercicio1.criarConexao g id1 id2).1.adj id1.toNat = id2.toNat :: g.adj id1.toNat ∧
      (Exercicio1.criarConexao g id1 id2).1.adj id2.toNat = id1.toNat :: g.adj id2.toNat ∧
      ((Exercicio1.criarConexao g id1 id2).1.adj id1.toNat).count id2.toNat =
        (g.adj id1.toNat).count id2.toNat + 1 ∧
      ((Exercicio1.criarConexao g id1 id2).1.adj id2.toNat).count id1.toNat =
        (g.adj id2.toNat).count id1.toNat + 1 ∧
      (∀ i, i ≠ id1.toNat → i ≠ id2.toNat →
        (Exercicio1.criarConexao g id1 id2).1.adj i = g.adj i) ∧
      (Exercicio1.criarConexao g id1 id2).1.usuarios = g.usuarios ∧
      (Exercicio1.criarConexao g id1 id2).1.num_usuarios = g.num_usuarios) ∧
    (∀ (g : Exercicio2.Grafo) (id_origem id_destino custo : Int),
      (Exercicio2.criarRota g id_origem id_destino custo).2 = Except.ok () →
      0 ≤ id_origem ∧ 0 ≤ id_destino ∧ id_origem.toNat ≠ id_destino.toNat ∧
      (Exercicio2.criarRota g id_origem id_destino custo).1.adj id_origem.toNat =
        ⟨id_destino.toNat, custo⟩ :: g.adj id_origem.toNat ∧
      (Exercicio2.criarRota g id_origem id_destino custo).1.adj id_destino.toNat =
        ⟨id_origem.toNat, custo⟩ :: g.adj id_destino.toNat ∧
      ((Exercicio2.criarRota g id_origem id_destino custo).1.adj id_origem.toNat).count
          ⟨id_destino.toNat, custo⟩ =
        (g.adj id_origem.toNat).count ⟨id_destino.toNat, custo⟩ + 1 ∧
      ((Exercicio2.criarRota g id_origem id_destino custo).1.adj id_destino.toNat).count
          ⟨id_origem.toNat, custo⟩ =
        (g.adj id_destino.toNat).count ⟨id_origem.toNat, custo⟩ + 1 ∧
      (∀ i, i ≠ id_origem.toNat → i ≠ id_destino.toNat →
        (Exercicio2.criarRota g id_origem id_destino custo).1.adj i = g.adj i) ∧
      (Exercicio2.criarRota g id_origem id_destino custo).1.cidades = g.cidades ∧
      (Exercicio2.criarRota g id_origem id_destino custo).1.num_cidades = g.num_cidades) := by
  constructor
  · intro g id1 id2 h
    obtain ⟨h0, h1, hne, ha, hb, hrest, hu, hn⟩ := Exercicio1.criarConexao_efeito g id1 id2 h
    refine ⟨h0, h1, hne, ha, hb, ?_, ?_, hrest, hu, hn⟩
    · rw [ha, List.count_cons_self]
    · rw [hb, List.count_cons_self]
  · intro g a b w h
    obtain ⟨h0, h1, hne, ha, hb, hrest, hu, hn⟩ := Exercicio2.criarRota_efeito g a b w h
    refine ⟨h0, h1, hne, ha, hb, ?_, ?_, hrest, hu, hn⟩
    · rw [ha, List.count_cons_self]
    · rw [hb, List.count_cons_self]

theorem conectar_insere_na_cabeca_witness :
    ((Exercicio1.criarConexao Exercicio1.grafoABC 0 1).1.adj (0 : Int).toNat).count
        (1 : Int).toNat = (Exercicio1.grafoABC.adj (0 : Int).toNat).count (1 : Int).toNat + 1 ∧
    (Exercicio2.criarRota Exercicio2.grafoLonge 0 1 7).1.adj (1 : Int).toNat =
      ⟨(0 : Int).toNat, 7⟩ :: Exercicio2.grafoLonge.adj (1 : Int).toNat :=
  ⟨(conectar_insere_na_cabeca.1 Exercicio1.grafoABC 0 1 rfl).2.2.2.2.2.1,
   (conectar_insere_na_cabeca.2 Exercicio2.grafoLonge 0 1 7 rfl).2.2.2.2.1⟩

/-- C17. In every graph state reachable from the empty graph by add-entity calls with
names that fit the name field (fewer than 50 bytes, as every name that `main` passes)
and connect calls (successful or failing), the count is at most 100, every slot below
the count stores its own index as id, every slot at or above the count stores `-1`, the
names in the slots below the count are pairwise distinct, and each of them fits the
name field. -/
theorem invariante_do_registro :
    (∀ (g : Exercicio1.Grafo), Exercicio1.ConstruidoNomes g →
      g.num_usuarios ≤ 100 ∧
      (∀ i, i < g.num_usuarios → (g.usuarios i).id = (i : Int)) ∧
      (∀ i, g.num_usuarios ≤ i → (g.usuarios i).id = -1) ∧
      (∀ i j, i < g.num_usuarios → j < g.num_usuarios →
        (g.usuarios i).nome = (g.usuarios j).nome → i = j) ∧
      (∀ i, i < g.num_usuarios → Exercicio1.nomeCabe (g.usuarios i).nome = true)) ∧
    (∀ (g : Exercicio2.Grafo), Exercicio2.ConstruidoNomes g →
      g.num_cidades ≤ 100 ∧
      (∀ i, i < g.num_cidades → (g.cidades i).id = (i : Int)) ∧
      (∀ i, g.num_cidades ≤ i → (g.cidades i).id = -1) ∧
      (∀ i j, i < g.num_cidades → j < g.num_cidades →
        (g.cidades i).nome = (g.cidades j).nome → i = j) ∧
      (∀ i, i < g.num_cidades → Exercicio2.nomeCabe (g.cidades i).nome = true)) := by
  constructor
  · intro g hg
    have h := (Exercicio1.invariantes_of_construido
      (Exercicio1.construidoUsuarios_of_nomes hg)).1
    exact ⟨h.cap, h.ids, h.livres, h.nomes, fun i _ => Exercicio1.nomesUsuarios_cabem hg i⟩
  · intro g hg
    have h := (Exercicio2.invariantesRota_of_construido
      (Exercicio2.construidoCidades_of_nomes hg)).1
    exact ⟨h.cap, h.ids, h.livres, h.nomes, fun i _ => Exercicio2.nomesCidades_cabem hg i⟩

theorem invariante_do_registro_witness :
    (Exercicio1.grafoABC.num_usuarios ≤ 100 ∧
      (∀ i, i < Exercicio1.grafoABC.num_usuarios →
        (Exercicio1.grafoABC.usuarios i).id = (i : Int)) ∧
      (∀ i, Exercicio1.grafoABC.num_usuarios ≤ i → (Exercicio1.grafoABC.usuarios i).id = -1) ∧
      (∀ i j, i < Exercicio1.grafoABC.num_usuarios → j < Exercicio1.grafoABC.num_usuarios →
        (Exercicio1.grafoABC.usuarios i).nome = (Exercicio1.grafoABC.usuarios j).nome → i = j) ∧
      (∀ i, i < Exercicio1.grafoABC.num_usuarios →
        Exercicio1.nomeCabe (Exercicio1.grafoABC.usuarios i).nome = true)) ∧
    (Exercicio2.grafoSentinela.num_cidades ≤ 100 ∧
      (∀ i, i < Exercicio2.grafoSentinela.num_cidades →
        (Exercicio2.grafoSentinela.cidades i).id = (i : Int)) ∧
      (∀ i, Exercicio2.grafoSentinela.num_cidades ≤ i →
        (Exercicio2.grafoSentinela.cidades i).id = -1) ∧
      (∀ i j, i < Exercicio2.grafoSentinela.num_cidades →
        j < Exercicio2.grafoSentinela.num_cidades →
        (Exercicio2.grafoSentinela.cidades i).nome = (Exercicio2.grafoSentinela.cidades j).nome →
        i = j) ∧
      (∀ i, i < Exercicio2.grafoSentinela.num_cidades →
        Exercicio2.nomeCabe (Exercicio2.grafoSentinela.cidades i).nome = true)) :=
  ⟨invariante_do_registro.1 Exercicio1.grafoABC Exercicio1.construidoNomes_grafoABC,
   invariante_do_registro.2 Exercicio2.grafoSentinela Exercicio2.construidoNomes_grafoSentinela⟩

/-- C18. In every graph state reachable from the empty graph by add-entity and connect
calls, every id stored in an adjacency list is below the count, no list contains its
owner, every stored route cost is strictly positive, and the number of entries for `b`
(with cost `w`) in the list of `a` equals the number of entries for `a` (with cost
`w`) in the list of `b`. -/
theorem invariante_das_adjacencias :
    (∀ (g : Exercicio1.Grafo), Exercicio1.Construido g →
      (∀ i v, v ∈ g.adj i → v < g.num_usuarios) ∧
      (∀ i, i ∉ g.adj i) ∧
      (∀ a b, (g.adj a).count b = (g.adj b).count a)) ∧
    (∀ (g : Exercicio2.Grafo), Exercicio2.Construido g →
      (∀ i no, no ∈ g.adj i → no.id_destino < g.num_cidades) ∧
      (∀ i no, no ∈ g.adj i → no.id_destino ≠ i) ∧
      (∀ i no, no ∈ g.adj i → 0 < no.custo) ∧
      (∀ a b w, (g.adj a).count ⟨b, w⟩ = (g.adj b).count ⟨a, w⟩)) := by
  constructor
  · intro g hg
    have h := (Exercicio1.invariantes_of_construido hg).2
    exact ⟨h.lt, h.sem_laco, h.sim⟩
  · intro g hg
    have h := (Exercicio2.invariantesRota_of_construido hg).2
    exact ⟨h.lt, h.sem_laco, h.positivo, h.sim⟩

theorem invariante_das_adjacencias_witness :
    ((∀ i v, v ∈ Exercicio1.grafoABC.adj i → v < Exercicio1.grafoABC.num_usuarios) ∧
      (∀ i, i ∉ Exercicio1.grafoABC.adj i) ∧
      (∀ a b, (Exercicio1.grafoABC.adj a).count b = (Exercicio1.grafoABC.adj b).count a)) ∧
    ((∀ i no, no ∈ Exercicio2.grafoSentinela.adj i →
        no.id_destino < Exercicio2.grafoSentinela.num_cidades) ∧
      (∀ i no, no ∈ Exercicio2.grafoSentinela.adj i → no.id_destino ≠ i) ∧
      (∀ i no, no ∈ Exercicio2.grafoSentinela.adj i → 0 < no.custo) ∧
      (∀ a b w, (Exercicio2.grafoSentinela.adj a).count ⟨b, w⟩ =
        (Exercicio2.grafoSentinela.adj b).count ⟨a, w⟩)) :=
  ⟨invariante_das_adjacencias.1 Exercicio1.grafoABC Exercicio1.construido_grafoABC,
   invariante_das_adjacencias.2 Exercicio2.grafoSentinela Exercicio2.construido_grafoSentinela⟩

namespace Exercicio1

theorem mesmaFila_vizinho {sb : EstadoBfs} {ss : EstadoSug} (h : MesmaFila sb ss) (u v : Nat) :
    MesmaFila (bfsVizinho sb v) (sugVizinho u ss v) := by
  obtain ⟨h1, h2, h3, h4⟩ := h
  unfold bfsVizinho sugVizinho
  rw [h1]
  by_cases hv : ss.visitado v = true
  · rw [if_pos hv, if_pos hv]
    exact ⟨h1, h2, h3, h4⟩
  · rw [if_neg hv, if_neg hv]
    refine ⟨?_, ?_, h3, ?_⟩
    · rfl
    · show upd sb.fila sb.tras v = upd ss.fila ss.tras v
      rw [h2, h4]
    · show sb.tras + 1 = ss.tras + 1
      rw [h4]

theorem mesmaFila_foldl (u : Nat) : ∀ (l : List Nat) (sb : EstadoBfs) (ss : EstadoSug),
    MesmaFila sb ss → MesmaFila (l.foldl bfsVizinho sb) (l.foldl (sugVizinho u) ss) := by
  intro l
  induction l with
  | nil => exact fun _ _ h => h
  | cons a l ih =>
    intro sb ss h
    rw [List.foldl_cons, List.foldl_cons]
    exact ih _ _ (mesmaFila_vizinho h u a)

theorem mesmaFila_passo (g : Grafo) {sb : EstadoBfs} {ss : EstadoSug} (h : MesmaFila sb ss) :
    MesmaFila (bfsPasso g sb) (sugPasso g ss) := by
  unfold bfsPasso sugPasso
  have h2 : sb.fila sb.frente = ss.fila ss.frente := by rw [h.2.1, h.2.2.1]
  simp only
  rw [h2]
  apply mesmaFila_foldl
  exact ⟨h.1, h.2.1, by show sb.frente + 1 = ss.frente + 1; rw [h.2.2.1], h.2.2.2⟩

theorem mesmaFila_laco (g : Grafo) : ∀ (k : Nat) (sb sb' : EstadoBfs) (ss ss' : EstadoSug),
    MesmaFila sb ss → bfsLaco g k sb = some sb' → sugLaco g k ss = some ss' →
    MesmaFila sb' ss' := by
  intro k
  induction k with
  | zero =>
    intro sb sb' ss ss' h hb hs
    unfold bfsLaco at hb
    unfold sugLaco at hs
    split_ifs at hb hs
    cases hb
    cases hs
    exact h
  | succ k ih =>
    intro sb sb' ss ss' h hb hs
    unfold bfsLaco at hb
    unfold sugLaco at hs
    have hc : sb.frente < sb.tras ↔ ss.frente < ss.tras := by rw [h.2.2.1, h.2.2.2]
    by_cases hlt : sb.frente < sb.tras
    · rw [if_pos hlt] at hb
      rw [if_pos (hc.mp hlt)] at hs
      exact ih _ _ _ _ (mesmaFila_passo g h) hb hs
    · rw [if_neg hlt] at hb
      rw [if_neg (fun hh => hlt (hc.mpr hh))] at hs
      cases hb
      cases hs
      exact h

/-- Order of the `bfs` visitation sequence on a well-formed graph. -/
theorem bfs_ordem {g : Grafo} (hg : BemFormado g) {inicio_id : Int}
    (h0 : 0 ≤ inicio_id) (h1 : inicio_id < (g.num_usuarios : Int)) :
    ∃ l, bfs g inicio_id = Saida.ok l ∧ l.head? = some inicio_id.toNat ∧
      (∀ a, a ∈ l → ∃ d, DistSaltos g inicio_id.toNat a d) ∧
      List.Pairwise (fun a b => ∀ da db, DistSaltos g inicio_id.toNat a da →
        DistSaltos g inicio_id.toNat b db → da ≤ db) l := by
  have hs : inicio_id.toNat < g.num_usuarios := by omega
  have hcap := hg.cap
  have hinv : InvBfs g inicio_id.toNat (bfsInicio inicio_id.toNat) :=
    ⟨invFila_inicio g hs, rfl⟩
  have hfech : Fechado g (bfsInicio inicio_id.toNat).visitado (bfsInicio inicio_id.toNat).fila
      (bfsInicio inicio_id.toNat).frente := by
    intro i hi
    exact absurd hi (Nat.not_lt_zero i)
  obtain ⟨sb, hsb, hIb, _, hendb⟩ := bfsLaco_spec hg MAX_USUARIOS _ hinv hfech (by omega)
  obtain ⟨ss, hss, hIs, hends⟩ :=
    sugLaco_spec hg MAX_USUARIOS _ (invSug_inicio g hs) (by omega)
  have hm : MesmaFila sb ss :=
    mesmaFila_laco g MAX_USUARIOS _ _ _ _ ⟨rfl, rfl, rfl, rfl⟩ hsb hss
  have hsaida : sb.saida = (List.range ss.tras).map ss.fila := by
    rw [hIb.2, hendb, hm.2.1, hm.2.2.2]
  have hdist : ∀ i, i < ss.tras → ∀ d, DistSaltos g inicio_id.toNat (ss.fila i) d →
      ss.distancia (ss.fila i) = (d : Int) :=
    fun i _ d hd => (sug_final hIs hends (ss.fila i) d).mpr hd
  refine ⟨sb.saida, ?_, ?_, ?_, ?_⟩
  · unfold bfs
    rw [idInvalido_false_of_bemFormado hg h0 h1, hsb]
    simp
  · rw [hsaida]
    have hpos := hIs.fila.tras_pos
    obtain ⟨k, hk⟩ : ∃ k, ss.tras = k + 1 := ⟨ss.tras - 1, by omega⟩
    rw [hk, List.range_succ_eq_map]
    simp [hIs.fila.fila0]
  · intro a ha
    rw [hsaida, List.mem_map] at ha
    obtain ⟨i, hi, hia⟩ := ha
    obtain ⟨k, hk, _⟩ := hIs.dist.passeio i (List.mem_range.mp hi)
    rw [← hia]
    exact ⟨k, (sug_final hIs hends (ss.fila i) k).mp hk⟩
  · rw [hsaida, List.pairwise_map]
    apply List.Pairwise.imp_of_mem _ (List.pairwise_lt_range ss.tras)
    intro i j hi hj hij da db hda hdb
    have hi' := List.mem_range.mp hi
    have hj' := List.mem_range.mp hj
    have e1 := hdist i hi' da hda
    have e2 := hdist j hj' db hdb
    have := hIs.dist.mono i j (by omega) hj'
    omega

end Exercicio1

/-- C19. On every built social graph and for every valid start id, the `bfs`
visitation sequence starts with the start user, every user in it has a hop-distance
from the start, and these distances never decrease along the sequence. -/
theorem bfs_ordem_por_distancia (g : Exercicio1.Grafo) (hg : Exercicio1.Construido g)
    (inicio_id : Int) (h0 : 0 ≤ inicio_id) (h1 : inicio_id < (g.num_usuarios : Int)) :
    ∃ l, Exercicio1.bfs g inicio_id = Saida.ok l ∧ l.head? = some inicio_id.toNat ∧
      (∀ a, a ∈ l → ∃ d, Exercicio1.DistSaltos g inicio_id.toNat a d) ∧
      List.Pairwise (fun a b => ∀ da db, Exercicio1.DistSaltos g inicio_id.toNat a da →
        Exercicio1.DistSaltos g inicio_id.toNat b db → da ≤ db) l :=
  Exercicio1.bfs_ordem (Exercicio1.bemFormado_of_construido hg) h0 h1

theorem bfs_ordem_por_distancia_witness :
    ∃ l, Exercicio1.bfs Exercicio1.grafoABC 1 = Saida.ok l ∧ l.head? = some (1 : Int).toNat ∧
      (∀ a, a ∈ l → ∃ d, Exercicio1.DistSaltos Exercicio1.grafoABC (1 : Int).toNat a d) ∧
      List.Pairwise (fun a b => ∀ da db,
        Exercicio1.DistSaltos Exercicio1.grafoABC (1 : Int).toNat a da →
        Exercicio1.DistSaltos Exercicio1.grafoABC (1 : Int).toNat b db → da ≤ db) l :=
  bfs_ordem_por_distancia Exercicio1.grafoABC Exercicio1.construido_grafoABC 1
    (by decide) (by decide)

namespace Exercicio1

theorem descendentes_nil (g : Grafo) (a : Nat) : Descendentes g a [] := by
  intro t1 b t2 h
  exact absurd h (by simp)

theorem descendentes_append {g : Grafo} {u : Nat} {x1 x2 : List Nat}
    (h1 : Descendentes g u x1) (h2 : Descendentes g u x2) : Descendentes g u (x1 ++ x2) := by
  intro t1 b t2 h
  rcases List.append_eq_append_iff.mp h with ⟨a', ht, hx⟩ | ⟨c', hx, hc⟩
  · -- `a'` is a prefix of `b :: t2`
    --   x1 ++ x2 = t1 ++ b :: t2,  t1 = x1 ++ a',  x2 = a' ++ b :: t2
    obtain ⟨p, hp, hb⟩ := h2 a' b t2 hx
    refine ⟨p, ?_, hb⟩
    rcases List.mem_cons.mp hp with hpu | hpa
    · exact List.mem_cons.mpr (Or.inl hpu)
    · rw [ht]
      exact List.mem_cons.mpr (Or.inr (List.mem_append.mpr (Or.inr hpa)))
  · -- x1 = t1 ++ c',  b :: t2 = c' ++ x2
    cases c' with
    | nil =>
      simp only [List.nil_append] at hc
      simp only [List.append_nil] at hx
      obtain ⟨p, hp, hb⟩ := h2 [] b t2 hc.symm
      refine ⟨p, ?_, hb⟩
      rcases List.mem_cons.mp hp with hpu | hpa
      · exact List.mem_cons.mpr (Or.inl hpu)
      · exact absurd hpa (List.not_mem_nil p)
    | cons c c'' =>
      simp only [List.cons_append, List.cons.injEq] at hc
      rw [← hc.1] at hx
      exact h1 t1 b c'' hx

theorem descendentes_filho {g : Grafo} {u v : Nat} {rv : List Nat} (hv : v ∈ g.adj u)
    (h : Descendentes g v rv) : Descendentes g u (v :: rv) := by
  intro t1 b t2 he
  cases t1 with
  | nil =>
    simp only [List.nil_append, List.cons.injEq] at he
    exact ⟨u, List.mem_cons_self u [], by rw [← he.1]; exact hv⟩
  | cons c t1' =>
    simp only [List.cons_append, List.cons.injEq] at he
    obtain ⟨p, hp, hb⟩ := h t1' b t2 he.2
    refine ⟨p, ?_, hb⟩
    rw [← he.1]
    exact List.mem_cons_of_mem u hp

theorem ordemDfs_nil (g : Grafo) (visB : Nat → Bool) : OrdemDfs g visB [] := by
  intro pre a suf h
  exact absurd h (by simp)

theorem ordemDfs_append {g : Grafo} {visB visB' : Nat → Bool} {seg1 seg2 : List Nat}
    (h1 : OrdemDfs g visB seg1) (h2 : OrdemDfs g visB' seg2)
    (hv : ∀ x, visB' x = true → visB x = true ∨ x ∈ seg1) :
    OrdemDfs g visB (seg1 ++ seg2) := by
  intro pre a suf h
  rcases List.append_eq_append_iff.mp h with ⟨a', hp, hx⟩ | ⟨c', hx, hc⟩
  · -- pre = seg1 ++ a',  seg2 = a' ++ a :: suf
    obtain ⟨s1, s2, hs, hd, hn⟩ := h2 a' a suf hx
    refine ⟨s1, s2, hs, hd, ?_⟩
    intro x hxa
    rcases hn x hxa with hb | hb | hb | hb
    · rcases hv x hb with hb' | hb'
      · exact Or.inl hb'
      · exact Or.inr (Or.inl (by rw [hp]; exact List.mem_append.mpr (Or.inl hb')))
    · exact Or.inr (Or.inl (by rw [hp]; exact List.mem_append.mpr (Or.inr hb)))
    · exact Or.inr (Or.inr (Or.inl hb))
    · exact Or.inr (Or.inr (Or.inr hb))
  · -- seg1 = pre ++ c',  a :: suf = c' ++ seg2
    cases c' with
    | nil =>
      simp only [List.nil_append] at hc
      simp only [List.append_nil] at hx
      obtain ⟨s1, s2, hs, hd, hn⟩ := h2 [] a suf hc.symm
      refine ⟨s1, s2, hs, hd, ?_⟩
      intro x hxa
      rcases hn x hxa with hb | hb | hb | hb
      · rcases hv x hb with hb' | hb'
        · exact Or.inl hb'
        · exact Or.inr (Or.inl (by rw [← hx]; exact hb'))
      · exact absurd hb (List.not_mem_nil x)
      · exact Or.inr (Or.inr (Or.inl hb))
      · exact Or.inr (Or.inr (Or.inr hb))
    | cons c c'' =>
      simp only [List.cons_append, List.cons.injEq] at hc
      rw [← hc.1] at hx
      obtain ⟨s1, s2, hs, hd, hn⟩ := h1 pre a c'' hx
      refine ⟨s1, s2 ++ seg2, ?_, hd, hn⟩
      rw [hc.2, hs, List.append_assoc]

theorem ordemDfs_raiz {g : Grafo} {visB : Nat → Bool} {u : Nat} {rest : List Nat}
    (h : OrdemDfs g (upd visB u true) rest) (hd : Descendentes g u rest)
    (hn : ∀ x, x ∈ g.adj u → visB x = true ∨ x = u ∨ x ∈ rest) :
    OrdemDfs g visB (u :: rest) := by
  intro pre a suf he
  cases pre with
  | nil =>
    simp only [List.nil_append, List.cons.injEq] at he
    refine ⟨rest, [], by rw [← he.2, List.append_nil], by rw [← he.1]; exact hd, ?_⟩
    intro x hx
    rw [← he.1] at hx ⊢
    rcases hn x hx with hb | hb | hb
    · exact Or.inl hb
    · exact Or.inr (Or.inr (Or.inl hb))
    · exact Or.inr (Or.inr (Or.inr hb))
  | cons c pre' =>
    simp only [List.cons_append, List.cons.injEq] at he
    obtain ⟨s1, s2, hs, hds, hns⟩ := h pre' a suf he.2
    refine ⟨s1, s2, hs, hds, ?_⟩
    intro x hx
    rcases hns x hx with hb | hb | hb | hb
    · by_cases hxu : x = u
      · exact Or.inr (Or.inl (by rw [hxu, ← he.1]; exact List.mem_cons_self _ _))
      · rw [upd_other _ _ _ _ hxu] at hb
        exact Or.inl hb
    · exact Or.inr (Or.inl (List.mem_cons_of_mem c hb))
    · exact Or.inr (Or.inr (Or.inl hb))
    · exact Or.inr (Or.inr (Or.inr hb))

/-- The loop of `dfs_recursivo` over (the rest of) the list of `u0`: order of what it
prints, given the same for the recursive calls with `d` activations left. -/
theorem dfs_laco_ordem {g : Grafo} {d u0 : Nat}
    (ih : ∀ (u : Nat) (st : EstadoDfs), u < g.num_usuarios → st.visitado u = false →
      naoVisitados g.num_usuarios st.visitado ≤ d →
      ∃ st' rest, dfs_recursivo g d u st = some st' ∧ st'.saida = st.saida ++ u :: rest ∧
        Descendentes g u rest ∧ OrdemDfs g st.visitado (u :: rest) ∧
        ∀ x, st'.visitado x = true ↔ (st.visitado x = true ∨ x ∈ u :: rest)) :
    ∀ (l : List Nat) (s1 : EstadoDfs),
      (∀ v, v ∈ l → v < g.num_usuarios ∧ v ∈ g.adj u0) →
      naoVisitados g.num_usuarios s1.visitado ≤ d →
      ∃ s2 rest, l.foldlM (fun s v_id =>
          if s.visitado v_id then some s else dfs_recursivo g d v_id s) s1 = some s2 ∧
        s2.saida = s1.saida ++ rest ∧ Descendentes g u0 rest ∧
        OrdemDfs g s1.visitado rest ∧
        (∀ x, s2.visitado x = true ↔ (s1.visitado x = true ∨ x ∈ rest)) ∧
        ∀ v, v ∈ l → s2.visitado v = true := by
  intro l
  induction l with
  | nil =>
    intro s1 _ _
    refine ⟨s1, [], rfl, by simp, descendentes_nil g u0, ordemDfs_nil g _, ?_,
      fun v hv => absurd hv (List.not_mem_nil v)⟩
    intro x
    simp
  | cons a l ihl =>
    intro s1 hl hn
    have hal := hl a (List.mem_cons_self a l)
    have hl' : ∀ v, v ∈ l → v < g.num_usuarios ∧ v ∈ g.adj u0 :=
      fun v hv => hl v (List.mem_cons_of_mem a hv)
    by_cases hva : s1.visitado a = true
    · obtain ⟨s2, rest, hs2, hsa, hd, ho, hvis, hall⟩ := ihl s1 hl' hn
      refine ⟨s2, rest, ?_, hsa, hd, ho, hvis, ?_⟩
      · rw [List.foldlM_cons, if_pos hva]
        exact hs2
      · intro v hv
        rcases List.mem_cons.mp hv with h | h
        · rw [h]
          exact (hvis a).mpr (Or.inl hva)
        · exact hall v h
    · have hva' : s1.visitado a = false := by simpa using hva
      obtain ⟨s', ra, hs', hsa', hd', ho', hvis'⟩ := ih a s1 hal.1 hva' hn
      have hmono : ∀ w, s1.visitado w = true → s'.visitado w = true :=
        fun w hw => (hvis' w).mpr (Or.inl hw)
      obtain ⟨s2, rest, hs2, hsa, hd, ho, hvis, hall⟩ :=
        ihl s' hl' (le_trans (naoVisitados_mono _ hmono) hn)
      refine ⟨s2, (a :: ra) ++ rest, ?_, ?_, ?_, ?_, ?_, ?_⟩
      · rw [List.foldlM_cons, if_neg hva, hs']
        exact hs2
      · rw [hsa, hsa', List.append_assoc]
      · exact descendentes_append (descendentes_filho hal.2 hd') hd
      · exact ordemDfs_append ho' ho (fun x hx => (hvis' x).mp hx)
      · intro x
        rw [hvis x, hvis' x, List.mem_append]
        tauto
      · intro v hv
        rcases List.mem_cons.mp hv with h | h
        · rw [h]
          exact (hvis a).mpr (Or.inl ((hvis' a).mpr (Or.inr (List.mem_cons_self a ra))))
        · exact hall v h

theorem dfs_recursivo_ordem {g : Grafo} (hg : BemFormado g) :
    ∀ (d u : Nat) (st : EstadoDfs), u < g.num_usuarios → st.visitado u = false →
      naoVisitados g.num_usuarios st.visitado ≤ d →
      ∃ st' rest, dfs_recursivo g d u st = some st' ∧ st'.saida = st.saida ++ u :: rest ∧
        Descendentes g u rest ∧ OrdemDfs g st.visitado (u :: rest) ∧
        ∀ x, st'.visitado x = true ↔ (st.visitado x = true ∨ x ∈ u :: rest) := by
  intro d
  induction d with
  | zero =>
    intro u st hu hv hn
    have hpos : 0 < naoVisitados g.num_usuarios st.visitado := by
      apply Finset.card_pos.mpr
      exact ⟨u, Finset.mem_filter.mpr ⟨Finset.mem_range.mpr hu, hv⟩⟩
    omega
  | succ d ih =>
    intro u st hu hv hn
    have hn1 : naoVisitados g.num_usuarios (upd st.visitado u true) ≤ d := by
      have := naoVisitados_marca hu hv
      omega
    obtain ⟨s2, rest, hs2, hsa, hd, ho, hvis, hall⟩ := dfs_laco_ordem ih (g.adj u)
      { visitado := upd st.visitado u true, saida := st.saida ++ [u] }
      (fun v hv => ⟨hg.adj_lt u v hv, hv⟩) hn1
    have hvis2 : ∀ x, s2.visitado x = true ↔ (st.visitado x = true ∨ x ∈ u :: rest) := by
      intro x
      rw [hvis x]
      change (upd st.visitado u true x = true ∨ x ∈ rest) ↔ _
      by_cases hxu : x = u
      · rw [hxu, upd_same]
        simp
      · rw [upd_other _ _ _ _ hxu, List.mem_cons]
        tauto
    refine ⟨s2, rest, ?_, ?_, hd, ?_, hvis2⟩
    · rw [dfs_recursivo]
      exact hs2
    · rw [hsa]
      simp
    · apply ordemDfs_raiz ho hd
      intro x hx
      have := (hvis2 x).mp (hall x hx)
      rw [List.mem_cons] at this
      tauto

/-- In a duplicate-free list with the shape `OrdemDfs`, a vertex `b` printed between
`a` and a neighbour `c` of `a`, and not itself a neighbour of `a`, is a neighbour of
some vertex printed strictly between `a` and `b`. -/
theorem ordemDfs_entre {g : Grafo} {L : List Nat} (ho : OrdemDfs g (fun _ => false) L)
    (hnd : L.Nodup) (l1 l2 l3 l4 : List Nat) (a b c : Nat)
    (hL : L = l1 ++ a :: (l2 ++ b :: (l3 ++ c :: l4)))
    (hc : c ∈ g.adj a) (hb : b ∉ g.adj a) : ∃ d, d ∈ l2 ∧ b ∈ g.adj d := by
  obtain ⟨s1, s2, hs, hd, hn⟩ := ho l1 a (l2 ++ b :: (l3 ++ c :: l4)) hL
  rw [hL] at hnd
  have hnd' := hnd
  rw [List.nodup_append] at hnd'
  obtain ⟨_, hnd2, hdisj⟩ := hnd'
  have hc_suf : c ∈ l2 ++ b :: (l3 ++ c :: l4) := by simp
  have hcs1 : c ∈ s1 := by
    rcases hn c hc with h | h | h | h
    · exact Bool.noConfusion h
    · exact absurd (List.mem_cons_of_mem a hc_suf) (fun hm => hdisj h hm)
    · rw [List.nodup_cons] at hnd2
      have hca : a ∈ l2 ++ b :: (l3 ++ c :: l4) := by
        rw [← h]
        exact hc_suf
      exact absurd hca hnd2.1
    · exact h
  -- `s1` is a prefix of the suffix that contains `c`, so it extends beyond `b`
  have hsplit : (l2 ++ b :: l3) ++ c :: l4 = s1 ++ s2 := by
    rw [← hs]
    simp
  rcases List.append_eq_append_iff.mp hsplit with ⟨a', h1, h2⟩ | ⟨c', h1, h2⟩
  · -- s1 = (l2 ++ b :: l3) ++ a'
    have hs1 : s1 = l2 ++ b :: (l3 ++ a') := by
      rw [h1]
      simp
    obtain ⟨p, hp, hbp⟩ := hd l2 b (l3 ++ a') hs1
    rcases List.mem_cons.mp hp with hpa | hpl
    · rw [hpa] at hbp
      exact absurd hbp hb
    · exact ⟨p, hpl, hbp⟩
  · -- l2 ++ b :: l3 = s1 ++ c',  s2 = c' ++ c :: l4 : then `c` occurs twice
    exfalso
    have hnd3 : (l2 ++ b :: (l3 ++ c :: l4)).Nodup := (List.nodup_cons.mp hnd2).2
    have e : l2 ++ b :: (l3 ++ c :: l4) = (l2 ++ b :: l3) ++ c :: l4 := by simp
    rw [e, h1] at hnd3
    have hcm : c ∈ s1 ++ c' := List.mem_append.mpr (Or.inl hcs1)
    rw [List.nodup_append] at hnd3
    exact hnd3.2.2 hcm (List.mem_cons_self c l4)

/-- Order of the `dfs` visitation sequence on a well-formed graph. -/
theorem dfs_ordem {g : Grafo} (hg : BemFormado g) {inicio_id : Int}
    (h0 : 0 ≤ inicio_id) (h1 : inicio_id < (g.num_usuarios : Int)) :
    ∃ l, dfs g inicio_id = Saida.ok l ∧ l.head? = some inicio_id.toNat ∧
      ∀ (l1 l2 l3 l4 : List Nat) (a b c : Nat),
        l = l1 ++ a :: (l2 ++ b :: (l3 ++ c :: l4)) → c ∈ g.adj a → b ∉ g.adj a →
        ∃ d, d ∈ l2 ∧ b ∈ g.adj d := by
  have hs : inicio_id.toNat < g.num_usuarios := by omega
  have hcount : naoVisitados g.num_usuarios (fun _ => false) ≤ g.num_usuarios := by
    unfold naoVisitados
    exact le_trans (Finset.card_filter_le _ _) (by simp)
  obtain ⟨st, rest, hst, hsa, _, ho, _⟩ := dfs_recursivo_ordem hg g.num_usuarios
    inicio_id.toNat ⟨fun _ => false, []⟩ hs rfl hcount
  obtain ⟨l, hl, hnd, _⟩ := dfs_spec hg h0 h1
  have hdfs : dfs g inicio_id = Saida.ok st.saida := by
    unfold dfs
    rw [idInvalido_false_of_bemFormado hg h0 h1, hst]
    simp
  have hsaida : st.saida = inicio_id.toNat :: rest := by
    rw [hsa]
    rfl
  have hl' : l = st.saida := by
    rw [hdfs] at hl
    cases hl
    rfl
  refine ⟨st.saida, hdfs, by rw [hsaida]; rfl, ?_⟩
  intro l1 l2 l3 l4 a b c hL hc hb
  rw [hl'] at hnd
  rw [← hsaida] at ho
  exact ordemDfs_entre ho hnd l1 l2 l3 l4 a b c hL hc hb

end Exercicio1

/-- C20. On every built social graph and for every valid start id, `dfs` returns a
visitation sequence that starts with the start user, lists every user reachable from
the start exactly once and no other user, and is a depth-first pre-order: whenever
users `a`, `b`, `c` are visited in that order, `c` is in the list of `a` and `b` is
not, some user `d` visited strictly after `a` and strictly before `b` is adjacent to
`b` (each is in the other's list). -/
theorem dfs_pre_ordem (g : Exercicio1.Grafo) (hg : Exercicio1.Construido g)
    (inicio_id : Int) (h0 : 0 ≤ inicio_id) (h1 : inicio_id < (g.num_usuarios : Int)) :
    ∃ l, Exercicio1.dfs g inicio_id = Saida.ok l ∧ l.head? = some inicio_id.toNat ∧
      l.Nodup ∧ (∀ v, v ∈ l ↔ Exercicio1.Alcanca g inicio_id.toNat v) ∧
      ∀ (l1 l2 l3 l4 : List Nat) (a b c : Nat),
        l = l1 ++ a :: (l2 ++ b :: (l3 ++ c :: l4)) → c ∈ g.adj a → b ∉ g.adj a →
        ∃ d, d ∈ l2 ∧ b ∈ g.adj d ∧ d ∈ g.adj b := by
  obtain ⟨l, hl, hh, hord⟩ :=
    Exercicio1.dfs_ordem (Exercicio1.bemFormado_of_construido hg) h0 h1
  obtain ⟨l', hl', hnd, hmem⟩ :=
    Exercicio1.dfs_spec (Exercicio1.bemFormado_of_construido hg) h0 h1
  have e : l' = l := by
    rw [hl] at hl'
    cases hl'
    rfl
  rw [e] at hnd hmem
  refine ⟨l, hl, hh, hnd, hmem, ?_⟩
  intro l1 l2 l3 l4 a b c hL hc hb
  obtain ⟨d, hd, hbd⟩ := hord l1 l2 l3 l4 a b c hL hc hb
  refine ⟨d, hd, hbd, ?_⟩
  have hsim := (Exercicio1.invariantes_of_construido hg).2.sim d b
  have hpos : 0 < (g.adj d).count b := List.count_pos_iff.mpr hbd
  rw [hsim] at hpos
  exact List.count_pos_iff.mp hpos

-- On `grafoRamos` from A the sequence is A, B, D, C: C is in the list of A, D is
-- visited before C and is not in the list of A, and B, visited between A and D, is
-- adjacent to D.
theorem dfs_pre_ordem_witness :
    Exercicio1.dfs Exercicio1.grafoRamos 0 = Saida.ok [0, 1, 3, 2] ∧
    (2 ∈ Exercicio1.grafoRamos.adj 0 ∧ 3 ∉ Exercicio1.grafoRamos.adj 0) ∧
    ∃ d, d ∈ [1] ∧ 3 ∈ Exercicio1.grafoRamos.adj d ∧ d ∈ Exercicio1.grafoRamos.adj 3 := by
  obtain ⟨l, hl, _, _, _, h⟩ := dfs_pre_ordem Exercicio1.grafoRamos
    Exercicio1.construido_grafoRamos 0 (by decide) (by decide)
  have e : Exercicio1.dfs Exercicio1.grafoRamos 0 = Saida.ok [0, 1, 3, 2] := by decide
  rw [e] at hl
  cases hl
  exact ⟨e, ⟨by decide, by decide⟩, h [] [1] [] [] 0 3 2 rfl (by decide) (by decide)⟩

namespace Exercicio2

theorem selecionar_range (st : EstadoDijkstra) : ∀ m : Nat,
    ((List.range m).foldl (selecionarPasso st) none = none ∧
      ∀ v, v < m → st.visitado v = true) ∨
    ∃ u, (List.range m).foldl (selecionarPasso st) none = some u ∧ u < m ∧
      st.visitado u = false := by
  intro m
  induction m with
  | zero =>
    left
    exact ⟨rfl, fun v hv => absurd hv (Nat.not_lt_zero v)⟩
  | succ m ih =>
    rw [List.range_succ, List.foldl_append]
    simp only [List.foldl_cons, List.foldl_nil]
    by_cases hm : st.visitado m = true
    · rcases ih with ⟨h1, h2⟩ | ⟨u, h1, h2, h3⟩
      · left
        rw [h1]
        refine ⟨by simp [selecionarPasso, hm], ?_⟩
        intro v hv
        by_cases hvm : v = m
        · rw [hvm]
          exact hm
        · exact h2 v (by omega)
      · right
        rw [h1]
        exact ⟨u, by simp [selecionarPasso, hm], by omega, h3⟩
    · have hm' : st.visitado m = false := by simpa using hm
      right
      rcases ih with ⟨h1, _⟩ | ⟨u, h1, h2, h3⟩
      · rw [h1]
        exact ⟨m, by simp [selecionarPasso, hm'], by omega, hm'⟩
      · rw [h1]
        by_cases hd : st.dist m < st.dist u
        · exact ⟨m, by simp [selecionarPasso, hm', hd], by omega, hm'⟩
        · exact ⟨u, by simp [selecionarPasso, hm', hd], by omega, h3⟩

theorem selecionar_some {n : Nat} {st : EstadoDijkstra}
    (h : 0 < Exercicio1.naoVisitados n st.visitado) :
    ∃ u, selecionar n st = some u ∧ u < n ∧ st.visitado u = false := by
  unfold selecionar
  rcases selecionar_range st n with ⟨_, h2⟩ | h2
  · exfalso
    obtain ⟨v, hv⟩ := Finset.card_pos.mp h
    rw [Finset.mem_filter, Finset.mem_range] at hv
    rw [h2 v hv.1] at hv
    exact Bool.noConfusion hv.2
  · exact h2

theorem naoVisitados_marca_le (n u : Nat) (vis : Nat → Bool) :
    Exercicio1.naoVisitados n vis ≤ Exercicio1.naoVisitados n (upd vis u true) + 1 := by
  unfold Exercicio1.naoVisitados
  have hsub : (Finset.range n).filter (fun i => vis i = false) ⊆
      insert u ((Finset.range n).filter (fun i => upd vis u true i = false)) := by
    intro i hi
    rw [Finset.mem_filter] at hi
    by_cases hiu : i = u
    · rw [hiu]
      exact Finset.mem_insert_self _ _
    · apply Finset.mem_insert_of_mem
      rw [Finset.mem_filter, upd_other _ _ _ _ hiu]
      exact hi
  exact le_trans (Finset.card_le_card hsub) (Finset.card_insert_le _ _)

theorem relaxar_foldl (u : Nat) : ∀ (l : List NoRota) (st : EstadoDijkstra),
    (l.foldl (relaxar u) st).visitado = st.visitado ∧
    ∀ v, (l.foldl (relaxar u) st).pai v = st.pai v ∨
      ((l.foldl (relaxar u) st).pai v = (u : Int) ∧ st.visitado v = false) := by
  intro l
  induction l with
  | nil => exact fun st => ⟨rfl, fun v => Or.inl rfl⟩
  | cons no l ih =>
    intro st
    rw [List.foldl_cons]
    obtain ⟨h1, h2⟩ := ih (relaxar u st no)
    have hstep : (relaxar u st no).visitado = st.visitado ∧
        ∀ v, (relaxar u st no).pai v = st.pai v ∨
          ((relaxar u st no).pai v = (u : Int) ∧ st.visitado v = false) := by
      unfold relaxar
      split_ifs with hc
      · refine ⟨rfl, ?_⟩
        intro v
        by_cases hv : v = no.id_destino
        · right
          simp only [Bool.and_eq_true, Bool.not_eq_true', decide_eq_true_eq] at hc
          rw [hv]
          exact ⟨upd_same _ _ _, hc.1⟩
        · left
          exact upd_other _ _ _ _ hv
      · exact ⟨rfl, fun v => Or.inl rfl⟩
    refine ⟨by rw [h1, hstep.1], ?_⟩
    intro v
    rcases h2 v with h | ⟨h, h'⟩
    · rw [h]
      exact hstep.2 v
    · right
      rw [hstep.1] at h'
      exact ⟨h, h'⟩

theorem invDij_passo {g : Grafo} {st : EstadoDijkstra} {t : Nat → Nat} {k u : Nat}
    (h : InvDij g st t k) (hu : st.visitado u = false) :
    InvDij g ((g.adj u).foldl (relaxar u) { st with visitado := upd st.visitado u true })
      (upd t u k) (k + 1) := by
  obtain ⟨hvis, hpai⟩ := relaxar_foldl u (g.adj u) { st with visitado := upd st.visitado u true }
  have hvis' : ((g.adj u).foldl (relaxar u)
      { st with visitado := upd st.visitado u true }).visitado = upd st.visitado u true := hvis
  refine ⟨?_, ?_, ?_⟩
  · rw [hvis']
    have := naoVisitados_marca_le g.num_cidades u st.visitado
    have := h.contagem
    omega
  · intro v hv
    rw [hvis'] at hv
    by_cases hvu : v = u
    · rw [hvu, upd_same]
      omega
    · rw [upd_other _ _ _ _ hvu] at hv ⊢
      have := h.rank v hv
      omega
  · intro v hv
    rw [hvis']
    rcases hpai v with he | ⟨he, hnv⟩
    · rw [he] at hv ⊢
      change st.pai v ≠ -1 at hv
      obtain ⟨p, hp, hpv, hpt⟩ := h.pai v hv
      have hpu : p ≠ u := by
        intro e
        rw [e, hu] at hpv
        exact Bool.noConfusion hpv
      refine ⟨p, hp, by rw [upd_other _ _ _ _ hpu]; exact hpv, ?_⟩
      intro hv'
      rw [upd_other _ _ _ _ hpu]
      by_cases hvu : v = u
      · rw [hvu, upd_same]
        exact h.rank p hpv
      · rw [upd_other _ _ _ _ hvu] at hv' ⊢
        exact hpt hv'
    · refine ⟨u, he, upd_same _ _ _, ?_⟩
      intro hv'
      change upd st.visitado u true v = false at hnv
      rw [hnv] at hv'
      exact Bool.noConfusion hv'

theorem dijkstraLaco_some {g : Grafo} : ∀ (r : Nat) (st : EstadoDijkstra) (t : Nat → Nat)
    (k : Nat), InvDij g st t k → k + r < g.num_cidades →
    ∃ st' t' k', dijkstraLaco g r st = some st' ∧ InvDij g st' t' k' ∧ k' < g.num_cidades := by
  intro r
  induction r with
  | zero =>
    intro st t k h hk
    exact ⟨st, t, k, rfl, h, by omega⟩
  | succ r ih =>
    intro st t k h hk
    have hpos : 0 < Exercicio1.naoVisitados g.num_cidades st.visitado := by
      have := h.contagem
      omega
    obtain ⟨u, hsel, _, hu⟩ := selecionar_some hpos
    unfold dijkstraLaco
    rw [hsel]
    simp only
    by_cases hd : st.dist u = INFINITO
    · rw [if_pos hd]
      exact ⟨st, t, k, rfl, h, by omega⟩
    · rw [if_neg hd]
      exact ih _ _ _ (invDij_passo h hu) (by omega)

theorem reconstruir_fim (pai : Nat → Int) (livres : Nat) (caminho : List Nat) :
    reconstruir pai livres (-1) caminho = some caminho := by
  rw [reconstruir.eq_def]
  simp

theorem reconstruir_passo (pai : Nat → Int) (livres0 : Nat) (atual : Int)
    (caminho : List Nat) (h : atual ≠ -1) :
    reconstruir pai (livres0 + 1) atual caminho =
      reconstruir pai livres0 (pai atual.toNat) (caminho ++ [atual.toNat]) := by
  rw [reconstruir.eq_def]
  simp [h]

theorem reconstruir_marcado {g : Grafo} {st : EstadoDijkstra} {t : Nat → Nat} {k : Nat}
    (h : InvDij g st t k) : ∀ (m v : Nat), st.visitado v = true → t v < m →
    ∀ (livres : Nat) (caminho : List Nat), m ≤ livres →
      ∃ r, reconstruir st.pai livres (v : Int) caminho = some r := by
  intro m
  induction m with
  | zero =>
    intro v _ ht
    exact absurd ht (Nat.not_lt_zero _)
  | succ m ih =>
    intro v hv ht livres caminho hl
    obtain ⟨l0, hl0⟩ : ∃ l0, livres = l0 + 1 := ⟨livres - 1, by omega⟩
    have hne : ((v : Nat) : Int) ≠ -1 := by omega
    rw [hl0, reconstruir_passo _ _ _ _ hne]
    simp only [Int.toNat_ofNat]
    by_cases hp : st.pai v = -1
    · rw [hp, reconstruir_fim]
      exact ⟨_, rfl⟩
    · obtain ⟨u, hu, huv, hut⟩ := h.pai v hp
      rw [hu]
      have := hut hv
      exact ih u huv (by omega) l0 _ (by omega)

theorem reconstruir_some {g : Grafo} {st : EstadoDijkstra} {t : Nat → Nat} {k : Nat}
    (h : InvDij g st t k) (v livres : Nat) (hl : k + 1 ≤ livres) :
    ∃ r, reconstruir st.pai livres (v : Int) [] = some r := by
  obtain ⟨l0, hl0⟩ : ∃ l0, livres = l0 + 1 := ⟨livres - 1, by omega⟩
  have hne : ((v : Nat) : Int) ≠ -1 := by omega
  rw [hl0, reconstruir_passo _ _ _ _ hne]
  simp only [Int.toNat_ofNat]
  by_cases hp : st.pai v = -1
  · rw [hp, reconstruir_fim]
    exact ⟨_, rfl⟩
  · obtain ⟨u, hu, huv, _⟩ := h.pai v hp
    rw [hu]
    exact reconstruir_marcado h k u huv (h.rank u huv) l0 _ (by omega)

theorem mapM_some {α β : Type} (f : α → Option β) : ∀ (l : List α),
    (∀ x, x ∈ l → ∃ y, f x = some y) → ∃ ys, l.mapM f = some ys := by
  intro l
  induction l with
  | nil => exact fun _ => ⟨[], rfl⟩
  | cons a l ih =>
    intro h
    obtain ⟨y, hy⟩ := h a (List.mem_cons_self a l)
    obtain ⟨ys, hys⟩ := ih (fun x hx => h x (List.mem_cons_of_mem a hx))
    refine ⟨y :: ys, ?_⟩
    rw [List.mapM_cons, hy, hys]
    rfl

theorem invDij_inicio (g : Grafo) (s : Nat) : InvDij g (dijkstraInicio s) (fun _ => 0) 0 := by
  refine ⟨?_, ?_, ?_⟩
  · have : Exercicio1.naoVisitados g.num_cidades (dijkstraInicio s).visitado =
        g.num_cidades := by
      unfold Exercicio1.naoVisitados dijkstraInicio
      simp
    omega
  · intro v hv
    exact Bool.noConfusion hv
  · intro v hv
    exact absurd rfl hv

/-- On a route graph whose registry invariant holds, `dijkstra` from a registered
start runs to completion: the selection scan always finds a city and every printed
path fits the `caminho` array. -/
theorem dijkstra_ok {g : Grafo} (hr : InvRegistro g) {id_inicio : Int}
    (h0 : 0 ≤ id_inicio) (h1 : id_inicio < (g.num_cidades : Int)) :
    ∃ linhas, dijkstra g id_inicio = Saida.ok linhas := by
  have hval : idInvalido g id_inicio = false := by
    rw [idInvalidoCidade_false_iff]
    refine ⟨h0, h1, ?_⟩
    rw [hr.ids id_inicio.toNat (by omega)]
    omega
  obtain ⟨st, t, k, hst, hinv, hk⟩ := dijkstraLaco_some (g.num_cidades - 1)
    (dijkstraInicio id_inicio.toNat) (fun _ => 0) 0 (invDij_inicio g id_inicio.toNat) (by omega)
  have hcap := hr.cap
  have hrel : ∀ i, ∃ r, relatorio st i = some r := by
    intro i
    unfold relatorio
    by_cases hd : st.dist i = INFINITO
    · rw [if_pos hd]
      exact ⟨_, rfl⟩
    · rw [if_neg hd]
      obtain ⟨c, hc⟩ := reconstruir_some hinv i MAX_CIDADES (by omega)
      rw [hc]
      exact ⟨_, rfl⟩
  obtain ⟨linhas, hl⟩ := mapM_some (fun i => (relatorio st i).map (fun r => (i, r)))
    ((List.range g.num_cidades).filter (fun i => decide (i ≠ id_inicio.toNat)))
    (fun i _ => by
      obtain ⟨r, hr'⟩ := hrel i
      exact ⟨(i, r), by simp [hr']⟩)
  refine ⟨linhas, ?_⟩
  unfold dijkstra dijkstraFinal
  rw [hval, hst]
  simp only [Bool.false_eq_true, if_false]
  rw [hl]

end Exercicio2

/-- C16. For a start id that is negative or not below the count (such as the `-1` of a
failed lookup), `bfs`, `dfs`, `sugerirAmigos` and `dijkstra` answer InvalidId and
report nothing, whatever the arrays of the graph hold (the outcome is fixed by the id
and the count alone); on a built graph and for a start id in `[0, count)` all four
run to completion. -/
theorem inicio_fora_do_registro_rejeitado :
    (∀ (g : Exercicio1.Grafo) (id : Int), (id < 0 ∨ (g.num_usuarios : Int) ≤ id) →
      Exercicio1.bfs g id = Saida.idInvalido ∧ Exercicio1.dfs g id = Saida.idInvalido ∧
      Exercicio1.sugerirAmigos g id = Saida.idInvalido) ∧
    (∀ (g : Exercicio2.Grafo) (id : Int), (id < 0 ∨ (g.num_cidades : Int) ≤ id) →
      Exercicio2.dijkstra g id = Saida.idInvalido) ∧
    (∀ (g : Exercicio1.Grafo), Exercicio1.Construido g →
      ∀ (id : Int), 0 ≤ id → id < (g.num_usuarios : Int) →
      (∃ l, Exercicio1.bfs g id = Saida.ok l) ∧ (∃ l, Exercicio1.dfs g id = Saida.ok l) ∧
      (∃ l, Exercicio1.sugerirAmigos g id = Saida.ok l)) ∧
    (∀ (g : Exercicio2.Grafo), Exercicio2.Construido g →
      ∀ (id : Int), 0 ≤ id → id < (g.num_cidades : Int) →
      ∃ linhas, Exercicio2.dijkstra g id = Saida.ok linhas) := by
  refine ⟨?_, ?_, ?_, ?_⟩
  · intro g id h
    have hv := Exercicio1.idInvalido_true_of_fora g id h
    refine ⟨?_, ?_, ?_⟩
    · unfold Exercicio1.bfs
      rw [hv]
      rfl
    · unfold Exercicio1.dfs
      rw [hv]
      rfl
    · unfold Exercicio1.sugerirAmigos
      rw [hv]
      rfl
  · intro g id h
    have hv := Exercicio2.idInvalidoCidade_true_of_fora g id h
    unfold Exercicio2.dijkstra
    rw [hv]
    rfl
  · intro g hg id h0 h1
    have hb := Exercicio1.bemFormado_of_construido hg
    obtain ⟨l1, hl1, _⟩ := Exercicio1.bfs_spec hb h0 h1
    obtain ⟨l2, hl2, _⟩ := Exercicio1.dfs_spec hb h0 h1
    obtain ⟨l3, hl3, _⟩ := Exercicio1.sug_spec hb h0 h1
    exact ⟨⟨l1, hl1⟩, ⟨l2, hl2⟩, ⟨l3, hl3⟩⟩
  · intro g hg id h0 h1
    exact Exercicio2.dijkstra_ok (Exercicio2.invariantesRota_of_construido hg).1 h0 h1

theorem inicio_fora_do_registro_rejeitado_witness :
    (Exercicio1.bfs Exercicio1.grafoABC (-1) = Saida.idInvalido ∧
      Exercicio1.dfs Exercicio1.grafoABC (-1) = Saida.idInvalido ∧
      Exercicio1.sugerirAmigos Exercicio1.grafoABC (-1) = Saida.idInvalido) ∧
    Exercicio2.dijkstra Exercicio2.grafoSentinela 3 = Saida.idInvalido ∧
    ((∃ l, Exercicio1.bfs Exercicio1.grafoABC 2 = Saida.ok l) ∧
      (∃ l, Exercicio1.dfs Exercicio1.grafoABC 2 = Saida.ok l) ∧
      (∃ l, Exercicio1.sugerirAmigos Exercicio1.grafoABC 2 = Saida.ok l)) ∧
    (∃ linhas, Exercicio2.dijkstra Exercicio2.grafoSentinela 2 = Saida.ok linhas) :=
  ⟨inicio_fora_do_registro_rejeitado.1 Exercicio1.grafoABC (-1) (Or.inl (by decide)),
   inicio_fora_do_registro_rejeitado.2.1 Exercicio2.grafoSentinela 3 (Or.inr (by decide)),
   inicio_fora_do_registro_rejeitado.2.2.1 Exercicio1.grafoABC Exercicio1.construido_grafoABC 2
     (by decide) (by decide),
   inicio_fora_do_registro_rejeitado.2.2.2 Exercicio2.grafoSentinela
     Exercicio2.construido_grafoSentinela 2 (by decide) (by decide)⟩

namespace Exercicio2

/-- What the selection scan over `0 .. m-1` returns: nothing when every city is
marked; otherwise an unmarked city whose `dist` is minimal among the unmarked ones and
which has the lowest id among the unmarked cities with that `dist`. -/
theorem selecionar_minimo (st : EstadoDijkstra) : ∀ m : Nat,
    ((List.range m).foldl (selecionarPasso st) none = none ∧
      ∀ v, v < m → st.visitado v = true) ∨
    ∃ u, (List.range m).foldl (selecionarPasso st) none = some u ∧ u < m ∧
      st.visitado u = false ∧
      (∀ v, v < m → st.visitado v = false → st.dist u ≤ st.dist v) ∧
      (∀ v, v < m → st.visitado v = false → st.dist v = st.dist u → u ≤ v) := by
  intro m
  induction m with
  | zero =>
    left
    exact ⟨rfl, fun v hv => absurd hv (Nat.not_lt_zero v)⟩
  | succ m ih =>
    rw [List.range_succ, List.foldl_append]
    simp only [List.foldl_cons, List.foldl_nil]
    by_cases hm : st.visitado m = true
    · rcases ih with ⟨h1, h2⟩ | ⟨u, h1, h2, h3, h4, h5⟩
      · left
        rw [h1]
        refine ⟨by simp [selecionarPasso, hm], ?_⟩
        intro v hv
        by_cases hvm : v = m
        · rw [hvm]
          exact hm
        · exact h2 v (by omega)
      · right
        rw [h1]
        refine ⟨u, by simp [selecionarPasso, hm], by omega, h3, ?_, ?_⟩
        · intro v hv hvv
          by_cases hvm : v = m
          · rw [hvm, hm] at hvv
            exact Bool.noConfusion hvv
          · exact h4 v (by omega) hvv
        · intro v hv hvv hd
          by_cases hvm : v = m
          · rw [hvm, hm] at hvv
            exact Bool.noConfusion hvv
          · exact h5 v (by omega) hvv hd
    · have hm' : st.visitado m = false := by simpa using hm
      right
      rcases ih with ⟨h1, h2⟩ | ⟨u, h1, h2, h3, h4, h5⟩
      · rw [h1]
        refine ⟨m, by simp [selecionarPasso, hm'], by omega, hm', ?_, ?_⟩
        · intro v hv hvv
          by_cases hvm : v = m
          · rw [hvm]
          · rw [h2 v (by omega)] at hvv
            exact Bool.noConfusion hvv
        · intro v hv hvv _
          by_cases hvm : v = m
          · omega
          · rw [h2 v (by omega)] at hvv
            exact Bool.noConfusion hvv
      · rw [h1]
        by_cases hd : st.dist m < st.dist u
        · refine ⟨m, by simp [selecionarPasso, hm', hd], by omega, hm', ?_, ?_⟩
          · intro v hv hvv
            by_cases hvm : v = m
            · rw [hvm]
            · have := h4 v (by omega) hvv
              omega
          · intro v hv hvv hdv
            by_cases hvm : v = m
            · omega
            · have := h4 v (by omega) hvv
              omega
        · refine ⟨u, by simp [selecionarPasso, hm', hd], by omega, h3, ?_, ?_⟩
          · intro v hv hvv
            by_cases hvm : v = m
            · rw [hvm]
              omega
            · exact h4 v (by omega) hvv
          · intro v hv hvv hdv
            by_cases hvm : v = m
            · omega
            · exact h5 v (by omega) hvv hdv

end Exercicio2

/-- C21. Whenever the selection scan of `dijkstra` picks a city `u` (in any state of
the arrays, hence in every iteration of the main loop), `u` is a registered id that is
not marked visited, no unmarked city has a smaller tentative distance, and `u` has the
lowest id among the unmarked cities with that same tentative distance. -/
theorem selecao_minima_menor_id (n : Nat) (st : Exercicio2.EstadoDijkstra) (u : Nat)
    (h : Exercicio2.selecionar n st = some u) :
    u < n ∧ st.visitado u = false ∧
    (∀ v, v < n → st.visitado v = false → st.dist u ≤ st.dist v) ∧
    (∀ v, v < n → st.visitado v = false → st.dist v = st.dist u → u ≤ v) := by
  unfold Exercicio2.selecionar at h
  rcases Exercicio2.selecionar_minimo st n with ⟨h1, _⟩ | ⟨u', h1, h2, h3, h4, h5⟩
  · rw [h1] at h
    cases h
  · rw [h1] at h
    cases h
    exact ⟨h2, h3, h4, h5⟩

theorem selecao_minima_menor_id_witness :
    1 < 3 ∧ (Exercicio2.dijkstraInicio 1).visitado 1 = false ∧
    (∀ v, v < 3 → (Exercicio2.dijkstraInicio 1).visitado v = false →
      (Exercicio2.dijkstraInicio 1).dist 1 ≤ (Exercicio2.dijkstraInicio 1).dist v) ∧
    (∀ v, v < 3 → (Exercicio2.dijkstraInicio 1).visitado v = false →
      (Exercicio2.dijkstraInicio 1).dist v = (Exercicio2.dijkstraInicio 1).dist 1 → 1 ≤ v) :=
  selecao_minima_menor_id 3 (Exercicio2.dijkstraInicio 1) 1 (by decide)

namespace Exercicio2

theorem selecionar_nao_visitado {n : Nat} {st : EstadoDijkstra} {u : Nat}
    (h : selecionar n st = some u) : u < n ∧ st.visitado u = false := by
  unfold selecionar at h
  rcases selecionar_range st n with ⟨h1, _⟩ | ⟨u', h1, h2, h3⟩
  · rw [h1] at h
    cases h
  · rw [h1] at h
    cases h
    exact ⟨h2, h3⟩

theorem invDij_of_iter {g : Grafo} {s j : Nat} {st : EstadoDijkstra}
    (h : IterDij g s j st) : ∃ t, InvDij g st t j := by
  induction h with
  | inicio => exact ⟨fun _ => 0, invDij_inicio g s⟩
  | passo _ _ hsel _ ih =>
    obtain ⟨t, ht⟩ := ih
    exact ⟨_, invDij_passo ht (selecionar_nao_visitado hsel).2⟩

theorem iter_le {g : Grafo} {s j : Nat} {st : EstadoDijkstra}
    (h : IterDij g s j st) (hn : 0 < g.num_cidades) : j + 1 ≤ g.num_cidades := by
  cases h with
  | inicio => omega
  | passo _ hj _ _ => omega

/-- In an iteration that the loop still runs, some city is unmarked and the scan
returns one. -/
theorem iter_seleciona {g : Grafo} {s j : Nat} {st : EstadoDijkstra}
    (h : IterDij g s j st) (hj : j + 1 < g.num_cidades) :
    (∃ v, v < g.num_cidades ∧ st.visitado v = false) ∧
    ∃ u, selecionar g.num_cidades st = some u ∧ u < g.num_cidades ∧
      st.visitado u = false := by
  obtain ⟨t, ht⟩ := invDij_of_iter h
  have hpos : 0 < Exercicio1.naoVisitados g.num_cidades st.visitado := by
    have := ht.contagem
    omega
  obtain ⟨u, hu, hlt, hv⟩ := selecionar_some hpos
  exact ⟨⟨u, hlt, hv⟩, u, hu, hlt, hv⟩

/-- The main loop started in a loop-head state ends in a loop-head state: either all
`num_cidades - 1` iterations are done or the scan picked a city at the sentinel. -/
theorem dijkstraLaco_iter {g : Grafo} {s : Nat} : ∀ (r j : Nat) (st : EstadoDijkstra),
    IterDij g s j st → j + r + 1 = g.num_cidades →
    ∃ j' st', dijkstraLaco g r st = some st' ∧ IterDij g s j' st' ∧
      (j' + 1 = g.num_cidades ∨
        ∃ u, selecionar g.num_cidades st' = some u ∧ st'.dist u = INFINITO) := by
  intro r
  induction r with
  | zero =>
    intro j st h hj
    exact ⟨j, st, rfl, h, Or.inl (by omega)⟩
  | succ r ih =>
    intro j st h hj
    obtain ⟨_, u, hsel, _, _⟩ := iter_seleciona h (by omega)
    unfold dijkstraLaco
    rw [hsel]
    simp only
    by_cases hd : st.dist u = INFINITO
    · rw [if_pos hd]
      exact ⟨j, st, rfl, h, Or.inr ⟨u, hsel, hd⟩⟩
    · rw [if_neg hd]
      exact ih (j + 1) _ (IterDij.passo h (by omega) hsel hd) (by omega)

theorem dijkstraFinal_iter (g : Grafo) {s : Nat} (hs : s < g.num_cidades) :
    ∃ j st, dijkstraFinal g s = some st ∧ IterDij g s j st ∧
      (j + 1 = g.num_cidades ∨
        ∃ u, selecionar g.num_cidades st = some u ∧ st.dist u = INFINITO) := by
  unfold dijkstraFinal
  exact dijkstraLaco_iter (g.num_cidades - 1) 0 _ IterDij.inicio (by omega)

end Exercicio2

/-- C24. On every built route graph and for every valid start id: the main loop of
`dijkstra` runs at most `count - 1` iterations; at the head of each iteration it still
runs, some city is unmarked, so the selection scan ends with a city `u` (never with
`u == -1`) and `u` is below the count and below the array size 100; the loop ends
normally; with a single registered city the body never runs. -/
theorem laco_principal_sempre_seleciona (g : Exercicio2.Grafo) (hg : Exercicio2.Construido g)
    (id_inicio : Int) (h0 : 0 ≤ id_inicio) (h1 : id_inicio < (g.num_cidades : Int)) :
    (∀ j st, Exercicio2.IterDij g id_inicio.toNat j st → j ≤ g.num_cidades - 1) ∧
    (∀ j st, Exercicio2.IterDij g id_inicio.toNat j st → j < g.num_cidades - 1 →
      (∃ v, v < g.num_cidades ∧ st.visitado v = false) ∧
      ∃ u, Exercicio2.selecionar g.num_cidades st = some u ∧ u < g.num_cidades ∧
        u < Exercicio2.MAX_CIDADES) ∧
    (∃ j st, Exercicio2.dijkstraFinal g id_inicio.toNat = some st ∧
      Exercicio2.IterDij g id_inicio.toNat j st) ∧
    (g.num_cidades = 1 →
      Exercicio2.dijkstraFinal g id_inicio.toNat =
        some (Exercicio2.dijkstraInicio id_inicio.toNat)) := by
  have hs : id_inicio.toNat < g.num_cidades := by omega
  have hcap := (Exercicio2.invariantesRota_of_construido hg).1.cap
  refine ⟨?_, ?_, ?_, ?_⟩
  · intro j st h
    have := Exercicio2.iter_le h (by omega)
    omega
  · intro j st h hj
    obtain ⟨hv, u, hu, hlt, _⟩ := Exercicio2.iter_seleciona h (by omega)
    exact ⟨hv, u, hu, hlt, by omega⟩
  · obtain ⟨j, st, hst, hit, _⟩ := Exercicio2.dijkstraFinal_iter g hs
    exact ⟨j, st, hst, hit⟩
  · intro hn
    unfold Exercicio2.dijkstraFinal
    rw [hn]
    rfl

theorem laco_principal_sempre_seleciona_witness :
    (∀ j st, Exercicio2.IterDij Exercicio2.grafoSentinela (0 : Int).toNat j st →
      j ≤ Exercicio2.grafoSentinela.num_cidades - 1) ∧
    (∀ j st, Exercicio2.IterDij Exercicio2.grafoSentinela (0 : Int).toNat j st →
      j < Exercicio2.grafoSentinela.num_cidades - 1 →
      (∃ v, v < Exercicio2.grafoSentinela.num_cidades ∧ st.visitado v = false) ∧
      ∃ u, Exercicio2.selecionar Exercicio2.grafoSentinela.num_cidades st = some u ∧
        u < Exercicio2.grafoSentinela.num_cidades ∧ u < Exercicio2.MAX_CIDADES) ∧
    (∃ j st, Exercicio2.dijkstraFinal Exercicio2.grafoSentinela (0 : Int).toNat = some st ∧
      Exercicio2.IterDij Exercicio2.grafoSentinela (0 : Int).toNat j st) ∧
    (Exercicio2.grafoSentinela.num_cidades = 1 →
      Exercicio2.dijkstraFinal Exercicio2.grafoSentinela (0 : Int).toNat =
        some (Exercicio2.dijkstraInicio (0 : Int).toNat)) :=
  laco_principal_sempre_seleciona Exercicio2.grafoSentinela
    Exercicio2.construido_grafoSentinela 0 (by decide) (by decide)

namespace Exercicio1

theorem execBfs_inv {g : Grafo} (hg : BemFormado g) {s : Nat} (hs : s < g.num_usuarios)
    {st : EstadoBfs} {resto : List Nat} (h : ExecBfs g s st resto) :
    InvFila g s st.visitado st.fila st.frente st.tras ∧
    ∀ v, v ∈ resto → v < g.num_usuarios ∧ Alcanca g s v := by
  induction h with
  | inicio => exact ⟨invFila_inicio g hs, fun v hv => absurd hv (List.not_mem_nil v)⟩
  | @desenfileira st _ hlt ih =>
    refine ⟨ih.1.avanca hlt, ?_⟩
    intro v hv
    exact ⟨hg.adj_lt _ v hv, Relation.ReflTransGen.tail (ih.1.alc _ hlt) hv⟩
  | @vizinho st v resto _ ih =>
    have hv := ih.2 v (List.mem_cons_self v resto)
    refine ⟨?_, fun w hw => ih.2 w (List.mem_cons_of_mem v hw)⟩
    unfold bfsVizinho
    by_cases hvis : st.visitado v = true
    · rw [if_pos hvis]
      exact ih.1
    · rw [if_neg hvis]
      exact invFila_enfileira ih.1 (by simpa using hvis) hv.1 hv.2

theorem execSug_inv {g : Grafo} (hg : BemFormado g) {s : Nat} (hs : s < g.num_usuarios)
    {st : EstadoSug} {u : Nat} {resto : List Nat} (h : ExecSug g s st u resto) :
    InvFila g s st.visitado st.fila st.frente st.tras ∧
    ∀ v, v ∈ resto → v < g.num_usuarios ∧ Alcanca g s v := by
  induction h with
  | inicio => exact ⟨invFila_inicio g hs, fun v hv => absurd hv (List.not_mem_nil v)⟩
  | @desenfileira st u _ hlt ih =>
    refine ⟨ih.1.avanca hlt, ?_⟩
    intro v hv
    exact ⟨hg.adj_lt _ v hv, Relation.ReflTransGen.tail (ih.1.alc _ hlt) hv⟩
  | @vizinho st u v resto _ ih =>
    have hv := ih.2 v (List.mem_cons_self v resto)
    refine ⟨?_, fun w hw => ih.2 w (List.mem_cons_of_mem v hw)⟩
    unfold sugVizinho
    by_cases hvis : st.visitado v = true
    · rw [if_pos hvis]
      exact ih.1
    · rw [if_neg hvis]
      exact invFila_enfileira ih.1 (by simpa using hvis) hv.1 hv.2

theorem execBfs_foldl {g : Grafo} {s : Nat} : ∀ (l : List Nat) (st : EstadoBfs),
    ExecBfs g s st l → ExecBfs g s (l.foldl bfsVizinho st) [] := by
  intro l
  induction l with
  | nil => exact fun _ h => h
  | cons a l ih => exact fun st h => ih _ (ExecBfs.vizinho h)

theorem execBfs_laco {g : Grafo} {s : Nat} : ∀ (k : Nat) (st st' : EstadoBfs),
    ExecBfs g s st [] → bfsLaco g k st = some st' → ExecBfs g s st' [] := by
  intro k
  induction k with
  | zero =>
    intro st st' h hl
    unfold bfsLaco at hl
    split_ifs at hl
    cases hl
    exact h
  | succ k ih =>
    intro st st' h hl
    unfold bfsLaco at hl
    by_cases hlt : st.frente < st.tras
    · rw [if_pos hlt] at hl
      exact ih _ _ (execBfs_foldl _ _ (ExecBfs.desenfileira h hlt)) hl
    · rw [if_neg hlt] at hl
      cases hl
      exact h

theorem execSug_foldl {g : Grafo} {s u : Nat} : ∀ (l : List Nat) (st : EstadoSug),
    ExecSug g s st u l → ExecSug g s (l.foldl (sugVizinho u) st) u [] := by
  intro l
  induction l with
  | nil => exact fun _ h => h
  | cons a l ih => exact fun st h => ih _ (ExecSug.vizinho h)

theorem execSug_laco {g : Grafo} {s : Nat} : ∀ (k : Nat) (st st' : EstadoSug) (u : Nat),
    ExecSug g s st u [] → sugLaco g k st = some st' → ∃ u', ExecSug g s st' u' [] := by
  intro k
  induction k with
  | zero =>
    intro st st' u h hl
    unfold sugLaco at hl
    split_ifs at hl
    cases hl
    exact ⟨u, h⟩
  | succ k ih =>
    intro st st' u h hl
    unfold sugLaco at hl
    by_cases hlt : st.frente < st.tras
    · rw [if_pos hlt] at hl
      exact ih _ _ _ (execSug_foldl _ _ (ExecSug.desenfileira h hlt)) hl
    · rw [if_neg hlt] at hl
      cases hl
      exact ⟨u, h⟩

/-- Bounds that follow from the queue invariant, for the next read and the next write. -/
theorem invFila_limites {g : Grafo} (hg : BemFormado g) {s : Nat} {vis : Nat → Bool}
    {fila : Nat → Nat} {fr tr : Nat} (h : InvFila g s vis fila fr tr) :
    fr ≤ tr ∧ tr ≤ g.num_usuarios ∧ g.num_usuarios ≤ MAX_USUARIOS ∧
    (∀ i j, i < tr → j < tr → fila i = fila j → i = j) ∧
    (fr < tr → fr < MAX_USUARIOS) ∧
    (∀ v, v < g.num_usuarios → Alcanca g s v → vis v = false → tr < MAX_USUARIOS) := by
  have hle := h.tras_le
  have hcap := hg.cap
  refine ⟨h.frente_le, hle, hcap, h.inj, fun hlt => by omega, ?_⟩
  intro v hlt ha hv
  have := (invFila_enfileira h hv hlt ha).tras_le
  omega

end Exercicio1

/-- C22. On every built social graph and for every valid start id, in every state
that `bfs` and the BFS inside `sugerirAmigos` pass through: the filled part of the queue
holds no user twice, the write index `tras` is at most the user count, which is at most
100, the next read `fila[frente]` (done when `frente < tras`) and the next write
`fila[tras]` (done when the node ahead is not marked) are below 100; both loops end in
such a state. -/
theorem fila_dentro_do_vetor (g : Exercicio1.Grafo) (hg : Exercicio1.Construido g)
    (inicio_id : Int) (h0 : 0 ≤ inicio_id) (h1 : inicio_id < (g.num_usuarios : Int)) :
    (∀ st resto, Exercicio1.ExecBfs g inicio_id.toNat st resto →
      (∀ i j, i < st.tras → j < st.tras → st.fila i = st.fila j → i = j) ∧
      st.tras ≤ g.num_usuarios ∧ g.num_usuarios ≤ 100 ∧
      (st.frente < st.tras → st.frente < 100) ∧
      (∀ v resto', resto = v :: resto' → st.visitado v = false → st.tras < 100)) ∧
    (∃ st, Exercicio1.bfsLaco g Exercicio1.MAX_USUARIOS
        (Exercicio1.bfsInicio inicio_id.toNat) = some st ∧
      Exercicio1.ExecBfs g inicio_id.toNat st []) ∧
    (∀ st u resto, Exercicio1.ExecSug g inicio_id.toNat st u resto →
      (∀ i j, i < st.tras → j < st.tras → st.fila i = st.fila j → i = j) ∧
      st.tras ≤ g.num_usuarios ∧ g.num_usuarios ≤ 100 ∧
      (st.frente < st.tras → st.frente < 100) ∧
      (∀ v resto', resto = v :: resto' → st.visitado v = false → st.tras < 100)) ∧
    (∃ st u, Exercicio1.sugLaco g Exercicio1.MAX_USUARIOS
        (Exercicio1.sugInicio inicio_id.toNat) = some st ∧
      Exercicio1.ExecSug g inicio_id.toNat st u []) := by
  have hb := Exercicio1.bemFormado_of_construido hg
  have hs : inicio_id.toNat < g.num_usuarios := by omega
  have hcap := hb.cap
  refine ⟨?_, ?_, ?_, ?_⟩
  · intro st resto h
    obtain ⟨hinv, hresto⟩ := Exercicio1.execBfs_inv hb hs h
    obtain ⟨_, h2, h3, h4, h5, h6⟩ := Exercicio1.invFila_limites hb hinv
    refine ⟨h4, h2, h3, h5, ?_⟩
    intro v resto' he hv
    have hm := hresto v (by rw [he]; exact List.mem_cons_self v resto')
    exact h6 v hm.1 hm.2 hv
  · have hinv : Exercicio1.InvBfs g inicio_id.toNat (Exercicio1.bfsInicio inicio_id.toNat) :=
      ⟨Exercicio1.invFila_inicio g hs, rfl⟩
    have hfech : Exercicio1.Fechado g (Exercicio1.bfsInicio inicio_id.toNat).visitado
        (Exercicio1.bfsInicio inicio_id.toNat).fila
        (Exercicio1.bfsInicio inicio_id.toNat).frente := by
      intro i hi
      exact absurd hi (Nat.not_lt_zero i)
    obtain ⟨st, hst, _⟩ :=
      Exercicio1.bfsLaco_spec hb Exercicio1.MAX_USUARIOS _ hinv hfech (by omega)
    exact ⟨st, hst, Exercicio1.execBfs_laco _ _ _ Exercicio1.ExecBfs.inicio hst⟩
  · intro st u resto h
    obtain ⟨hinv, hresto⟩ := Exercicio1.execSug_inv hb hs h
    obtain ⟨_, h2, h3, h4, h5, h6⟩ := Exercicio1.invFila_limites hb hinv
    refine ⟨h4, h2, h3, h5, ?_⟩
    intro v resto' he hv
    have hm := hresto v (by rw [he]; exact List.mem_cons_self v resto')
    exact h6 v hm.1 hm.2 hv
  · obtain ⟨st, hst, _⟩ := Exercicio1.sugLaco_spec hb Exercicio1.MAX_USUARIOS _
      (Exercicio1.invSug_inicio g hs) (by omega)
    obtain ⟨u, hu⟩ := Exercicio1.execSug_laco _ _ _ _ Exercicio1.ExecSug.inicio hst
    exact ⟨st, u, hst, hu⟩

theorem fila_dentro_do_vetor_witness :
    (∀ st resto, Exercicio1.ExecBfs Exercicio1.grafoABC (0 : Int).toNat st resto →
      (∀ i j, i < st.tras → j < st.tras → st.fila i = st.fila j → i = j) ∧
      st.tras ≤ Exercicio1.grafoABC.num_usuarios ∧ Exercicio1.grafoABC.num_usuarios ≤ 100 ∧
      (st.frente < st.tras → st.frente < 100) ∧
      (∀ v resto', resto = v :: resto' → st.visitado v = false → st.tras < 100)) ∧
    (∃ st, Exercicio1.bfsLaco Exercicio1.grafoABC Exercicio1.MAX_USUARIOS
        (Exercicio1.bfsInicio (0 : Int).toNat) = some st ∧
      Exercicio1.ExecBfs Exercicio1.grafoABC (0 : Int).toNat st []) ∧
    (∀ st u resto, Exercicio1.ExecSug Exercicio1.grafoABC (0 : Int).toNat st u resto →
      (∀ i j, i < st.tras → j < st.tras → st.fila i = st.fila j → i = j) ∧
      st.tras ≤ Exercicio1.grafoABC.num_usuarios ∧ Exercicio1.grafoABC.num_usuarios ≤ 100 ∧
      (st.frente < st.tras → st.frente < 100) ∧
      (∀ v resto', resto = v :: resto' → st.visitado v = false → st.tras < 100)) ∧
    (∃ st u, Exercicio1.sugLaco Exercicio1.grafoABC Exercicio1.MAX_USUARIOS
        (Exercicio1.sugInicio (0 : Int).toNat) = some st ∧
      Exercicio1.ExecSug Exercicio1.grafoABC (0 : Int).toNat st u []) :=
  fila_dentro_do_vetor Exercicio1.grafoABC Exercicio1.construido_grafoABC 0
    (by decide) (by decide)

namespace Exercicio2

/-- Two index functions that differ at most at `a` have sums over `0 .. n-1` that
differ by the difference at `a`. -/
theorem soma_difere_em_um (f f' : Nat → Int) (a : Nat) (h : ∀ u, u ≠ a → f' u = f u) :
    ∀ n, ((List.range n).map f').sum =
      ((List.range n).map f).sum + (if a < n then f' a - f a else 0) := by
  intro n
  induction n with
  | zero => simp
  | succ n ih =>
    rw [List.range_succ, List.map_append, List.map_append, List.sum_append, List.sum_append, ih]
    simp only [List.map_cons, List.map_nil, List.sum_cons, List.sum_nil, add_zero]
    by_cases han : a = n
    · rw [han]
      simp
    · rw [h n (fun e => han e.symm)]
      by_cases h1 : a < n
      · rw [if_pos h1, if_pos (by omega)]
        omega
      · rw [if_neg h1, if_neg (by omega)]
        omega

theorem soma_congr (f f' : Nat → Int) : ∀ n, (∀ u, u < n → f' u = f u) →
    ((List.range n).map f').sum = ((List.range n).map f).sum := by
  intro n h
  congr 1
  apply List.map_congr_left
  intro u hu
  exact h u (List.mem_range.mp hu)

theorem soma_nao_negativa (f : Nat → Int) (n : Nat) (h : ∀ u, u < n → 0 ≤ f u) :
    0 ≤ ((List.range n).map f).sum := by
  apply List.sum_nonneg
  intro x hx
  obtain ⟨u, hu, hux⟩ := List.mem_map.mp hx
  rw [← hux]
  exact h u (List.mem_range.mp hu)

theorem soma_termo_le (f : Nat → Int) (n a : Nat) (h : ∀ u, u < n → 0 ≤ f u) (ha : a < n) :
    f a ≤ ((List.range n).map f).sum := by
  apply List.single_le_sum
  · intro x hx
    obtain ⟨u, hu, hux⟩ := List.mem_map.mp hx
    rw [← hux]
    exact h u (List.mem_range.mp hu)
  · exact List.mem_map.mpr ⟨a, List.mem_range.mpr ha, rfl⟩

theorem potLista_cons (vis : Nat → Bool) (t : Nat → Nat) (u : Nat) (no : NoRota)
    (l : List NoRota) : potLista vis t u (no :: l) = contaNo vis t u no + potLista vis t u l := by
  simp [potLista]

theorem somaLista_cons (no : NoRota) (l : List NoRota) :
    somaLista (no :: l) = no.custo + somaLista l := by
  simp [somaLista]

theorem contaNo_faixa (vis : Nat → Bool) (t : Nat → Nat) (u : Nat) (no : NoRota)
    (h : 0 ≤ no.custo) : 0 ≤ contaNo vis t u no ∧ contaNo vis t u no ≤ no.custo := by
  unfold contaNo
  split_ifs
  · exact ⟨h, le_refl _⟩
  · exact ⟨le_refl _, h⟩

theorem potLista_nao_negativa (vis : Nat → Bool) (t : Nat → Nat) (u : Nat) (l : List NoRota)
    (h : ∀ no, no ∈ l → 0 ≤ no.custo) : 0 ≤ potLista vis t u l := by
  apply List.sum_nonneg
  intro x hx
  obtain ⟨no, hno, hx'⟩ := List.mem_map.mp hx
  rw [← hx']
  exact (contaNo_faixa vis t u no (h no hno)).1

theorem potLista_termo_le (vis : Nat → Bool) (t : Nat → Nat) (u : Nat) (l : List NoRota)
    (h : ∀ no, no ∈ l → 0 ≤ no.custo) (no : NoRota) (hno : no ∈ l) :
    contaNo vis t u no ≤ potLista vis t u l := by
  apply List.single_le_sum
  · intro x hx
    obtain ⟨no', hno', hx'⟩ := List.mem_map.mp hx
    rw [← hx']
    exact (contaNo_faixa vis t u no' (h no' hno')).1
  · exact List.mem_map.mpr ⟨no, hno, rfl⟩

theorem somaLista_termo_le (l : List NoRota) (h : ∀ no, no ∈ l → 0 ≤ no.custo)
    (no : NoRota) (hno : no ∈ l) : no.custo ≤ somaLista l := by
  apply List.single_le_sum
  · intro x hx
    obtain ⟨no', hno', hx'⟩ := List.mem_map.mp hx
    rw [← hx']
    exact h no' hno'
  · exact List.mem_map.mpr ⟨no, hno, rfl⟩

theorem somaLista_nao_negativa (l : List NoRota) (h : ∀ no, no ∈ l → 0 ≤ no.custo) :
    0 ≤ somaLista l := by
  apply List.sum_nonneg
  intro x hx
  obtain ⟨no', hno', hx'⟩ := List.mem_map.mp hx
  rw [← hx']
  exact h no' hno'

/-- No stored cost exceeds the sum of all stored costs. -/
theorem custo_le_somaEntradas {g : Grafo} (hA : InvAdj g) {u : Nat} {no : NoRota}
    (hno : no ∈ g.adj u) : no.custo ≤ somaEntradas g := by
  have hpos : ∀ v no', no' ∈ g.adj v → 0 ≤ no'.custo :=
    fun v no' h => le_of_lt (hA.positivo v no' h)
  have hu : u < g.num_cidades := by
    by_contra hc
    rw [hA.vazio u (by omega)] at hno
    exact absurd hno (List.not_mem_nil no)
  have h1 := somaLista_termo_le (g.adj u) (hpos u) no hno
  have h2 := soma_termo_le (fun v => somaLista (g.adj v)) g.num_cidades u
    (fun v _ => somaLista_nao_negativa _ (hpos v)) hu
  exact le_trans h1 h2

end Exercicio2

namespace Exercicio2

theorem soma_upd (F : Nat → List NoRota → Int) (adj : Nat → List NoRota) (a : Nat)
    (l : List NoRota) (n : Nat) :
    ((List.range n).map (fun u => F u (upd adj a l u))).sum =
      ((List.range n).map (fun u => F u (adj u))).sum +
        (if a < n then F a l - F a (adj a) else 0) := by
  have h := soma_difere_em_um (fun u => F u (adj u)) (fun u => F u (upd adj a l u)) a
    (fun u hu => by simp only [upd_other _ _ _ _ hu]) n
  rw [h]
  simp only [upd_same]

theorem contaNo_par (vis : Nat → Bool) (t : Nat → Nat) (a b : Nat) (w : Int) (hw : 0 ≤ w) :
    contaNo vis t a ⟨b, w⟩ + contaNo vis t b ⟨a, w⟩ ≤ w := by
  unfold contaNo
  simp only
  split_ifs with h1 h2 h2
  · exfalso
    rcases h1.2 with h | h
    · rw [h2.1] at h
      exact Bool.noConfusion h
    · rcases h2.2 with h' | h'
      · rw [h1.1] at h'
        exact Bool.noConfusion h'
      · omega
  · omega
  · omega
  · omega

theorem potencial_cidade (g : Grafo) (c : Nat → Cidade) (vis : Nat → Bool) (t : Nat → Nat) :
    potencial ⟨upd g.adj g.num_cidades [], c, g.num_cidades + 1⟩ vis t = potencial g vis t := by
  unfold potencial
  simp only
  rw [List.range_succ, List.map_append, List.sum_append]
  simp only [List.map_cons, List.map_nil, List.sum_cons, List.sum_nil, upd_same]
  rw [soma_congr (fun u => potLista vis t u (upd g.adj g.num_cidades [] u))
    (fun u => potLista vis t u (g.adj u)) g.num_cidades
    (fun u hu => by simp only [upd_other _ _ _ _ (Nat.ne_of_lt hu)])]
  simp [potLista]

theorem somaEntradas_cidade (g : Grafo) (c : Nat → Cidade) :
    somaEntradas ⟨upd g.adj g.num_cidades [], c, g.num_cidades + 1⟩ = somaEntradas g := by
  unfold somaEntradas
  simp only
  rw [List.range_succ, List.map_append, List.sum_append]
  simp only [List.map_cons, List.map_nil, List.sum_cons, List.sum_nil, upd_same]
  rw [soma_congr (fun u => somaLista (upd g.adj g.num_cidades [] u))
    (fun u => somaLista (g.adj u)) g.num_cidades
    (fun u hu => by simp only [upd_other _ _ _ _ (Nat.ne_of_lt hu)])]
  simp [somaLista]

theorem potencial_rota (g : Grafo) (a b : Nat) (w : Int) (ha : a < g.num_cidades)
    (hb : b < g.num_cidades) (hne : b ≠ a) (vis : Nat → Bool) (t : Nat → Nat) :
    potencial ⟨upd (upd g.adj a (⟨b, w⟩ :: g.adj a)) b (⟨a, w⟩ :: g.adj b), g.cidades,
        g.num_cidades⟩ vis t =
      potencial g vis t + contaNo vis t a ⟨b, w⟩ + contaNo vis t b ⟨a, w⟩ := by
  unfold potencial
  simp only
  rw [soma_upd (fun u l => potLista vis t u l), soma_upd (fun u l => potLista vis t u l),
    if_pos ha, if_pos hb, upd_other _ _ _ _ hne, potLista_cons, potLista_cons]
  omega

theorem somaEntradas_rota (g : Grafo) (a b : Nat) (w : Int) (ha : a < g.num_cidades)
    (hb : b < g.num_cidades) (hne : b ≠ a) :
    somaEntradas ⟨upd (upd g.adj a (⟨b, w⟩ :: g.adj a)) b (⟨a, w⟩ :: g.adj b), g.cidades,
        g.num_cidades⟩ = somaEntradas g + 2 * w := by
  unfold somaEntradas
  simp only
  rw [soma_upd (fun _ l => somaLista l), soma_upd (fun _ l => somaLista l),
    if_pos ha, if_pos hb, upd_other _ _ _ _ hne, somaLista_cons, somaLista_cons]
  simp only
  omega

/-- Twice the counted cost never exceeds the sum of the stored costs. -/
theorem potencial_le {g : Grafo} (hg : Construido g) :
    ∀ (vis : Nat → Bool) (t : Nat → Nat), 2 * potencial g vis t ≤ somaEntradas g := by
  induction hg with
  | vazio =>
    intro vis t
    simp [potencial, somaEntradas, inicializarGrafo]
  | @cidade g nome hg ih =>
    intro vis t
    rcases adicionarCidade_casos g nome with ⟨_, h⟩ | ⟨_, _, h⟩ | ⟨_, _, h⟩
    · rw [h]
      exact ih vis t
    · rw [h]
      exact ih vis t
    · rw [h]
      simp only
      rw [potencial_cidade, somaEntradas_cidade]
      exact ih vis t
  | @rota g a b w hg ih =>
    intro vis t
    rcases criarRota_casos g a b w with ⟨_, h⟩ | ⟨_, _, _, h⟩ | ⟨_, _, _, _, h⟩ |
      ⟨ha, hb, hab, hw, h⟩
    · rw [h]
      exact ih vis t
    · rw [h]
      exact ih vis t
    · rw [h]
      exact ih vis t
    · rw [h]
      obtain ⟨ha0, han, _⟩ := (idInvalidoCidade_false_iff g a).mp ha
      obtain ⟨hb0, hbn, _⟩ := (idInvalidoCidade_false_iff g b).mp hb
      simp only
      rw [potencial_rota g a.toNat b.toNat w (by omega) (by omega) (by omega),
        somaEntradas_rota g a.toNat b.toNat w (by omega) (by omega) (by omega)]
      have := contaNo_par vis t a.toNat b.toNat w (le_of_lt hw)
      have := ih vis t
      omega

theorem potencial_nao_negativo {g : Grafo} (hA : InvAdj g) (vis : Nat → Bool) (t : Nat → Nat) :
    0 ≤ potencial g vis t :=
  soma_nao_negativa _ _ (fun u _ =>
    potLista_nao_negativa vis t u (g.adj u) (fun no h => le_of_lt (hA.positivo u no h)))

theorem wrapInt32_eq (x : Int) (h1 : -2147483648 ≤ x) (h2 : x < 2147483648) :
    wrapInt32 x = x := by
  unfold wrapInt32
  omega

end Exercicio2

namespace Exercicio2

theorem contaNo_marca {vis : Nat → Bool} {t : Nat → Nat} {u0 k : Nat}
    (hu0 : vis u0 = false) (hrank : ∀ v, vis v = true → t v < k)
    (u : Nat) (hu : u ≠ u0) (no : NoRota) :
    contaNo (upd vis u0 true) (upd t u0 k) u no = contaNo vis t u no := by
  unfold contaNo
  rw [upd_other _ _ _ _ hu, upd_other _ _ _ _ hu]
  by_cases hv : vis u = true
  · by_cases hd : no.id_destino = u0
    · have h1 : vis u = true ∧ (upd vis u0 true no.id_destino = false ∨
          t u < upd t u0 k no.id_destino) := by
        refine ⟨hv, Or.inr ?_⟩
        rw [hd, upd_same]
        exact hrank u hv
      have h2 : vis u = true ∧ (vis no.id_destino = false ∨ t u < t no.id_destino) := by
        refine ⟨hv, Or.inl ?_⟩
        rw [hd]
        exact hu0
      rw [if_pos h1, if_pos h2]
    · rw [upd_other _ _ _ _ hd, upd_other _ _ _ _ hd]
  · have h1 : ¬ (vis u = true ∧ (upd vis u0 true no.id_destino = false ∨
        t u < upd t u0 k no.id_destino)) := fun h => hv h.1
    have h2 : ¬ (vis u = true ∧ (vis no.id_destino = false ∨ t u < t no.id_destino)) :=
      fun h => hv h.1
    rw [if_neg h1, if_neg h2]

theorem potLista_nao_marcado {vis : Nat → Bool} (t : Nat → Nat) {u : Nat}
    (hu : vis u = false) (l : List NoRota) : potLista vis t u l = 0 := by
  unfold potLista
  apply List.sum_eq_zero
  intro x hx
  obtain ⟨no, _, hno⟩ := List.mem_map.mp hx
  rw [← hno]
  unfold contaNo
  rw [if_neg]
  intro h
  rw [hu] at h
  exact Bool.noConfusion h.1

/-- Marking `u0` with rank `k` adds to the counted cost the counted part of the list
of `u0`. -/
theorem potencial_marca (g : Grafo) {vis : Nat → Bool} {t : Nat → Nat} {u0 k : Nat}
    (hn : u0 < g.num_cidades) (hu0 : vis u0 = false) (hrank : ∀ v, vis v = true → t v < k) :
    potencial g (upd vis u0 true) (upd t u0 k) =
      potencial g vis t + potLista (upd vis u0 true) (upd t u0 k) u0 (g.adj u0) := by
  unfold potencial
  rw [soma_difere_em_um (fun u => potLista vis t u (g.adj u))
    (fun u => potLista (upd vis u0 true) (upd t u0 k) u (g.adj u)) u0 ?_ g.num_cidades]
  · rw [if_pos hn, potLista_nao_marcado t hu0]
    omega
  · intro u hu
    show potLista (upd vis u0 true) (upd t u0 k) u (g.adj u) = potLista vis t u (g.adj u)
    unfold potLista
    congr 1
    apply List.map_congr_left
    intro no _
    exact contaNo_marca hu0 hrank u hu no

theorem potencial_marca_le {g : Grafo} (hA : InvAdj g) {vis : Nat → Bool} {t : Nat → Nat}
    {u0 k : Nat} (hn : u0 < g.num_cidades) (hu0 : vis u0 = false)
    (hrank : ∀ v, vis v = true → t v < k) :
    potencial g vis t ≤ potencial g (upd vis u0 true) (upd t u0 k) := by
  rw [potencial_marca g hn hu0 hrank]
  have := potLista_nao_negativa (upd vis u0 true) (upd t u0 k) u0 (g.adj u0)
    (fun no h => le_of_lt (hA.positivo u0 no h))
  omega

theorem potencial_marca_no {g : Grafo} (hA : InvAdj g) {vis : Nat → Bool} {t : Nat → Nat}
    {u0 k : Nat} (hn : u0 < g.num_cidades) (hu0 : vis u0 = false)
    (hrank : ∀ v, vis v = true → t v < k) {no : NoRota} (hno : no ∈ g.adj u0)
    (hd : upd vis u0 true no.id_destino = false) :
    potencial g vis t + no.custo ≤ potencial g (upd vis u0 true) (upd t u0 k) := by
  rw [potencial_marca g hn hu0 hrank]
  have h1 := potLista_termo_le (upd vis u0 true) (upd t u0 k) u0 (g.adj u0)
    (fun no h => le_of_lt (hA.positivo u0 no h)) no hno
  have h2 : contaNo (upd vis u0 true) (upd t u0 k) u0 no = no.custo := by
    unfold contaNo
    rw [if_pos]
    exact ⟨upd_same _ _ _, Or.inl hd⟩
  omega

theorem relaxar_um (u0 : Nat) (d0 : Int) (st : EstadoDijkstra) (no : NoRota)
    (hv : st.visitado u0 = true) (hd : st.dist u0 = d0)
    (hw : wrapInt32 (d0 + no.custo) = d0 + no.custo) :
    (relaxar u0 st no).visitado = st.visitado ∧ (relaxar u0 st no).dist u0 = d0 ∧
    (∀ v, (relaxar u0 st no).dist v ≤ st.dist v) ∧
    (∀ v, (relaxar u0 st no).dist v = st.dist v ∨
      (st.visitado v = false ∧ no.id_destino = v ∧
        (relaxar u0 st no).dist v = d0 + no.custo)) ∧
    (st.visitado no.id_destino = false →
      (relaxar u0 st no).dist no.id_destino ≤ d0 + no.custo) := by
  unfold relaxar
  rw [hd, hw]
  by_cases hc : (!st.visitado no.id_destino &&
      decide (d0 + no.custo < st.dist no.id_destino)) = true
  · rw [if_pos hc]
    simp only [Bool.and_eq_true, Bool.not_eq_true', decide_eq_true_eq] at hc
    have hne : u0 ≠ no.id_destino := by
      intro e
      rw [← e, hv] at hc
      exact Bool.noConfusion hc.1
    refine ⟨rfl, ?_, ?_, ?_, ?_⟩
    · show upd st.dist no.id_destino (d0 + no.custo) u0 = d0
      rw [upd_other _ _ _ _ hne]
      exact hd
    · intro v
      show upd st.dist no.id_destino (d0 + no.custo) v ≤ st.dist v
      by_cases e : v = no.id_destino
      · rw [e, upd_same]
        exact le_of_lt hc.2
      · rw [upd_other _ _ _ _ e]
    · intro v
      show upd st.dist no.id_destino (d0 + no.custo) v = st.dist v ∨ _
      by_cases e : v = no.id_destino
      · right
        rw [e]
        exact ⟨hc.1, rfl, upd_same _ _ _⟩
      · left
        exact upd_other _ _ _ _ e
    · intro _
      show upd st.dist no.id_destino (d0 + no.custo) no.id_destino ≤ d0 + no.custo
      rw [upd_same]
  · rw [if_neg hc]
    refine ⟨rfl, hd, fun v => le_refl _, fun v => Or.inl rfl, ?_⟩
    intro hnv
    simp only [Bool.and_eq_true, Bool.not_eq_true', decide_eq_true_eq, not_and] at hc
    have := hc hnv
    omega

/-- Effect on `dist` of relaxing the nodes of `l` from the marked city `u0`, whose
distance is `d0`, when none of the additions `d0 + custo` wraps around. -/
theorem relaxar_dist (u0 : Nat) (d0 : Int) : ∀ (l : List NoRota) (st : EstadoDijkstra),
    st.visitado u0 = true → st.dist u0 = d0 →
    (∀ no, no ∈ l → wrapInt32 (d0 + no.custo) = d0 + no.custo) →
    (l.foldl (relaxar u0) st).dist u0 = d0 ∧
    (∀ v, (l.foldl (relaxar u0) st).dist v ≤ st.dist v) ∧
    (∀ v, (l.foldl (relaxar u0) st).dist v = st.dist v ∨
      (st.visitado v = false ∧ ∃ no, no ∈ l ∧ no.id_destino = v ∧
        (l.foldl (relaxar u0) st).dist v = d0 + no.custo)) ∧
    (∀ no, no ∈ l → st.visitado no.id_destino = false →
      (l.foldl (relaxar u0) st).dist no.id_destino ≤ d0 + no.custo) := by
  intro l
  induction l with
  | nil =>
    intro st _ hd _
    exact ⟨hd, fun v => le_refl _, fun v => Or.inl rfl,
      fun no h => absurd h (List.not_mem_nil no)⟩
  | cons no l ih =>
    intro st hv hd hw
    rw [List.foldl_cons]
    obtain ⟨s1, s2, s3, s4, s5⟩ := relaxar_um u0 d0 st no hv hd
      (hw no (List.mem_cons_self no l))
    obtain ⟨i1, i2, i3, i4⟩ := ih (relaxar u0 st no) (by rw [s1]; exact hv) s2
      (fun no' h => hw no' (List.mem_cons_of_mem no h))
    refine ⟨i1, fun v => le_trans (i2 v) (s3 v), ?_, ?_⟩
    · intro v
      rcases i3 v with h | ⟨h1, no', hno', hd', he⟩
      · rcases s4 v with h' | ⟨h1, h2, h3⟩
        · left
          rw [h, h']
        · right
          exact ⟨h1, no, List.mem_cons_self no l, h2, by rw [h, h3]⟩
      · right
        rw [s1] at h1
        exact ⟨h1, no', List.mem_cons_of_mem no hno', hd', he⟩
    · intro no' hno' hnv
      rcases List.mem_cons.mp hno' with e | hmem
      · rw [e]
        rw [e] at hnv
        exact le_trans (i2 no.id_destino) (s5 hnv)
      · exact i4 no' hmem (by rw [s1]; exact hnv)

end Exercicio2

namespace Exercicio2

theorem selecionar_menor {n : Nat} {st : EstadoDijkstra} {u : Nat}
    (h : selecionar n st = some u) :
    u < n ∧ st.visitado u = false ∧
      ∀ v, v < n → st.visitado v = false → st.dist u ≤ st.dist v := by
  unfold selecionar at h
  rcases selecionar_minimo st n with ⟨h1, _⟩ | ⟨u', h1, h2, h3, h4, _⟩
  · rw [h1] at h
    cases h
  · rw [h1] at h
    cases h
    exact ⟨h2, h3, h4⟩

theorem potencial_lt {g : Grafo} (hg : Construido g) (hS : somaEntradas g < 2 * INFINITO)
    (vis : Nat → Bool) (t : Nat → Nat) : potencial g vis t < INFINITO := by
  have := potencial_le hg vis t
  omega

/-- Under the invariant no addition `dist[u] + custo` leaves the 32-bit range. -/
theorem soma_na_faixa {g : Grafo} (hg : Construido g) (hS : somaEntradas g < 2 * INFINITO)
    {d : Int} (h0 : 0 ≤ d) (h1 : d ≤ INFINITO) {u : Nat} {no : NoRota} (hno : no ∈ g.adj u) :
    -2147483648 ≤ d + no.custo ∧ d + no.custo < 2147483648 := by
  have hA := (invariantesRota_of_construido hg).2
  have hp := hA.positivo u no hno
  have hle := custo_le_somaEntradas hA hno
  have hI : INFINITO = 99999 := rfl
  rw [hI] at hS h1
  constructor <;> omega

theorem invCusto_inicio {g : Grafo} (hA : InvAdj g) (s : Nat) :
    InvCusto g s (dijkstraInicio s) (fun _ => 0) 0 := by
  have hI : INFINITO = 99999 := rfl
  have hd : ∀ v, v ≠ s → (dijkstraInicio s).dist v = INFINITO := by
    intro v hv
    show upd (fun _ => INFINITO) s 0 v = INFINITO
    rw [upd_other _ _ _ _ hv]
  have hs : (dijkstraInicio s).dist s = 0 := by
    show upd (fun _ => INFINITO) s 0 s = 0
    exact upd_same _ _ _
  refine ⟨hs, ?_, ?_, ?_, ?_, ?_, ?_, ?_, ?_⟩
  · intro v
    by_cases hv : v = s
    · rw [hv, hs, hI]
      omega
    · rw [hd v hv, hI]
      omega
  · intro v hv
    by_cases e : v = s
    · rw [e, hs]
      exact Caminho.nil
    · exact absurd (hd v e) hv
  · intro u hu
    exact Bool.noConfusion hu
  · intro u no hu
    exact Bool.noConfusion hu
  · intro u v hu
    exact Bool.noConfusion hu
  · intro v hv
    by_cases e : v = s
    · rw [e, hs]
      exact potencial_nao_negativo hA _ _
    · exact absurd (hd v e) hv
  · intro u no hu
    exact Bool.noConfusion hu
  · unfold Exercicio1.naoVisitados
    have := Finset.card_filter_le (Finset.range g.num_cidades)
      (fun i => (dijkstraInicio s).visitado i = false)
    rw [Finset.card_range] at this
    omega

theorem invCusto_passo {g : Grafo} (hg : Construido g) (hS : somaEntradas g < 2 * INFINITO)
    {s : Nat} {st : EstadoDijkstra} {t : Nat → Nat} {k u0 : Nat}
    (hD : InvDij g st t k) (h : InvCusto g s st t k)
    (hsel : selecionar g.num_cidades st = some u0) (hinf : st.dist u0 ≠ INFINITO) :
    InvCusto g s ((g.adj u0).foldl (relaxar u0) { st with visitado := upd st.visitado u0 true })
      (upd t u0 k) (k + 1) := by
  have hA := (invariantesRota_of_construido hg).2
  obtain ⟨hu0n, hu0, hmin⟩ := selecionar_menor hsel
  have hI : INFINITO = 99999 := rfl
  have hvis2 : ((g.adj u0).foldl (relaxar u0)
      { st with visitado := upd st.visitado u0 true }).visitado = upd st.visitado u0 true :=
    (relaxar_foldl u0 (g.adj u0) { st with visitado := upd st.visitado u0 true }).1
  obtain ⟨c1, c2, c3, c4⟩ := relaxar_dist u0 (st.dist u0) (g.adj u0)
    { st with visitado := upd st.visitado u0 true } (upd_same _ _ _) rfl
    (fun no hno => wrapInt32_eq _
      (soma_na_faixa hg hS (h.faixa u0).1 (h.faixa u0).2 hno).1
      (soma_na_faixa hg hS (h.faixa u0).1 (h.faixa u0).2 hno).2)
  generalize (g.adj u0).foldl (relaxar u0) { st with visitado := upd st.visitado u0 true } = st2
    at hvis2 c1 c2 c3 c4 ⊢
  change ∀ v, st2.dist v ≤ st.dist v at c2
  change ∀ v, st2.dist v = st.dist v ∨ (upd st.visitado u0 true v = false ∧
    ∃ no, no ∈ g.adj u0 ∧ no.id_destino = v ∧ st2.dist v = st.dist u0 + no.custo) at c3
  change ∀ no, no ∈ g.adj u0 → upd st.visitado u0 true no.id_destino = false →
    st2.dist no.id_destino ≤ st.dist u0 + no.custo at c4
  have hkeep : ∀ v, upd st.visitado u0 true v = true → st2.dist v = st.dist v := by
    intro v hv
    rcases c3 v with e | ⟨e, _⟩
    · exact e
    · rw [hv] at e
      exact Bool.noConfusion e
  have hvis_of : ∀ v, v ≠ u0 → upd st.visitado u0 true v = st.visitado v :=
    fun v hv => upd_other _ _ _ _ hv
  have hpotle := potencial_marca_le hA hu0n hu0 hD.rank
  have hpotlt := potencial_lt hg hS (upd st.visitado u0 true) (upd t u0 k)
  have hd0 := h.pot u0 hinf
  have hnew : ∀ no, no ∈ g.adj u0 → upd st.visitado u0 true no.id_destino = false →
      st.dist u0 + no.custo ≤ potencial g (upd st.visitado u0 true) (upd t u0 k) := by
    intro no hno hd
    have := potencial_marca_no hA hu0n hu0 hD.rank hno hd
    omega
  have hfaixa : ∀ v, 0 ≤ st2.dist v ∧ st2.dist v ≤ INFINITO := by
    intro v
    refine ⟨?_, le_trans (c2 v) (h.faixa v).2⟩
    rcases c3 v with e | ⟨_, no, hno, _, e⟩
    · rw [e]
      exact (h.faixa v).1
    · rw [e]
      have := hA.positivo u0 no hno
      have := (h.faixa u0).1
      omega
  have hmarcado : ∀ u, upd st.visitado u0 true u = true → st2.dist u ≠ INFINITO := by
    intro u hu
    rw [hkeep u hu]
    by_cases e : u = u0
    · rw [e]
      exact hinf
    · rw [hvis_of u e] at hu
      exact h.marcado u hu
  refine ⟨?_, hfaixa, ?_, ?_, ?_, ?_, ?_, ?_, ?_⟩
  · have := c2 s
    have := (hfaixa s).1
    have := h.ini
    omega
  · intro v hv
    rcases c3 v with e | ⟨_, no, hno, hdest, e⟩
    · rw [e] at hv ⊢
      exact h.caminho v hv
    · rw [e, ← hdest]
      exact Caminho.snoc no (h.caminho u0 hinf) hno
  · intro u hu
    rw [hvis2] at hu
    exact hmarcado u hu
  · intro x no hx hno
    rw [hvis2] at hx
    rw [hkeep x hx]
    by_cases e : x = u0
    · rw [e] at hno ⊢
      by_cases hdv : upd st.visitado u0 true no.id_destino = false
      · exact c4 no hno hdv
      · have hdv' : upd st.visitado u0 true no.id_destino = true := by simpa using hdv
        have hne := hA.sem_laco u0 no hno
        rw [hkeep _ hdv']
        rw [hvis_of _ hne] at hdv'
        have := h.ordem no.id_destino u0 hdv' hu0 hu0n
        have := hA.positivo u0 no hno
        omega
    · rw [hvis_of x e] at hx
      have := h.arestas x no hx hno
      have := c2 no.id_destino
      omega
  · intro x v hx hv hvn
    rw [hvis2] at hx hv
    rw [hkeep x hx]
    have hvne : v ≠ u0 := by
      intro e
      rw [e, upd_same] at hv
      exact Bool.noConfusion hv
    have hv' : st.visitado v = false := by
      rw [hvis_of v hvne] at hv
      exact hv
    have hxu : st.dist x ≤ st.dist u0 := by
      by_cases e : x = u0
      · rw [e]
      · rw [hvis_of x e] at hx
        exact h.ordem x u0 hx hu0 hu0n
    rcases c3 v with e | ⟨_, no, hno, _, e⟩
    · rw [e]
      by_cases ex : x = u0
      · rw [ex]
        exact hmin v hvn hv'
      · rw [hvis_of x ex] at hx
        exact h.ordem x v hx hv' hvn
    · rw [e]
      have := hA.positivo u0 no hno
      omega
  · intro v hv
    rw [hvis2]
    rcases c3 v with e | ⟨hnv, no, hno, hdest, e⟩
    · rw [e] at hv ⊢
      have := h.pot v hv
      omega
    · rw [e]
      rw [← hdest] at hnv
      exact hnew no hno hnv
  · intro x no hx hno
    rw [hvis2] at hx
    by_cases e : x = u0
    · rw [e] at hno
      by_cases hdv : upd st.visitado u0 true no.id_destino = false
      · have := c4 no hno hdv
        have := hnew no hno hdv
        omega
      · exact hmarcado _ (by simpa using hdv)
    · rw [hvis_of x e] at hx
      have := h.fronteira x no hx hno
      have := c2 no.id_destino
      have := (h.faixa no.id_destino).2
      omega
  · rw [hvis2]
    have := Exercicio1.naoVisitados_marca hu0n hu0
    have := h.limite
    omega

theorem invCusto_of_iter {g : Grafo} (hg : Construido g) (hS : somaEntradas g < 2 * INFINITO)
    {s j : Nat} {st : EstadoDijkstra} (h : IterDij g s j st) :
    ∃ t, InvDij g st t j ∧ InvCusto g s st t j := by
  induction h with
  | inicio =>
    exact ⟨fun _ => 0, invDij_inicio g s,
      invCusto_inicio (invariantesRota_of_construido hg).2 s⟩
  | passo _ _ hsel hinf ih =>
    obtain ⟨t, hD, hC⟩ := ih
    exact ⟨_, invDij_passo hD (selecionar_nao_visitado hsel).2,
      invCusto_passo hg hS hD hC hsel hinf⟩

end Exercicio2

namespace Exercicio2

theorem construido_grafoABCD : Construido grafoABCD :=
  Construido.rota 2 3 1 (Construido.rota 0 2 4 (Construido.rota 1 2 2 (Construido.rota 0 1 1
    (Construido.cidade "D" (Construido.cidade "C" (Construido.cidade "B"
      (Construido.cidade "A" Construido.vazio)))))))

theorem caminho_lt {g : Grafo} (hA : InvAdj g) {s v : Nat} {c : Int}
    (h : Caminho g s v c) (hs : s < g.num_cidades) : v < g.num_cidades := by
  cases h with
  | nil => exact hs
  | snoc no _ hadj => exact hA.lt _ no hadj

/-- When the loop ends, the unmarked cities all hold the same distance. -/
theorem saida_iguais {g : Grafo} {s j : Nat} {st : EstadoDijkstra} {t : Nat → Nat}
    (h : InvCusto g s st t j)
    (hfim : j + 1 = g.num_cidades ∨
      ∃ u, selecionar g.num_cidades st = some u ∧ st.dist u = INFINITO) :
    ∀ v w, v < g.num_cidades → w < g.num_cidades → st.visitado v = false →
      st.visitado w = false → st.dist v = st.dist w := by
  intro v w hv hw hvv hvw
  rcases hfim with hj | ⟨u, hsel, hu⟩
  · have hl := h.limite
    have hc : Exercicio1.naoVisitados g.num_cidades st.visitado ≤ 1 := by omega
    unfold Exercicio1.naoVisitados at hc
    have e : v = w := Finset.card_le_one.mp hc v
      (Finset.mem_filter.mpr ⟨Finset.mem_range.mpr hv, hvv⟩) w
      (Finset.mem_filter.mpr ⟨Finset.mem_range.mpr hw, hvw⟩)
    rw [e]
  · obtain ⟨_, _, hmin⟩ := selecionar_menor hsel
    have h1 := hmin v hv hvv
    have h2 := hmin w hw hvw
    have := (h.faixa v).2
    have := (h.faixa w).2
    omega

/-- When the loop ends, the distance of a city is a lower bound of the cost of every
path to it, and a city with a path does not hold the sentinel. -/
theorem final_limite {g : Grafo} (hA : InvAdj g) {s j : Nat} {st : EstadoDijkstra}
    {t : Nat → Nat} (h : InvCusto g s st t j) (hs : s < g.num_cidades)
    (hX : ∀ v w, v < g.num_cidades → w < g.num_cidades → st.visitado v = false →
      st.visitado w = false → st.dist v = st.dist w)
    {v : Nat} {c : Int} (hc : Caminho g s v c) : st.dist v ≤ c ∧ st.dist v ≠ INFINITO := by
  have hI : INFINITO = 99999 := rfl
  induction hc with
  | nil =>
    rw [h.ini, hI]
    constructor <;> omega
  | @snoc b total no hpath hadj ih =>
    have hb := caminho_lt hA hpath hs
    have hd := hA.lt b no hadj
    have hp := hA.positivo b no hadj
    by_cases hvb : st.visitado b = true
    · have := h.arestas b no hvb hadj
      exact ⟨by omega, h.fronteira b no hvb hadj⟩
    · have hvb' : st.visitado b = false := by simpa using hvb
      by_cases hvd : st.visitado no.id_destino = true
      · have := h.ordem no.id_destino b hvd hvb' hb
        exact ⟨by omega, h.marcado _ hvd⟩
      · have hvd' : st.visitado no.id_destino = false := by simpa using hvd
        have e := hX no.id_destino b hd hb hvd' hvb'
        rw [e]
        exact ⟨by omega, ih.2⟩

end Exercicio2

/-- C23. On every built route graph whose route costs add up to less than the sentinel
99999 (each route is stored as two nodes, so the costs of the stored nodes add up to
less than twice the sentinel; this holds in particular when the stored nodes themselves
add up to less than 99999) and for every valid start id: in every iteration that the
main loop runs past the `break`, the addition `dist[u] + custo` of every node of the list
of the selected city stays in the 32-bit signed range (so the stored value is the exact
sum); the loop ends, and in the final arrays every city with a path from the start holds
the cost of a cheapest path, which is below 99999, and a city holds 99999 exactly when
no path from the start leads to it, which is also exactly when its report line is
"Inatingivel". -/
theorem dijkstra_exato_abaixo_da_sentinela (g : Exercicio2.Grafo)
    (hg : Exercicio2.Construido g)
    (hsoma : Exercicio2.somaEntradas g < 2 * Exercicio2.INFINITO)
    (id_inicio : Int) (h0 : 0 ≤ id_inicio) (h1 : id_inicio < (g.num_cidades : Int)) :
    (∀ j st u l1 no l2, Exercicio2.IterDij g id_inicio.toNat j st →
      j + 1 < g.num_cidades → Exercicio2.selecionar g.num_cidades st = some u →
      st.dist u ≠ Exercicio2.INFINITO → g.adj u = l1 ++ no :: l2 →
      -2147483648 ≤ (l1.foldl (Exercicio2.relaxar u)
          { st with visitado := upd st.visitado u true }).dist u + no.custo ∧
      (l1.foldl (Exercicio2.relaxar u)
          { st with visitado := upd st.visitado u true }).dist u + no.custo < 2147483648 ∧
      Exercicio2.wrapInt32 ((l1.foldl (Exercicio2.relaxar u)
          { st with visitado := upd st.visitado u true }).dist u + no.custo) =
        (l1.foldl (Exercicio2.relaxar u)
          { st with visitado := upd st.visitado u true }).dist u + no.custo) ∧
    ∃ st, Exercicio2.dijkstraFinal g id_inicio.toNat = some st ∧
      (∀ v c, Exercicio2.Caminho g id_inicio.toNat v c →
        Exercicio2.CustoMinimo g id_inicio.toNat v (st.dist v) ∧
        st.dist v < Exercicio2.INFINITO) ∧
      (∀ v, st.dist v = Exercicio2.INFINITO ↔
        ¬ ∃ c, Exercicio2.Caminho g id_inicio.toNat v c) ∧
      (∀ v, Exercicio2.relatorio st v = some Exercicio2.Relatorio.inatingivel ↔
        ¬ ∃ c, Exercicio2.Caminho g id_inicio.toNat v c) := by
  have hs : id_inicio.toNat < g.num_cidades := by omega
  have hA := (Exercicio2.invariantesRota_of_construido hg).2
  constructor
  · intro j st u l1 no l2 hit _ hsel _ hadj
    obtain ⟨t, _, hC⟩ := Exercicio2.invCusto_of_iter hg hsoma hit
    have hmem : ∀ x, x ∈ l1 ++ no :: l2 → x ∈ g.adj u := by
      intro x hx
      rw [hadj]
      exact hx
    have hfx := fun (x : Exercicio2.NoRota) (hx : x ∈ g.adj u) =>
      Exercicio2.soma_na_faixa hg hsoma (hC.faixa u).1 (hC.faixa u).2 hx
    obtain ⟨c1, _⟩ := Exercicio2.relaxar_dist u (st.dist u) l1
      { st with visitado := upd st.visitado u true } (upd_same _ _ _) rfl
      (fun x hx => Exercicio2.wrapInt32_eq _
        (hfx x (hmem x (List.mem_append_left _ hx))).1
        (hfx x (hmem x (List.mem_append_left _ hx))).2)
    rw [c1]
    have hno := hfx no (hmem no (List.mem_append_right _ (List.mem_cons_self no l2)))
    exact ⟨hno.1, hno.2, Exercicio2.wrapInt32_eq _ hno.1 hno.2⟩
  · obtain ⟨j, st, hst, hit, hfim⟩ := Exercicio2.dijkstraFinal_iter g hs
    obtain ⟨t, _, hC⟩ := Exercicio2.invCusto_of_iter hg hsoma hit
    have hX := Exercicio2.saida_iguais hC hfim
    have hiff : ∀ v, st.dist v = Exercicio2.INFINITO ↔
        ¬ ∃ c, Exercicio2.Caminho g id_inicio.toNat v c := by
      intro v
      constructor
      · rintro hv ⟨c, hc⟩
        exact (Exercicio2.final_limite hA hC hs hX hc).2 hv
      · intro hn
        by_contra hv
        exact hn ⟨_, hC.caminho v hv⟩
    refine ⟨st, hst, ?_, hiff, ?_⟩
    · intro v c hc
      have hv := Exercicio2.final_limite hA hC hs hX hc
      refine ⟨⟨hC.caminho v hv.2, ?_⟩, lt_of_le_of_ne (hC.faixa v).2 hv.2⟩
      intro c' hc'
      exact (Exercicio2.final_limite hA hC hs hX hc').1
    · intro v
      rw [← hiff v]
      unfold Exercicio2.relatorio
      by_cases hv : st.dist v = Exercicio2.INFINITO
      · rw [if_pos hv]
        exact ⟨fun _ => hv, fun _ => rfl⟩
      · rw [if_neg hv]
        constructor
        · intro he
          cases hr : Exercicio2.reconstruir st.pai Exercicio2.MAX_CIDADES (v : Int) [] with
          | none =>
            rw [hr] at he
            cases he
          | some c =>
            rw [hr] at he
            cases he
        · intro he
          exact absurd he hv

theorem dijkstra_exato_abaixo_da_sentinela_witness :
    (∀ j st u l1 no l2, Exercicio2.IterDij Exercicio2.grafoABCD (0 : Int).toNat j st →
      j + 1 < Exercicio2.grafoABCD.num_cidades →
      Exercicio2.selecionar Exercicio2.grafoABCD.num_cidades st = some u →
      st.dist u ≠ Exercicio2.INFINITO → Exercicio2.grafoABCD.adj u = l1 ++ no :: l2 →
      -2147483648 ≤ (l1.foldl (Exercicio2.relaxar u)
          { st with visitado := upd st.visitado u true }).dist u + no.custo ∧
      (l1.foldl (Exercicio2.relaxar u)
          { st with visitado := upd st.visitado u true }).dist u + no.custo < 2147483648 ∧
      Exercicio2.wrapInt32 ((l1.foldl (Exercicio2.relaxar u)
          { st with visitado := upd st.visitado u true }).dist u + no.custo) =
        (l1.foldl (Exercicio2.relaxar u)
          { st with visitado := upd st.visitado u true }).dist u + no.custo) ∧
    ∃ st, Exercicio2.dijkstraFinal Exercicio2.grafoABCD (0 : Int).toNat = some st ∧
      (∀ v c, Exercicio2.Caminho Exercicio2.grafoABCD (0 : Int).toNat v c →
        Exercicio2.CustoMinimo Exercicio2.grafoABCD (0 : Int).toNat v (st.dist v) ∧
        st.dist v < Exercicio2.INFINITO) ∧
      (∀ v, st.dist v = Exercicio2.INFINITO ↔
        ¬ ∃ c, Exercicio2.Caminho Exercicio2.grafoABCD (0 : Int).toNat v c) ∧
      (∀ v, Exercicio2.relatorio st v = some Exercicio2.Relatorio.inatingivel ↔
        ¬ ∃ c, Exercicio2.Caminho Exercicio2.grafoABCD (0 : Int).toNat v c) :=
  dijkstra_exato_abaixo_da_sentinela Exercicio2.grafoABCD Exercicio2.construido_grafoABCD
    (by decide) 0 (by decide) (by decide)
